import Mathlib

/-!
# Sector-aligned random access over a virtual disk

A shallow embedding of `pkg/virtual_disks/gvddk.go`: the alignment adapter
`DiskConnectHandle` (`ReadAt`, `WriteAt`, `Capacity`) and the cursor stream
`DiskReaderWriter` (`Read`, `Write`) built on top of it.

Conventions of the embedding.

* Go integers are values of `Int`; the conversions `int64`, `int32` and
  `uint64` reduce modulo the width where the source converts or where a sum
  of caller-supplied values is formed.  Go's `int` is taken to be 64 bits wide.
* Go's `/` and `%` on signed integers truncate toward zero: `Int.tdiv`,
  `Int.tmod`.
* A byte slice is a length together with a content function; a sub-slice
  expression extracts a window and `Slice.store` writes a window back, which
  is what sharing of the backing array amounts to in sequential code.
* A run-time panic (slice bounds out of range) is the result `none`.
* The mutex of a handle is represented by the number of times it has been
  locked; every lock is released by the deferred unlock when the call returns.
-/

namespace VirtualDisks

/-- One byte of a buffer or of the disk. -/
abbrev Byte := UInt8

/-- Conversion to Go `int64`: two's-complement reduction modulo `2^64`. -/
def int64 (x : Int) : Int := (x + 2 ^ 63) % 2 ^ 64 - 2 ^ 63

/-- Conversion to Go `int32`: two's-complement reduction modulo `2^32`. -/
def int32 (x : Int) : Int := (x + 2 ^ 31) % 2 ^ 32 - 2 ^ 31

/-- Conversion to Go `uint64`: reduction modulo `2^64`. -/
def uint64 (x : Int) : Nat := (x % 2 ^ 64).toNat

/-! ## Byte slices -/

/-- A Go `[]byte`: its length and its content (read only below `len`). -/
structure Slice where
  len : Nat
  get : Nat → Byte

namespace Slice

/-- The Go expression `make([]byte, n)`: `n` zero bytes. -/
def make (n : Nat) : Slice := ⟨n, fun _ => 0⟩

/-- The Go expression `p[lo:hi]`, for bounds already checked. -/
def slice (p : Slice) (lo hi : Nat) : Slice := ⟨hi - lo, fun j => p.get (lo + j)⟩

/-- The effect on `p` of the sub-slice that starts at `lo` now holding `q`. -/
def store (p : Slice) (lo : Nat) (q : Slice) : Slice :=
  ⟨p.len, fun j => if lo ≤ j ∧ j < lo + q.len then q.get (j - lo) else p.get j⟩

end Slice

/-- Go's built-in `copy(dst, src)`: the first `min(len(dst), len(src))` bytes
of `src` are copied to the front of `dst`. -/
def copy (dst src : Slice) : Slice :=
  ⟨dst.len, fun j => if j < min dst.len src.len then src.get j else dst.get j⟩

/-! ## The sector device (package `disklib`) -/

namespace disklib

/-- Modelled from the spec: the constant `disklib.VIXDISKLIB_SECTOR_SIZE`,
declared outside the files at hand; the spec fixes the sector size at 512. -/
abbrev VIXDISKLIB_SECTOR_SIZE : Nat := 512

/-- Modelled from the spec: the constant `disklib.VIX_E_DISK_OUTOFRANGE`,
declared outside the files at hand, the code of the device-level
"address out of range" condition (16007 in the VDDK headers). -/
def VIX_E_DISK_OUTOFRANGE : Nat := 16007

/-- Modelled from the spec: the interface `disklib.VddkError`, declared
outside the files at hand; a device error carries a code and a message. -/
structure VddkError where
  VixErrorCode : Nat
  Error : String
deriving DecidableEq

/-- A call received by the sector device: kind, first sector, number of
sectors and the length of the buffer handed over. -/
inductive DevCall where
  | Read (startSector numSectors bufLen : Nat)
  | Write (startSector numSectors bufLen : Nat)
deriving DecidableEq

/-- Modelled from the spec: the Sector Device behind a
`disklib.VixDiskLibHandle`, declared outside the files at hand.  `sector s k`
is byte `k` of sector `s`; `outcome n c` is what the device answers to call `c`
when it is the `n`-th call it receives (`none` for success), which leaves the
behaviour of the device arbitrary; `calls` records the calls received. -/
structure VixDiskLibHandle where
  sector : Nat → Nat → Byte
  outcome : Nat → DevCall → Option VddkError
  calls : List DevCall

/-- Modelled from the spec: `disklib.VixDiskLibInfo`, declared outside the
files at hand; `Capacity` is the capacity of the disk in sectors. -/
structure VixDiskLibInfo where
  Capacity : Nat

/-- Modelled from the spec: `disklib.Read`, declared outside the files at
hand: "given a starting sector index and a count, reads exactly
`count * SECTOR_SIZE` bytes".  On success the first `numSectors * 512` bytes of
`buf` hold the sectors `startSector, startSector + 1, ...`; on failure `buf` is
left as it was. -/
def Read (dli : VixDiskLibHandle) (startSector numSectors : Nat) (buf : Slice) :
    VixDiskLibHandle × Slice × Option VddkError :=
  let call := DevCall.Read startSector numSectors buf.len
  let dli1 : VixDiskLibHandle := { dli with calls := dli.calls ++ [call] }
  match dli.outcome dli.calls.length call with
  | some e => (dli1, buf, some e)
  | none =>
    (dli1,
     ⟨buf.len, fun j =>
        if j < numSectors * VIXDISKLIB_SECTOR_SIZE then
          dli.sector (startSector + j / VIXDISKLIB_SECTOR_SIZE) (j % VIXDISKLIB_SECTOR_SIZE)
        else buf.get j⟩,
     none)

/-- Modelled from the spec: `disklib.Write`, declared outside the files at
hand: "given a starting sector index and a count, writes exactly
`count * SECTOR_SIZE` bytes".  On success the sectors
`startSector, ..., startSector + numSectors - 1` hold the bytes of `buf`; on
failure the disk is left as it was. -/
def Write (dli : VixDiskLibHandle) (startSector numSectors : Nat) (buf : Slice) :
    VixDiskLibHandle × Option VddkError :=
  let call := DevCall.Write startSector numSectors buf.len
  match dli.outcome dli.calls.length call with
  | some e => ({ dli with calls := dli.calls ++ [call] }, some e)
  | none =>
    ({ dli with
        calls := dli.calls ++ [call]
        sector := fun s k =>
          if startSector ≤ s ∧ s < startSector + numSectors then
            buf.get ((s - startSector) * VIXDISKLIB_SECTOR_SIZE + k)
          else dli.sector s k },
     none)

end disklib

open disklib

/-! ## Errors returned to the caller -/

/-- The values of Go's `error` that the adapter and the stream return. -/
inductive GoError where
  /-- The value `io.EOF`. -/
  | EOF
  /-- The value `io.ErrShortWrite`. -/
  | ErrShortWrite
  /-- A device error returned as it is. -/
  | Vddk (e : VddkError)
  /-- The result of `errors.Wrap(e, msg)`. -/
  | Wrap (e : VddkError) (msg : String)
  /-- The result of `errors.New(msg)`. -/
  | New (msg : String)
deriving DecidableEq

/-- The function `mapError`: the out-of-range code becomes `io.EOF`, every
other device error is handed on. -/
def mapError (vddkError : VddkError) : GoError :=
  if vddkError.VixErrorCode = VIX_E_DISK_OUTOFRANGE then GoError.EOF
  else GoError.Vddk vddkError

/-- The function `aligned`: length and offset are both multiples of the
sector size. -/
def aligned (len : Int) (off : Int) : Bool :=
  decide (Int.tmod len VIXDISKLIB_SECTOR_SIZE = 0) && decide (Int.tmod off VIXDISKLIB_SECTOR_SIZE = 0)

/-! ## The alignment adapter -/

/-- The struct `DiskConnectHandle`: the device handle, the disk information
and the mutex (the number of times it has been locked). -/
structure DiskConnectHandle where
  mutex : Nat
  dli : VixDiskLibHandle
  info : VixDiskLibInfo

/-- What `ReadAt`, `WriteAt`, `Read` and `Write` hand back: the receiver
afterwards, the buffer afterwards, the byte count `n` and the error `err`
(`none` for `nil`). -/
structure Result (σ : Type) where
  this : σ
  p : Slice
  n : Int
  err : Option GoError

/-- The local variables of `ReadAt` and `WriteAt` between two parts of the
decomposition.  `srcOff` is used by `WriteAt` only. -/
structure Locals where
  dli : VixDiskLibHandle
  p : Slice
  startSector : Int
  total : Int
  srcOff : Int

namespace DiskConnectHandle

/-- The method `Capacity`: `int64(this.info.Capacity) * VIXDISKLIB_SECTOR_SIZE`. -/
def Capacity (this : DiskConnectHandle) : Int :=
  int64 (int64 this.info.Capacity * VIXDISKLIB_SECTOR_SIZE)

/-- The statement `this.mutex.Lock()` with its deferred unlock. -/
def Lock (this : DiskConnectHandle) : DiskConnectHandle :=
  { this with mutex := this.mutex + 1 }

/-! ### ReadAt -/

/-- The part of `ReadAt` under "Start missing aligned part": when `off` is
not a multiple of the sector size, one sector is read into a temporary buffer
and its bytes from `off % 512` on are copied to the front of `p`.  The right
component is the early return `(n, err)` if there is one; `none` is the panic
of `tmpBuf[srcOff:srcEnd]` on bounds out of range. -/
def ReadAt.startPart (s : Locals) (off : Int) : Option (Locals × Option (Int × GoError)) :=
  if Int.tmod off VIXDISKLIB_SECTOR_SIZE ≠ 0 then
    let tmpBuf := Slice.make VIXDISKLIB_SECTOR_SIZE
    match disklib.Read s.dli (uint64 s.startSector) 1 tmpBuf with
    | (dli, _, some err) => some ({ s with dli := dli }, some (0, mapError err))
    | (dli, tmpBuf, none) =>
      let srcOff : Int := Int.tmod off VIXDISKLIB_SECTOR_SIZE
      let count : Int :=
        if VIXDISKLIB_SECTOR_SIZE - srcOff > s.p.len then s.p.len else VIXDISKLIB_SECTOR_SIZE - srcOff
      let srcEnd := srcOff + count
      if 0 ≤ srcOff ∧ srcOff ≤ srcEnd ∧ srcEnd ≤ VIXDISKLIB_SECTOR_SIZE then
        let tmpSlice := tmpBuf.slice srcOff.toNat srcEnd.toNat
        some ({ s with
                dli := dli
                p := s.p.store 0 (copy (s.p.slice 0 count.toNat) tmpSlice)
                startSector := s.startSector + 1
                total := s.total + count }, none)
      else none
  else some (s, none)

/-- The part of `ReadAt` under "Middle aligned part": the whole sectors that
remain are read by one device call straight into `p[desOff:desEnd]`. -/
def ReadAt.middlePart (s : Locals) : Locals × Option (Int × GoError) :=
  let numAlignedSectors : Int := Int.tdiv (s.p.len - s.total) VIXDISKLIB_SECTOR_SIZE
  if numAlignedSectors > 0 then
    let desOff := s.total
    let desEnd := s.total + numAlignedSectors * VIXDISKLIB_SECTOR_SIZE
    match disklib.Read s.dli (uint64 s.startSector) (uint64 numAlignedSectors)
        (s.p.slice desOff.toNat desEnd.toNat) with
    | (dli, _, some err) => ({ s with dli := dli }, some (s.total, mapError err))
    | (dli, sub, none) =>
      ({ s with
          dli := dli
          p := s.p.store desOff.toNat sub
          startSector := s.startSector + numAlignedSectors
          total := s.total + numAlignedSectors * VIXDISKLIB_SECTOR_SIZE }, none)
  else (s, none)

/-- The part of `ReadAt` under "End missing aligned part": when bytes remain,
one more sector is read into a temporary buffer and its leading bytes are
copied to `p[total:]`.  As in the source, `total` is left as it is.  Fewer
than 512 bytes remain after the middle part, so `tmpBuf[0:srcEnd]` is within
bounds. -/
def ReadAt.endPart (s : Locals) : Locals × Option (Int × GoError) :=
  if (s.p.len : Int) - s.total > 0 then
    let tmpBuf := Slice.make VIXDISKLIB_SECTOR_SIZE
    match disklib.Read s.dli (uint64 s.startSector) 1 tmpBuf with
    | (dli, _, some err) => ({ s with dli := dli }, some (s.total, mapError err))
    | (dli, tmpBuf, none) =>
      let count : Int := s.p.len - s.total
      let srcEnd := count
      let tmpSlice := tmpBuf.slice 0 srcEnd.toNat
      ({ s with
          dli := dli
          p := s.p.store s.total.toNat (copy (s.p.slice s.total.toNat s.p.len) tmpSlice) }, none)
  else (s, none)

/-- The body of `ReadAt` after the capacity check: `p` is the buffer of the
caller and `q` the slice that `p` has been cut down to.  The result is `none`
when the call panics.  The buffer of the result is the buffer of the caller,
of its original length, with the bytes that were read stored at its front. -/
def ReadAt.run (this : DiskConnectHandle) (p q : Slice) (off : Int) :
    Option (Result DiskConnectHandle) :=
  let startSector := Int.tdiv off VIXDISKLIB_SECTOR_SIZE
  let this1 := if aligned q.len off then this else this.Lock
  let s0 : Locals := ⟨this1.dli, q, startSector, 0, 0⟩
  let done (s : Locals) (n : Int) (err : Option GoError) : Option (Result DiskConnectHandle) :=
    some ⟨{ this1 with dli := s.dli }, p.store 0 s.p, n, err⟩
  match ReadAt.startPart s0 off with
  | none => none
  | some (s1, some (n, err)) => done s1 n (some err)
  | some (s1, none) =>
    match ReadAt.middlePart s1 with
    | (s2, some (n, err)) => done s2 n (some err)
    | (s2, none) =>
      match ReadAt.endPart s2 with
      | (s3, some (n, err)) => done s3 n (some err)
      | (s3, none) => done s3 s3.total none

/-- The method `DiskConnectHandle.ReadAt`: end of stream at or beyond the
capacity; a buffer that reaches beyond the capacity is cut down by
`p = p[0:readLen]` with `readLen := int32(capacity - off)`, which panics
(`none`) on a negative bound (a bound that is not negative is at most
`capacity - off`, hence below `len(p)`); then the three parts. -/
def ReadAt (this : DiskConnectHandle) (p : Slice) (off : Int) :
    Option (Result DiskConnectHandle) :=
  let capacity := this.Capacity
  if off ≥ capacity then some ⟨this, p, 0, some GoError.EOF⟩
  else if int64 (off + int64 p.len) > capacity then
    let readLen := int32 (int64 (capacity - off))
    if readLen < 0 then none
    else ReadAt.run this p (p.slice 0 readLen.toNat) off
  else ReadAt.run this p p off

/-! ### WriteAt -/

/-- The part of `WriteAt` under "Start missing aligned part": when `off` is
not a multiple of the sector size, the sector is read, the bytes from
`off % 512` on are overwritten with the front of `p`, and the sector is
written back.  `none` is the panic of `tmpBuf[desOff:desEnd]` on bounds out of
range. -/
def WriteAt.startPart (s : Locals) (off : Int) : Option (Locals × Option (Int × GoError)) :=
  if Int.tmod off VIXDISKLIB_SECTOR_SIZE ≠ 0 then
    let tmpBuf := Slice.make VIXDISKLIB_SECTOR_SIZE
    match disklib.Read s.dli (uint64 s.startSector) 1 tmpBuf with
    | (dli, _, some err) => some ({ s with dli := dli }, some (0, mapError err))
    | (dli, tmpBuf, none) =>
      let desOff : Int := Int.tmod off VIXDISKLIB_SECTOR_SIZE
      let count : Int :=
        if (s.p.len : Int) < VIXDISKLIB_SECTOR_SIZE - desOff then s.p.len
        else VIXDISKLIB_SECTOR_SIZE - desOff
      let desEnd := desOff + count
      let srcEnd := s.srcOff + count
      if 0 ≤ desOff ∧ desOff ≤ desEnd ∧ desEnd ≤ VIXDISKLIB_SECTOR_SIZE then
        let tmpBuf1 := tmpBuf.store desOff.toNat
          (copy (tmpBuf.slice desOff.toNat desEnd.toNat) (s.p.slice s.srcOff.toNat srcEnd.toNat))
        match disklib.Write dli (uint64 s.startSector) 1 tmpBuf1 with
        | (dli1, some err) => some ({ s with dli := dli1 }, some (0, mapError err))
        | (dli1, none) =>
          some ({ s with
                  dli := dli1
                  startSector := s.startSector + 1
                  total := s.total + count
                  srcOff := s.srcOff + count }, none)
      else none
  else some (s, none)

/-- The part of `WriteAt` under "Middle aligned part, override directly": the
whole sectors that remain are written by one device call from
`p[srcOff:srcEnd]`, with no read. -/
def WriteAt.middlePart (s : Locals) : Locals × Option (Int × GoError) :=
  if Int.tdiv ((s.p.len : Int) - s.total) VIXDISKLIB_SECTOR_SIZE > 0 then
    let numSector : Int := Int.tdiv ((s.p.len : Int) - s.total) VIXDISKLIB_SECTOR_SIZE
    let srcEnd := s.srcOff + numSector * VIXDISKLIB_SECTOR_SIZE
    match disklib.Write s.dli (uint64 s.startSector) (uint64 numSector)
        (s.p.slice s.srcOff.toNat srcEnd.toNat) with
    | (dli, some err) => ({ s with dli := dli }, some (s.total, mapError err))
    | (dli, none) =>
      ({ s with
          dli := dli
          startSector := s.startSector + numSector
          total := s.total + numSector * VIXDISKLIB_SECTOR_SIZE
          srcOff := srcEnd }, none)
  else (s, none)

/-- The part of `WriteAt` under "End missing aligned part": when bytes
remain, the next sector is read, its leading bytes are overwritten with the
rest of `p`, and the sector is written back.  A failure of this last write is
returned wrapped, not mapped. -/
def WriteAt.endPart (s : Locals) : Locals × Option (Int × GoError) :=
  if (s.p.len : Int) - s.total > 0 then
    let count : Int := s.p.len - s.total
    let srcEnd := s.srcOff + count
    let tmpBuf := Slice.make VIXDISKLIB_SECTOR_SIZE
    match disklib.Read s.dli (uint64 s.startSector) 1 tmpBuf with
    | (dli, _, some err) => ({ s with dli := dli }, some (s.total, mapError err))
    | (dli, tmpBuf, none) =>
      let tmpBuf1 := tmpBuf.store 0
        (copy (tmpBuf.slice 0 count.toNat) (s.p.slice s.srcOff.toNat srcEnd.toNat))
      match disklib.Write dli (uint64 s.startSector) 1 tmpBuf1 with
      | (dli1, some err) =>
        ({ s with dli := dli1 },
         some (s.total, GoError.Wrap err "Write into disk in part 3 failed part3."))
      | (dli1, none) => ({ s with dli := dli1 }, none)
  else (s, none)

/-- The method `DiskConnectHandle.WriteAt`.  The result is `none` when the
call panics.  The buffer `p` is only read. -/
def WriteAt (this : DiskConnectHandle) (p : Slice) (off : Int) :
    Option (Result DiskConnectHandle) :=
  let capacity := this.Capacity
  if off > capacity ∨ int64 (off + int64 p.len) > capacity then
    some ⟨this, p, 0, some GoError.ErrShortWrite⟩
  else
    let this1 := if aligned p.len off then this else this.Lock
    let s0 : Locals := ⟨this1.dli, p, Int.tdiv off VIXDISKLIB_SECTOR_SIZE, 0, 0⟩
    let done (s : Locals) (n : Int) (err : Option GoError) : Option (Result DiskConnectHandle) :=
      some ⟨{ this1 with dli := s.dli }, p, n, err⟩
    match WriteAt.startPart s0 off with
    | none => none
    | some (s1, some (n, err)) => done s1 n (some err)
    | some (s1, none) =>
      match WriteAt.middlePart s1 with
      | (s2, some (n, err)) => done s2 n (some err)
      | (s2, none) =>
        match WriteAt.endPart s2 with
        | (s3, some (n, err)) => done s3 n (some err)
        | (s3, none) => done s3 p.len none

end DiskConnectHandle

/-! ## The cursor stream -/

/-- The struct `DiskReaderWriter`: the adapter, the cursor `*offset` and the
mutex of the stream (the number of times it has been locked). -/
structure DiskReaderWriter where
  diskHandle : DiskConnectHandle
  offset : Int
  mutex : Nat

/-- The function `NewDiskReaderWriter`: a stream over `diskHandle` with the
cursor at 0. -/
def NewDiskReaderWriter (diskHandle : DiskConnectHandle) : DiskReaderWriter :=
  { diskHandle := diskHandle, offset := 0, mutex := 0 }

namespace DiskReaderWriter

/-- The method `DiskReaderWriter.Read`: under the mutex of the stream,
`ReadAt` at the cursor, then `*this.offset += int64(bytesRead)`. -/
def Read (this : DiskReaderWriter) (p : Slice) : Option (Result DiskReaderWriter) :=
  match this.diskHandle.ReadAt p this.offset with
  | none => none
  | some r =>
    some ⟨{ diskHandle := r.this
            offset := int64 (this.offset + int64 r.n)
            mutex := this.mutex + 1 }, r.p, r.n, r.err⟩

/-- The method `DiskReaderWriter.Write`: under the mutex of the stream,
`WriteAt` at the cursor, then `*this.offset += int64(bytesWritten)`. -/
def Write (this : DiskReaderWriter) (p : Slice) : Option (Result DiskReaderWriter) :=
  match this.diskHandle.WriteAt p this.offset with
  | none => none
  | some r =>
    some ⟨{ diskHandle := r.this
            offset := int64 (this.offset + int64 r.n)
            mutex := this.mutex + 1 }, r.p, r.n, r.err⟩

end DiskReaderWriter

/-- The constant `io.SeekStart` of the Go library: seek relative to the
origin. -/
def SeekStart : Int := 0

/-- The constant `io.SeekCurrent` of the Go library: seek relative to the
cursor. -/
def SeekCurrent : Int := 1

/-- The constant `io.SeekEnd` of the Go library: seek relative to the end. -/
def SeekEnd : Int := 2

/-- What `Seek` hands back: the stream afterwards, the position `pos` and the
error `err` (`none` for `nil`). -/
structure SeekResult where
  this : DiskReaderWriter
  pos : Int
  err : Option GoError

namespace DiskReaderWriter

/-- The method `DiskReaderWriter.Seek`: under the mutex of the stream, the
candidate position is `offset` for `io.SeekStart`, `*this.offset + offset` (an
`int64` sum) for `io.SeekCurrent` and `*this.offset` for a `whence` that is
none of the three constants; `io.SeekEnd` returns the cursor and an error; a
negative candidate returns 0 and an error; otherwise the candidate becomes the
cursor and is returned. -/
def Seek (this : DiskReaderWriter) (offset : Int) (whence : Int) : SeekResult :=
  let this1 : DiskReaderWriter := { this with mutex := this.mutex + 1 }
  let commit (desiredOffset : Int) : SeekResult :=
    if desiredOffset < 0 then ⟨this1, 0, some (GoError.New "Cannot seek to negative offset")⟩
    else ⟨{ this1 with offset := desiredOffset }, desiredOffset, none⟩
  if whence = SeekStart then commit offset
  else if whence = SeekCurrent then commit (int64 (this.offset + offset))
  else if whence = SeekEnd then
    ⟨this1, this.offset, some (GoError.New "Seek from SeekEnd not implemented")⟩
  else commit this.offset

/-- The method `DiskReaderWriter.ReadAt`: `this.diskHandle.ReadAt(p, off)`,
without the mutex of the stream and without the cursor. -/
def ReadAt (this : DiskReaderWriter) (p : Slice) (off : Int) : Option (Result DiskReaderWriter) :=
  match this.diskHandle.ReadAt p off with
  | none => none
  | some r => some ⟨{ this with diskHandle := r.this }, r.p, r.n, r.err⟩

/-- The method `DiskReaderWriter.WriteAt`: `this.diskHandle.WriteAt(p, off)`,
without the mutex of the stream and without the cursor. -/
def WriteAt (this : DiskReaderWriter) (p : Slice) (off : Int) : Option (Result DiskReaderWriter) :=
  match this.diskHandle.WriteAt p off with
  | none => none
  | some r => some ⟨{ this with diskHandle := r.this }, r.p, r.n, r.err⟩

end DiskReaderWriter

/-- One call on a stream, with its arguments. -/
inductive Op where
  | Read (p : Slice)
  | Write (p : Slice)
  | Seek (offset : Int) (whence : Int)
  | ReadAt (p : Slice) (off : Int)
  | WriteAt (p : Slice) (off : Int)

namespace DiskReaderWriter

/-- The stream after one call; `none` when the call panics. -/
def step (this : DiskReaderWriter) : Op → Option DiskReaderWriter
  | Op.Read p => (this.Read p).map (fun r => r.this)
  | Op.Write p => (this.Write p).map (fun r => r.this)
  | Op.Seek offset whence => some (this.Seek offset whence).this
  | Op.ReadAt p off => (this.ReadAt p off).map (fun r => r.this)
  | Op.WriteAt p off => (this.WriteAt p off).map (fun r => r.this)

/-- The stream after a sequence of calls, one after the other; `none` when
one of them panics. -/
def steps (this : DiskReaderWriter) : List Op → Option DiskReaderWriter
  | [] => some this
  | op :: ops =>
    match this.step op with
    | none => none
    | some next => next.steps ops

end DiskReaderWriter

/-! ## Vocabulary of the statements -/

/-- A device that answers every call with success: "all device operations
succeed". -/
def NoFault (dli : VixDiskLibHandle) : Prop := ∀ k c, dli.outcome k c = none

/-- The device byte at absolute position `b`: byte `b % 512` of sector
`b / 512`. -/
def byteAt (dli : VixDiskLibHandle) (b : Nat) : Byte := dli.sector (b / 512) (b % 512)

/-- The byte count that `ReadAt` reports for an effective request of `len`
bytes at offset `o` when every device read succeeds: the leading part and the
whole sectors of the middle run, without the trailing part. -/
def readCount (o len : Nat) : Nat :=
  let lead := if o % 512 = 0 then 0 else min (512 - o % 512) len
  lead + 512 * ((len - lead) / 512)

/-- A disk whose byte `k` of sector `s` is `s + k + 1` (modulo 256) and which
answers every call with success. -/
def sampleDisk : VixDiskLibHandle := ⟨fun s k => UInt8.ofNat (s + k + 1), fun _ _ => none, []⟩

/-- A handle on `sampleDisk` with a capacity of `sectors` sectors. -/
def sampleHandle (sectors : Nat) : DiskConnectHandle := ⟨0, sampleDisk, ⟨sectors⟩⟩

/-- A buffer of `n` bytes whose byte `j` is `200 + j` (modulo 256). -/
def sampleBuffer (n : Nat) : Slice := ⟨n, fun j => UInt8.ofNat (200 + j)⟩

/-- The `sampleDisk` with one fault: the call number `k` it receives (counted
from 0) fails with the error `e`, every other call succeeds. -/
def faultyDisk (k : Nat) (e : VddkError) : VixDiskLibHandle :=
  { sampleDisk with outcome := fun n _ => if n = k then some e else none }

/-- A handle on `faultyDisk k e` with a capacity of `sectors` sectors. -/
def faultyHandle (sectors k : Nat) (e : VddkError) : DiskConnectHandle :=
  ⟨0, faultyDisk k e, ⟨sectors⟩⟩

/-- A sequence of calls on a stream: sequential and random-access transfers
and seeks, among them a seek to a negative position and a seek whose sum
leaves `int64`. -/
def sampleOps : List Op :=
  [Op.Write (sampleBuffer 100), Op.Seek (-1) SeekStart, Op.Seek 7 SeekCurrent,
   Op.Read (Slice.make 600), Op.ReadAt (Slice.make 10) 3, Op.WriteAt (sampleBuffer 10) 5,
   Op.Seek (2 ^ 63 - 1) SeekStart, Op.Seek 1 SeekCurrent]

/-- The length that `ReadAt` cuts the buffer down to before its three parts:
`len(p)` when the request ends within the capacity, else
`int32(capacity - off)`; `none` when that bound is negative and
`p[0:readLen]` panics. -/
def clipLen (this : DiskConnectHandle) (p : Slice) (off : Int) : Option Nat :=
  if int64 (off + int64 p.len) > this.Capacity then
    if int32 (int64 (this.Capacity - off)) < 0 then none
    else some (int32 (int64 (this.Capacity - off))).toNat
  else some p.len

/-- The three sub-operations of a request. -/
inductive Part where
  | leading
  | middle
  | trailing
deriving DecidableEq

/-- The number of bytes of the leading part of a request of `len` bytes at
offset `o`: `min(512 - o % 512, len)` when `o` is not a multiple of 512. -/
def leadLen (o len : Nat) : Nat := if o % 512 = 0 then 0 else min (512 - o % 512) len

/-- The number of whole sectors of the middle run of a request of `len` bytes
at offset `o`. -/
def midSectors (o len : Nat) : Nat := (len - leadLen o len) / 512

/-- The device reads of a read of `len` bytes at offset `o`, in order, each
with the sub-operation it belongs to: one sector at `o / 512` for the leading
part when `o` is not a multiple of 512, the whole sectors of the middle run
when there is one, one sector for the trailing part when bytes remain. -/
def readPlan (o len : Nat) : List (Part × DevCall) :=
  (if o % 512 = 0 then [] else [(Part.leading, DevCall.Read (o / 512) 1 512)]) ++
  (if midSectors o len = 0 then []
    else [(Part.middle,
      DevCall.Read ((o + 511) / 512) (midSectors o len) (512 * midSectors o len))]) ++
  (if len - readCount o len = 0 then []
    else [(Part.trailing, DevCall.Read ((o + 511) / 512 + midSectors o len) 1 512)])

/-- The first call of a plan that the device fails, the first call of the
plan being the call number `k` that the device receives: the sub-operation it
belongs to and the error. -/
def firstFailure (outcome : Nat → DevCall → Option VddkError) :
    Nat → List (Part × DevCall) → Option (Part × VddkError)
  | _, [] => none
  | k, (part, c) :: rest =>
    match outcome k c with
    | some e => some (part, e)
    | none => firstFailure outcome (k + 1) rest

/-- The calls of a plan up to and including the first one that the device
fails, the first call of the plan being the call number `k` that the device
receives. -/
def issued (outcome : Nat → DevCall → Option VddkError) :
    Nat → List (Part × DevCall) → List DevCall
  | _, [] => []
  | k, (_, c) :: rest =>
    c :: (match outcome k c with
      | some _ => []
      | none => issued outcome (k + 1) rest)

/-- The number of bytes of a read of `len` bytes at offset `o` that the
sub-operations before `part` copy: none before the leading part, the leading
count before the middle run, leading count and middle run before the trailing
part. -/
def bytesBefore (o len : Nat) : Part → Nat
  | Part.leading => 0
  | Part.middle => leadLen o len
  | Part.trailing => readCount o len

/-- The arguments of a call fit their Go types and the sums that the guards
form stay within `int64`: the offset of a `Seek` is an `int64`, and a buffer
handed to `Read` or `Write` on a disk of `capacity` bytes has
`capacity + len(p) < 2^63`. -/
def Op.Fits (capacity : Int) : Op → Prop
  | Op.Read p => capacity + p.len < 2 ^ 63
  | Op.Write p => capacity + p.len < 2 ^ 63
  | Op.Seek offset _ => -2 ^ 63 ≤ offset ∧ offset < 2 ^ 63
  | Op.ReadAt _ _ => True
  | Op.WriteAt _ _ => True

/-- The first sector that a device call addresses. -/
def firstSector : DevCall → Nat
  | DevCall.Read s _ _ => s
  | DevCall.Write s _ _ => s

/-- The number of sectors that a device call addresses. -/
def sectorCount : DevCall → Nat
  | DevCall.Read _ n _ => n
  | DevCall.Write _ n _ => n

/-- The call addresses a sector range `[s, s + count)` with
`s + count <= sectors`. -/
def inRange (sectors : Nat) (c : DevCall) : Bool :=
  decide (firstSector c + sectorCount c ≤ sectors)

/-- The call is a device read. -/
def isRead : DevCall → Bool
  | DevCall.Read _ _ _ => true
  | DevCall.Write _ _ _ => false

/-- The sector ranges of the calls are consecutive and ascending from sector
`s`: the first call starts at `s` and each further call starts where the one
before it ends. -/
def consecutiveFrom : Nat → List DevCall → Bool
  | _, [] => true
  | s, c :: rest => decide (firstSector c = s) && consecutiveFrom (s + sectorCount c) rest

/-- The device calls of the leading part of a write at offset `o`: when `o`
is not a multiple of 512, the read of sector `o / 512` and the write that puts
it back. -/
def writeLead (o : Nat) : List (Part × DevCall) :=
  if o % 512 = 0 then []
  else [(Part.leading, DevCall.Read (o / 512) 1 512), (Part.leading, DevCall.Write (o / 512) 1 512)]

/-- The device call of the middle run of a write of `len` bytes at offset
`o`: one write of the whole sectors, when there is one. -/
def writeMid (o len : Nat) : List (Part × DevCall) :=
  if midSectors o len = 0 then []
  else [(Part.middle,
    DevCall.Write ((o + 511) / 512) (midSectors o len) (512 * midSectors o len))]

/-- The device calls of the trailing part of a write of `len` bytes at offset
`o`: when bytes remain after the middle run, the read of the next sector and
the write that puts it back. -/
def writeTrail (o len : Nat) : List (Part × DevCall) :=
  if len - readCount o len = 0 then []
  else [(Part.trailing, DevCall.Read ((o + 511) / 512 + midSectors o len) 1 512),
        (Part.trailing, DevCall.Write ((o + 511) / 512 + midSectors o len) 1 512)]

/-- The device calls of a write of `len` bytes at offset `o`, in order, each
with the sub-operation it belongs to. -/
def writePlan (o len : Nat) : List (Part × DevCall) :=
  writeLead o ++ (writeMid o len ++ writeTrail o len)

/-- A device that fails only for out-of-range sector addresses, on a disk of
`sectors` sectors: every call whose range ends within the disk succeeds. -/
def FailsOnlyOutOfRange (sectors : Nat) (dli : VixDiskLibHandle) : Prop :=
  ∀ k c, inRange sectors c = true → dli.outcome k c = none

/-- The `sampleDisk` with `sectors` sectors that fails exactly the calls whose
sector range leaves the disk, with `VIX_E_DISK_OUTOFRANGE`. -/
def boundedDisk (sectors : Nat) : VixDiskLibHandle :=
  { sampleDisk with
    outcome := fun _ c =>
      if inRange sectors c then none else some ⟨VIX_E_DISK_OUTOFRANGE, "out of range"⟩ }

/-- A handle on `boundedDisk sectors` with a capacity of `sectors` sectors. -/
def boundedHandle (sectors : Nat) : DiskConnectHandle := ⟨0, boundedDisk sectors, ⟨sectors⟩⟩

/-! ## Arithmetic of the conversions -/

theorem int64_of_range {x : Int} (h1 : -2 ^ 63 ≤ x) (h2 : x < 2 ^ 63) : int64 x = x := by
  unfold int64; omega

theorem int32_of_range {x : Int} (h1 : -2 ^ 31 ≤ x) (h2 : x < 2 ^ 31) : int32 x = x := by
  unfold int32; omega

theorem uint64_of_range {x : Int} (h1 : 0 ≤ x) (h2 : x < 2 ^ 64) : uint64 x = x.toNat := by
  unfold uint64; congr 1; omega

theorem Capacity_lt (this : DiskConnectHandle) : this.Capacity < 2 ^ 63 := by
  unfold DiskConnectHandle.Capacity int64; omega

theorem Capacity_mod (this : DiskConnectHandle) : this.Capacity % 512 = 0 := by
  unfold DiskConnectHandle.Capacity int64
  simp only [VIXDISKLIB_SECTOR_SIZE, Nat.cast_ofNat]
  omega

theorem Read_ok {dli : VixDiskLibHandle} (hok : NoFault dli) (s n : Nat) (buf : Slice) :
    disklib.Read dli s n buf =
      ({ dli with calls := dli.calls ++ [DevCall.Read s n buf.len] },
       ⟨buf.len, fun j => if j < n * 512 then dli.sector (s + j / 512) (j % 512) else buf.get j⟩,
       none) := by
  simp [disklib.Read, hok _ _]

theorem Write_ok {dli : VixDiskLibHandle} (hok : NoFault dli) (s n : Nat) (buf : Slice) :
    disklib.Write dli s n buf =
      ({ dli with
          calls := dli.calls ++ [DevCall.Write s n buf.len]
          sector := fun t k =>
            if s ≤ t ∧ t < s + n then buf.get ((t - s) * 512 + k) else dli.sector t k },
       none) := by
  simp [disklib.Write, hok _ _]

theorem Write_mk_ok (sec : Nat → Nat → Byte) (out : Nat → DevCall → Option VddkError)
    (cs : List DevCall) (hok : ∀ k c, out k c = none) (s n : Nat) (buf : Slice) :
    disklib.Write ⟨sec, out, cs⟩ s n buf =
      (⟨fun t k => if s ≤ t ∧ t < s + n then buf.get ((t - s) * 512 + k) else sec t k, out,
        cs ++ [DevCall.Write s n buf.len]⟩, none) := by
  simp [disklib.Write, hok _ _]

theorem tmod_nat (o : Nat) : Int.tmod (o : Int) 512 = ((o % 512 : Nat) : Int) := by
  rw [Int.tmod_eq_emod (by omega) (by omega)]; omega

theorem tdiv_nat (o : Nat) : Int.tdiv (o : Int) 512 = ((o / 512 : Nat) : Int) := by
  rw [Int.tdiv_eq_ediv (by omega) (by omega)]; omega

theorem ReadAt_startPart_spec (s : Locals) (o : Nat) (hok : NoFault s.dli) (ho : o < 2 ^ 63)
    (hS : s.startSector = ((o / 512 : Nat) : Int)) (hT : s.total = 0) :
    ∃ s1 : Locals, ∃ lead : Nat,
      DiskConnectHandle.ReadAt.startPart s (o : Int) = some (s1, none) ∧
      lead = (if o % 512 = 0 then 0 else min (512 - o % 512) s.p.len) ∧
      s1.total = (lead : Int) ∧ s1.p.len = s.p.len ∧
      s1.startSector = (((o + 511) / 512 : Nat) : Int) ∧
      (∀ j, s1.p.get j = if j < lead then s.dli.sector ((o + j) / 512) ((o + j) % 512) else s.p.get j) ∧
      s1.dli.sector = s.dli.sector ∧ s1.dli.outcome = s.dli.outcome := by
  unfold DiskConnectHandle.ReadAt.startPart
  simp only [VIXDISKLIB_SECTOR_SIZE, Nat.cast_ofNat, tmod_nat]
  by_cases h0 : o % 512 = 0
  · refine ⟨s, 0, ?_⟩
    simp [h0, hT, hS]
    omega
  · have hu : uint64 s.startSector = o / 512 := by
      rw [hS, uint64_of_range (by omega) (by omega)]; omega
    have hc : (if 512 - ((o % 512 : Nat) : Int) > (s.p.len : Int) then (s.p.len : Int)
        else 512 - ((o % 512 : Nat) : Int)) = ((min (512 - o % 512) s.p.len : Nat) : Int) := by
      split <;> omega
    rw [hu, Read_ok hok]
    simp only [hc]
    rw [if_pos (by omega), if_pos (by omega)]
    refine ⟨_, min (512 - o % 512) s.p.len, rfl, by simp [h0], by simp [hT], rfl, ?_, ?_, rfl, rfl⟩
    · simp only [hS]; omega
    · intro j
      simp only [Slice.store, Slice.slice, copy, Slice.make]
      split_ifs <;> first | rfl | omega | (congr 1 <;> omega)

theorem ReadAt_middlePart_spec (s : Locals) (t S : Nat) (hok : NoFault s.dli)
    (hS : s.startSector = (S : Int)) (hT : s.total = (t : Int)) (ht : t ≤ s.p.len)
    (hS2 : S < 2 ^ 63) (hl : s.p.len < 2 ^ 63) :
    ∃ s2 : Locals,
      DiskConnectHandle.ReadAt.middlePart s = (s2, none) ∧
      s2.total = ((t + 512 * ((s.p.len - t) / 512) : Nat) : Int) ∧ s2.p.len = s.p.len ∧
      s2.startSector = ((S + (s.p.len - t) / 512 : Nat) : Int) ∧
      (∀ j, s2.p.get j =
        if t ≤ j ∧ j < t + 512 * ((s.p.len - t) / 512) then
          s.dli.sector (S + (j - t) / 512) ((j - t) % 512)
        else s.p.get j) ∧
      s2.dli.sector = s.dli.sector ∧ s2.dli.outcome = s.dli.outcome := by
  unfold DiskConnectHandle.ReadAt.middlePart
  have hd : Int.tdiv ((s.p.len : Int) - s.total) (512 : Int) = (((s.p.len - t) / 512 : Nat) : Int) := by
    rw [hT, Int.tdiv_eq_ediv (by omega) (by omega)]; omega
  simp only [VIXDISKLIB_SECTOR_SIZE, Nat.cast_ofNat, hd]
  by_cases h0 : (s.p.len - t) / 512 = 0
  · refine ⟨s, ?_⟩
    rw [if_neg (by omega)]
    refine ⟨rfl, by rw [hT]; omega, rfl, by rw [hS]; omega, ?_, rfl, rfl⟩
    intro j
    rw [if_neg (by omega)]
  · have hu : uint64 s.startSector = S := by
      rw [hS, uint64_of_range (by omega) (by omega)]; omega
    have hn : uint64 (((s.p.len - t) / 512 : Nat) : Int) = (s.p.len - t) / 512 := by
      rw [uint64_of_range (by omega) (by omega)]; omega
    rw [if_pos (by omega), hu, hn, Read_ok hok]
    refine ⟨_, rfl, ?_, rfl, ?_, ?_, rfl, rfl⟩
    · simp only [hT]; push_cast; omega
    · simp only [hS]; push_cast; omega
    · intro j
      simp only [Slice.store, Slice.slice, hT]
      split_ifs <;> first | rfl | omega

theorem ReadAt_endPart_spec (s : Locals) (t S : Nat) (hok : NoFault s.dli)
    (hS : s.startSector = (S : Int)) (hT : s.total = (t : Int)) (ht : t ≤ s.p.len)
    (hS2 : S < 2 ^ 63) (hr : s.p.len - t < 512) :
    ∃ s3 : Locals,
      DiskConnectHandle.ReadAt.endPart s = (s3, none) ∧
      s3.total = (t : Int) ∧ s3.p.len = s.p.len ∧
      (∀ j, s3.p.get j =
        if t ≤ j ∧ j < s.p.len then s.dli.sector S (j - t) else s.p.get j) ∧
      s3.dli.sector = s.dli.sector ∧ s3.dli.outcome = s.dli.outcome := by
  unfold DiskConnectHandle.ReadAt.endPart
  simp only [VIXDISKLIB_SECTOR_SIZE, Nat.cast_ofNat]
  by_cases h0 : s.p.len - t = 0
  · refine ⟨s, ?_⟩
    rw [if_neg (by omega)]
    refine ⟨rfl, hT, rfl, ?_, rfl, rfl⟩
    intro j
    rw [if_neg (by omega)]
  · have hu : uint64 s.startSector = S := by
      rw [hS, uint64_of_range (by omega) (by omega)]; omega
    rw [if_pos (by omega), hu, Read_ok hok]
    refine ⟨_, rfl, hT, rfl, ?_, rfl, rfl⟩
    intro j
    simp only [Slice.store, Slice.slice, copy, Slice.make, hT]
    split_ifs <;> first | rfl | omega | (congr 1 <;> omega)

theorem ite_Lock_dli (b : Bool) (this : DiskConnectHandle) :
    (if b = true then this else this.Lock).dli = this.dli := by
  cases b <;> rfl

theorem ite_Lock_info (b : Bool) (this : DiskConnectHandle) :
    (if b = true then this else this.Lock).info = this.info := by
  cases b <;> rfl

theorem ReadAt_run_ok (this : DiskConnectHandle) (p q : Slice) (o : Nat)
    (hok : NoFault this.dli) (hfit : o + q.len < 2 ^ 63) :
    ∃ r : Result DiskConnectHandle,
      DiskConnectHandle.ReadAt.run this p q (o : Int) = some r ∧ r.err = none ∧
      r.n = (readCount o q.len : Int) ∧ r.p.len = p.len ∧
      (∀ j, r.p.get j =
        if j < q.len then this.dli.sector ((o + j) / 512) ((o + j) % 512) else p.get j) ∧
      r.this.dli.sector = this.dli.sector ∧ r.this.dli.outcome = this.dli.outcome ∧
      r.this.info = this.info := by
  simp only [DiskConnectHandle.ReadAt.run, VIXDISKLIB_SECTOR_SIZE, Nat.cast_ofNat, tdiv_nat,
    ite_Lock_dli]
  obtain ⟨s1, lead, h1, hlead, ht1, hl1, hS1, hg1, hsec1, hout1⟩ :=
    ReadAt_startPart_spec ⟨this.dli, q, ((o / 512 : Nat) : Int), 0, 0⟩ o hok (by omega) rfl rfl
  simp only [] at hlead hl1 hg1 hsec1 hout1
  have hleadle : lead ≤ q.len := by rw [hlead]; split <;> omega
  obtain ⟨s2, h2, ht2, hl2, hS2, hg2, hsec2, hout2⟩ :=
    ReadAt_middlePart_spec s1 lead ((o + 511) / 512) (by intro k c; rw [hout1]; exact hok k c)
      hS1 ht1 (by omega) (by omega) (by omega)
  obtain ⟨s3, h3, ht3, hl3, hg3, hsec3, hout3⟩ :=
    ReadAt_endPart_spec s2 (lead + 512 * ((s1.p.len - lead) / 512))
      ((o + 511) / 512 + (s1.p.len - lead) / 512) (by intro k c; rw [hout2, hout1]; exact hok k c)
      hS2 ht2 (by omega) (by omega) (by omega)
  rw [h1]; simp only []
  rw [h2]; simp only []
  rw [h3]; simp only []
  refine ⟨_, rfl, rfl, ?_, rfl, ?_, ?_, ?_, ?_⟩
  · simp only [ht3, readCount, ← hlead, hl1]
  · intro j
    simp only [Slice.store, hg3, hg2, hg1, hl3, hl2, hl1, hsec2, hsec1]
    have hlead2 : lead = 0 ∧ o % 512 = 0 ∨ lead = 512 - o % 512 ∧ o % 512 ≠ 0 ∧ lead ≤ q.len ∨
        lead = q.len ∧ o % 512 ≠ 0 := by
      rw [hlead]; split <;> omega
    clear hlead
    split_ifs <;> first | rfl | omega | (congr 1 <;> omega)
  · simp only [hsec3, hsec2, hsec1]
  · simp only [hout3, hout2, hout1]
  · simp only [ite_Lock_info]

theorem WriteAt_startPart_spec (s : Locals) (o : Nat) (hok : NoFault s.dli) (ho : o < 2 ^ 63)
    (hS : s.startSector = ((o / 512 : Nat) : Int)) (hT : s.total = 0) (hO : s.srcOff = 0) :
    ∃ s1 : Locals, ∃ lead : Nat,
      DiskConnectHandle.WriteAt.startPart s (o : Int) = some (s1, none) ∧
      lead = (if o % 512 = 0 then 0 else min (512 - o % 512) s.p.len) ∧
      s1.total = (lead : Int) ∧ s1.srcOff = (lead : Int) ∧ s1.p = s.p ∧
      s1.startSector = (((o + 511) / 512 : Nat) : Int) ∧
      (∀ u k, k < 512 → s1.dli.sector u k =
        if o ≤ u * 512 + k ∧ u * 512 + k < o + lead then s.p.get (u * 512 + k - o)
        else s.dli.sector u k) ∧
      s1.dli.outcome = s.dli.outcome := by
  unfold DiskConnectHandle.WriteAt.startPart
  simp only [VIXDISKLIB_SECTOR_SIZE, Nat.cast_ofNat, tmod_nat]
  by_cases h0 : o % 512 = 0
  · refine ⟨s, 0, ?_⟩
    rw [if_neg (by omega)]
    refine ⟨rfl, by simp [h0], by simp [hT], by simp [hO], rfl, by rw [hS]; omega, ?_, rfl⟩
    intro u k _
    rw [if_neg (by omega)]
  · have hu : uint64 s.startSector = o / 512 := by
      rw [hS, uint64_of_range (by omega) (by omega)]; omega
    have hc : (if (s.p.len : Int) < 512 - ((o % 512 : Nat) : Int) then (s.p.len : Int)
        else 512 - ((o % 512 : Nat) : Int)) = ((min (512 - o % 512) s.p.len : Nat) : Int) := by
      split <;> omega
    rw [hu, Read_ok hok]
    simp only [hc]
    rw [if_pos (by omega), if_pos (by omega), Write_mk_ok _ s.dli.outcome _ hok]
    refine ⟨_, min (512 - o % 512) s.p.len, rfl, by simp [h0], by simp [hT], by simp [hO], rfl,
      ?_, ?_, rfl⟩
    · simp only [hS]; omega
    · intro u k hk
      simp only [Slice.store, Slice.slice, copy, Slice.make, hO]
      split_ifs <;> first | rfl | omega | (congr 1 <;> omega)

theorem WriteAt_middlePart_spec (s : Locals) (t S : Nat) (hok : NoFault s.dli)
    (hS : s.startSector = (S : Int)) (hT : s.total = (t : Int)) (hO : s.srcOff = (t : Int))
    (ht : t ≤ s.p.len) (hS2 : S < 2 ^ 63) (hl : s.p.len < 2 ^ 63) :
    ∃ s2 : Locals,
      DiskConnectHandle.WriteAt.middlePart s = (s2, none) ∧
      s2.total = ((t + 512 * ((s.p.len - t) / 512) : Nat) : Int) ∧
      s2.srcOff = ((t + 512 * ((s.p.len - t) / 512) : Nat) : Int) ∧ s2.p = s.p ∧
      s2.startSector = ((S + (s.p.len - t) / 512 : Nat) : Int) ∧
      (∀ u k, k < 512 → s2.dli.sector u k =
        if S ≤ u ∧ u < S + (s.p.len - t) / 512 then s.p.get (t + (u - S) * 512 + k)
        else s.dli.sector u k) ∧
      s2.dli.outcome = s.dli.outcome := by
  unfold DiskConnectHandle.WriteAt.middlePart
  have hd : Int.tdiv ((s.p.len : Int) - s.total) (512 : Int) = (((s.p.len - t) / 512 : Nat) : Int) := by
    rw [hT, Int.tdiv_eq_ediv (by omega) (by omega)]; omega
  simp only [VIXDISKLIB_SECTOR_SIZE, Nat.cast_ofNat, hd]
  by_cases h0 : (s.p.len - t) / 512 = 0
  · refine ⟨s, ?_⟩
    rw [if_neg (by omega)]
    refine ⟨rfl, by rw [hT]; omega, by rw [hO]; omega, rfl, by rw [hS]; omega, ?_, rfl⟩
    intro u k _
    rw [if_neg (by omega)]
  · have hu : uint64 s.startSector = S := by
      rw [hS, uint64_of_range (by omega) (by omega)]; omega
    have hn : uint64 (((s.p.len - t) / 512 : Nat) : Int) = (s.p.len - t) / 512 := by
      rw [uint64_of_range (by omega) (by omega)]; omega
    rw [if_pos (by omega), hu, hn, Write_ok hok]
    refine ⟨_, rfl, ?_, ?_, rfl, ?_, ?_, rfl⟩
    · simp only [hT]; push_cast; omega
    · simp only [hO]; push_cast; omega
    · simp only [hS]; push_cast; omega
    · intro u k hk
      simp only [Slice.slice, hO]
      split_ifs <;> first | rfl | omega | (congr 1; omega)

theorem WriteAt_endPart_spec (s : Locals) (t S : Nat) (hok : NoFault s.dli)
    (hS : s.startSector = (S : Int)) (hT : s.total = (t : Int)) (hO : s.srcOff = (t : Int))
    (ht : t ≤ s.p.len) (hS2 : S < 2 ^ 63) (hr : s.p.len - t < 512) :
    ∃ s3 : Locals,
      DiskConnectHandle.WriteAt.endPart s = (s3, none) ∧
      (∀ u k, k < 512 → s3.dli.sector u k =
        if u = S ∧ k < s.p.len - t then s.p.get (t + k) else s.dli.sector u k) ∧
      s3.dli.outcome = s.dli.outcome := by
  unfold DiskConnectHandle.WriteAt.endPart
  simp only [VIXDISKLIB_SECTOR_SIZE, Nat.cast_ofNat]
  by_cases h0 : s.p.len - t = 0
  · refine ⟨s, ?_⟩
    rw [if_neg (by omega)]
    refine ⟨rfl, ?_, rfl⟩
    intro u k _
    rw [if_neg (by omega)]
  · have hu : uint64 s.startSector = S := by
      rw [hS, uint64_of_range (by omega) (by omega)]; omega
    rw [if_pos (by omega), hu, Read_ok hok]
    simp only []
    rw [Write_mk_ok _ s.dli.outcome _ hok]
    refine ⟨_, rfl, ?_, rfl⟩
    intro u k hk
    simp only [Slice.store, Slice.slice, copy, Slice.make, hT, hO]
    split_ifs <;> first | rfl | omega | (congr 1 <;> omega)

theorem WriteAt_ok (this : DiskConnectHandle) (p : Slice) (o : Nat)
    (hok : NoFault this.dli) (hfit : (o : Int) + p.len ≤ this.Capacity) :
    ∃ r : Result DiskConnectHandle,
      this.WriteAt p (o : Int) = some r ∧ r.err = none ∧ r.n = (p.len : Int) ∧ r.p = p ∧
      (∀ u k, k < 512 → r.this.dli.sector u k =
        if o ≤ u * 512 + k ∧ u * 512 + k < o + p.len then p.get (u * 512 + k - o)
        else this.dli.sector u k) ∧
      r.this.dli.outcome = this.dli.outcome ∧ r.this.info = this.info := by
  have hcap := Capacity_lt this
  have hi1 : int64 (p.len : Int) = p.len := int64_of_range (by omega) (by omega)
  have hi2 : int64 ((o : Int) + p.len) = (o : Int) + p.len := int64_of_range (by omega) (by omega)
  unfold DiskConnectHandle.WriteAt
  simp only [hi1, hi2]
  rw [if_neg (by omega)]
  simp only [VIXDISKLIB_SECTOR_SIZE, Nat.cast_ofNat, tdiv_nat, ite_Lock_dli]
  obtain ⟨s1, lead, h1, hlead, ht1, ho1, hp1, hS1, hg1, hout1⟩ :=
    WriteAt_startPart_spec ⟨this.dli, p, ((o / 512 : Nat) : Int), 0, 0⟩ o hok (by omega) rfl rfl rfl
  simp only [] at hlead hp1 hg1 hout1
  have hlead2 : lead = 0 ∧ o % 512 = 0 ∨ lead = 512 - o % 512 ∧ o % 512 ≠ 0 ∧ lead ≤ p.len ∨
      lead = p.len ∧ o % 512 ≠ 0 := by
    rw [hlead]; split <;> omega
  clear hlead
  obtain ⟨s2, h2, ht2, ho2, hp2, hS2, hg2, hout2⟩ :=
    WriteAt_middlePart_spec s1 lead ((o + 511) / 512) (by intro k c; rw [hout1]; exact hok k c)
      hS1 ht1 ho1 (by rw [hp1]; omega) (by omega) (by rw [hp1]; omega)
  obtain ⟨s3, h3, hg3, hout3⟩ :=
    WriteAt_endPart_spec s2 (lead + 512 * ((s1.p.len - lead) / 512))
      ((o + 511) / 512 + (s1.p.len - lead) / 512) (by intro k c; rw [hout2, hout1]; exact hok k c)
      hS2 ht2 ho2 (by rw [hp2, hp1]; omega) (by rw [hp1]; omega) (by rw [hp2, hp1]; omega)
  rw [h1]; simp only []
  rw [h2]; simp only []
  rw [h3]; simp only []
  refine ⟨_, rfl, rfl, rfl, rfl, ?_, ?_, ?_⟩
  · intro u k hk
    simp only [hg3 u k hk, hg2 u k hk, hg1 u k hk, hp2, hp1]
    clear hg3 hg2 hg1 h1 h2 h3 hcap hi1 hi2 hfit hS1 hS2 ht1 ht2 ho1 ho2 hout1 hout2 hout3 hok
    set_option maxRecDepth 4000 in
    split_ifs <;> first | rfl | omega | (congr 1; omega)
  · simp only [hout3, hout2, hout1]
  · simp only [ite_Lock_info]

/-! ## ReadAt and WriteAt as a whole -/

theorem ReadAt_fit_ok (this : DiskConnectHandle) (p : Slice) (o : Nat)
    (hok : NoFault this.dli) (hlt : (o : Int) < this.Capacity)
    (hfit : (o : Int) + p.len ≤ this.Capacity) :
    ∃ r : Result DiskConnectHandle,
      this.ReadAt p (o : Int) = some r ∧ r.err = none ∧ r.n = (readCount o p.len : Int) ∧
      r.p.len = p.len ∧
      (∀ j, r.p.get j = if j < p.len then byteAt this.dli (o + j) else p.get j) ∧
      r.this.dli.sector = this.dli.sector ∧ r.this.dli.outcome = this.dli.outcome ∧
      r.this.info = this.info := by
  have hcap := Capacity_lt this
  have hi1 : int64 (p.len : Int) = p.len := int64_of_range (by omega) (by omega)
  have hi2 : int64 ((o : Int) + p.len) = (o : Int) + p.len := int64_of_range (by omega) (by omega)
  unfold DiskConnectHandle.ReadAt
  simp only [hi1, hi2]
  rw [if_neg (by omega), if_neg (by omega)]
  have hb : (o : Nat) + p.len < 2 ^ 63 := by omega
  exact ReadAt_run_ok this p p o hok hb

theorem readCount_clip (c o : Nat) (hmod : c % 512 = 0) (h : o < c) : readCount o (c - o) = c - o := by
  simp only [readCount]
  split <;> omega

theorem ReadAt_clip_ok (this : DiskConnectHandle) (p : Slice) (o : Nat)
    (hok : NoFault this.dli) (hlt : (o : Int) < this.Capacity)
    (hclip : int64 ((o : Int) + int64 p.len) > this.Capacity)
    (hsmall : this.Capacity - (o : Int) < 2 ^ 31) :
    ∃ r : Result DiskConnectHandle,
      this.ReadAt p (o : Int) = some r ∧ r.err = none ∧ r.n = this.Capacity - (o : Int) ∧
      r.p.len = p.len ∧
      (∀ j, r.p.get j =
        if (j : Int) < this.Capacity - (o : Int) then byteAt this.dli (o + j) else p.get j) ∧
      r.this.dli.sector = this.dli.sector ∧ r.this.dli.outcome = this.dli.outcome ∧
      r.this.info = this.info := by
  have hcap := Capacity_lt this
  have hmod := Capacity_mod this
  obtain ⟨c, hc⟩ : ∃ c : Nat, this.Capacity = (c : Int) := ⟨this.Capacity.toNat, by omega⟩
  rw [hc] at hlt hclip hsmall hcap hmod ⊢
  have hi1 : int64 ((c : Int) - (o : Int)) = ((c - o : Nat) : Int) := by
    rw [int64_of_range (by omega) (by omega)]; omega
  have hi2 : int32 (((c - o : Nat) : Int)) = ((c - o : Nat) : Int) :=
    int32_of_range (by omega) (by omega)
  unfold DiskConnectHandle.ReadAt
  rw [hc, if_neg (by omega), if_pos hclip]
  simp only [hi1, hi2, Int.toNat_ofNat]
  rw [if_neg (by omega)]
  obtain ⟨r, hr, herr, hn, hlen, hget, hsec, hout, hinfo⟩ :=
    ReadAt_run_ok this p (p.slice 0 (c - o)) o hok
      (by simp only [Slice.slice]; omega)
  simp only [Slice.slice, Nat.sub_zero] at hn hget
  refine ⟨r, hr, herr, ?_, hlen, ?_, hsec, hout, hinfo⟩
  · rw [hn, readCount_clip c o (by omega) (by omega)]; omega
  · intro j
    rw [hget j]
    simp only [byteAt]
    split_ifs <;> first | rfl | omega

theorem int64_add_int64 (a b : Int) : int64 (a + int64 b) = int64 (a + b) := by
  unfold int64; omega

theorem Capacity_congr {a b : DiskConnectHandle} (h : a.info = b.info) :
    a.Capacity = b.Capacity := by
  unfold DiskConnectHandle.Capacity; rw [h]

/-! ## The claims -/

/-- Claim C1, at an input where the code departs from it (the `int32`
conversion of the clipped length): on a disk of `2^32 + 512` bytes whose every
read succeeds, `ReadAt` at offset 0 with a buffer of `2^32 + 513` bytes cuts
the request down to 512 bytes; it returns `(512, nil)` and byte 512 of the
buffer is still the zero it was, while the device byte at position 512 is 2
and `512 < min(len(p), capacity - off)`. -/
theorem C1_ReadAt_content_lost_by_int32_clip :
    ((sampleHandle (2 ^ 23 + 1)).ReadAt (Slice.make (2 ^ 32 + 513)) 0).map
        (fun r => (r.n, r.err, r.p.get 512)) = some (512, none, 0) ∧
      byteAt (sampleHandle (2 ^ 23 + 1)).dli 512 = 2 ∧
      (sampleHandle (2 ^ 23 + 1)).Capacity = 2 ^ 32 + 512 := by
  decide

/-- Claim C2, at the input it names: on a disk of four sectors whose every
read succeeds, `ReadAt` at offset 0 with a buffer of 100 bytes copies the 100
bytes of the trailing part (bytes 0 and 99 of the buffer are the device bytes
at positions 0 and 99) and returns the count 0 with a nil error, not 100:
the trailing part is left out of `total`. -/
theorem C2_ReadAt_count_omits_trailing_part :
    ((sampleHandle 4).ReadAt (Slice.make 100) 0).map
        (fun r => (r.n, r.err, r.p.get 0, r.p.get 99)) =
      some (0, none, byteAt sampleDisk 0, byteAt sampleDisk 99) := by
  decide

/-- Claim C3 (round trip): for an offset `o >= 0` and a buffer `B` with
`o + len(B) <= capacity`, on a device whose every operation succeeds,
`WriteAt(B, o)` returns `(len(B), nil)` and a following `ReadAt(q, o)` with
`len(q) = len(B)` returns with `q[i] = B[i]` for every `i < len(B)`. -/
theorem C3_WriteAt_then_ReadAt_round_trip (this : DiskConnectHandle) (B q : Slice) (o : Int)
    (h0 : 0 ≤ o) (hfit : o + B.len ≤ this.Capacity) (hq : q.len = B.len)
    (hok : NoFault this.dli) :
    ∃ w r : Result DiskConnectHandle,
      this.WriteAt B o = some w ∧ w.n = B.len ∧ w.err = none ∧
      w.this.ReadAt q o = some r ∧ ∀ i, i < B.len → r.p.get i = B.get i := by
  obtain ⟨n, rfl⟩ := Int.eq_ofNat_of_zero_le h0
  obtain ⟨w, hw, hwerr, hwn, -, hwsec, hwout, hwinfo⟩ := WriteAt_ok this B n hok hfit
  have hcapw : w.this.Capacity = this.Capacity := Capacity_congr hwinfo
  have hokw : NoFault w.this.dli := by intro k c; rw [hwout]; exact hok k c
  by_cases hlt : (n : Int) < this.Capacity
  · obtain ⟨r, hr, -, -, -, hget, -, -, -⟩ :=
      ReadAt_fit_ok w.this q n hokw (by rw [hcapw]; exact hlt) (by rw [hcapw, hq]; exact hfit)
    refine ⟨w, r, hw, hwn, hwerr, hr, ?_⟩
    intro i hi
    rw [hget i, if_pos (by omega)]
    simp only [byteAt]
    rw [hwsec _ _ (Nat.mod_lt _ (by omega)), if_pos (by omega)]
    have hidx : (n + i) / 512 * 512 + (n + i) % 512 - n = i := by omega
    rw [hidx]
  · refine ⟨w, ⟨w.this, q, 0, some GoError.EOF⟩, hw, hwn, hwerr, ?_, ?_⟩
    · unfold DiskConnectHandle.ReadAt
      rw [if_pos (by rw [hcapw]; omega)]
    · intro i hi
      omega

/-- A witness of claim C3: 526 bytes written at offset 500 of a disk of four
sectors and read back. -/
theorem C3_round_trip_witness :
    (0 : Int) ≤ 500 ∧ (500 : Int) + (sampleBuffer 526).len ≤ (sampleHandle 4).Capacity ∧
      (Slice.make 526).len = (sampleBuffer 526).len ∧ NoFault (sampleHandle 4).dli ∧
      ∃ w r : Result DiskConnectHandle,
        (sampleHandle 4).WriteAt (sampleBuffer 526) 500 = some w ∧ w.n = (sampleBuffer 526).len ∧
        w.err = none ∧ w.this.ReadAt (Slice.make 526) 500 = some r ∧
        ∀ i, i < (sampleBuffer 526).len → r.p.get i = (sampleBuffer 526).get i :=
  ⟨by decide, by decide, rfl, fun _ _ => rfl,
    C3_WriteAt_then_ReadAt_round_trip (sampleHandle 4) (sampleBuffer 526) (Slice.make 526) 500
      (by decide) (by decide) rfl (fun _ _ => rfl)⟩

/-- Claim C4 (partial-sector preservation): for an offset `off >= 0` and a
buffer `p` with `off + len(p) <= capacity`, on a device whose every operation
succeeds, `WriteAt(p, off)` returns and every device byte at an absolute
position `b` outside `[off, off + len(p))` is what it was before, the bytes of
the leading and of the trailing sector that are read and written back among
them. -/
theorem C4_WriteAt_leaves_bytes_outside_range (this : DiskConnectHandle) (p : Slice) (off : Int)
    (h0 : 0 ≤ off) (hfit : off + p.len ≤ this.Capacity) (hok : NoFault this.dli) :
    ∃ w : Result DiskConnectHandle,
      this.WriteAt p off = some w ∧
      ∀ b : Nat, ¬ (off ≤ b ∧ (b : Int) < off + p.len) → byteAt w.this.dli b = byteAt this.dli b := by
  obtain ⟨n, rfl⟩ := Int.eq_ofNat_of_zero_le h0
  obtain ⟨w, hw, -, -, -, hwsec, -, -⟩ := WriteAt_ok this p n hok hfit
  refine ⟨w, hw, ?_⟩
  intro b hb
  simp only [byteAt]
  rw [hwsec _ _ (Nat.mod_lt _ (by omega)), if_neg (by omega)]

/-- A witness of claim C4: 100 bytes written at offset 700 of a disk of four
sectors. -/
theorem C4_leaves_bytes_outside_range_witness :
    (0 : Int) ≤ 700 ∧ (700 : Int) + (sampleBuffer 100).len ≤ (sampleHandle 4).Capacity ∧
      NoFault (sampleHandle 4).dli ∧
      ∃ w : Result DiskConnectHandle,
        (sampleHandle 4).WriteAt (sampleBuffer 100) 700 = some w ∧
        ∀ b : Nat, ¬ ((700 : Int) ≤ b ∧ (b : Int) < 700 + (sampleBuffer 100).len) →
          byteAt w.this.dli b = byteAt (sampleHandle 4).dli b :=
  ⟨by decide, by decide, fun _ _ => rfl,
    C4_WriteAt_leaves_bytes_outside_range (sampleHandle 4) (sampleBuffer 100) 700
      (by decide) (by decide) (fun _ _ => rfl)⟩

/-- Claim C5 fails as stated: on a disk of `2^54 - 1` sectors (capacity
`2^63 - 512` bytes) whose every call succeeds, a `WriteAt` of 600 bytes at
offset `2^63 - 512` has `off + len(p) > capacity`, but the sum that the guard
forms leaves `int64` and wraps to a negative value, so the write is not
rejected: it returns `(600, nil)` after three device calls. -/
theorem C5_write_past_int64_is_not_rejected :
    (0 : Int) ≤ 2 ^ 63 - 512 ∧
    (2 ^ 63 - 512 : Int) + (sampleBuffer 600).len > (sampleHandle (2 ^ 54 - 1)).Capacity ∧
    int64 ((2 ^ 63 - 512 : Int) + int64 (sampleBuffer 600).len) = -2 ^ 63 + 88 ∧
    ((sampleHandle (2 ^ 54 - 1)).WriteAt (sampleBuffer 600) (2 ^ 63 - 512)).map
        (fun r => (r.n, r.err, r.this.dli.calls)) =
      some (600, none,
        [DevCall.Write (2 ^ 54 - 1) 1 512, DevCall.Read (2 ^ 54) 1 512,
         DevCall.Write (2 ^ 54) 1 512]) := by
  decide

/-- Claim C5 as amended (rejected write): for an offset `off >= 0` and a
buffer `p`, when `off > capacity`, or `off + len(p) > capacity` with
`off + len(p) < 2^63`, `WriteAt(p, off)` returns `(0, io.ErrShortWrite)`; the
device has received no call and holds the bytes it held. -/
theorem C5_WriteAt_beyond_capacity_rejected (this : DiskConnectHandle) (p : Slice) (off : Int)
    (h0 : 0 ≤ off)
    (h : this.Capacity < off ∨ (this.Capacity < off + p.len ∧ off + p.len < 2 ^ 63)) :
    ∃ r : Result DiskConnectHandle,
      this.WriteAt p off = some r ∧ r.n = 0 ∧ r.err = some GoError.ErrShortWrite ∧
      r.this.dli.calls = this.dli.calls ∧ r.this.dli.sector = this.dli.sector := by
  refine ⟨⟨this, p, 0, some GoError.ErrShortWrite⟩, ?_, rfl, rfl, rfl, rfl⟩
  unfold DiskConnectHandle.WriteAt
  have hg : off > this.Capacity ∨ int64 (off + int64 p.len) > this.Capacity := by
    rcases h with h | ⟨h1, h2⟩
    · exact Or.inl h
    · right
      have hi1 : int64 (p.len : Int) = p.len := int64_of_range (by omega) (by omega)
      have hi2 : int64 (off + p.len) = off + p.len := int64_of_range (by omega) (by omega)
      rw [hi1, hi2]
      exact h1
  rw [if_pos hg]

/-- A witness of amended claim C5: 100 bytes at offset 2000 of a disk of 2048
bytes. -/
theorem C5_beyond_capacity_rejected_witness :
    (0 : Int) ≤ 2000 ∧
    ((sampleHandle 4).Capacity < 2000 ∨
      ((sampleHandle 4).Capacity < 2000 + (sampleBuffer 100).len ∧
        (2000 : Int) + (sampleBuffer 100).len < 2 ^ 63)) ∧
      ∃ r : Result DiskConnectHandle,
        (sampleHandle 4).WriteAt (sampleBuffer 100) 2000 = some r ∧ r.n = 0 ∧
        r.err = some GoError.ErrShortWrite ∧
        r.this.dli.calls = (sampleHandle 4).dli.calls ∧
        r.this.dli.sector = (sampleHandle 4).dli.sector :=
  ⟨by decide, by decide,
    C5_WriteAt_beyond_capacity_rejected (sampleHandle 4) (sampleBuffer 100) 2000 (by decide)
      (by decide)⟩

/-- Claim C6: for an offset `off >= 0` and a buffer `p` with
`off + len(p) <= capacity`, on a device whose every operation succeeds,
`WriteAt(p, off)` returns `(len(p), nil)`, whatever the alignment of `off` and
of `len(p)`. -/
theorem C6_WriteAt_returns_full_length (this : DiskConnectHandle) (p : Slice) (off : Int)
    (h0 : 0 ≤ off) (hfit : off + p.len ≤ this.Capacity) (hok : NoFault this.dli) :
    ∃ r : Result DiskConnectHandle,
      this.WriteAt p off = some r ∧ r.n = p.len ∧ r.err = none := by
  obtain ⟨n, rfl⟩ := Int.eq_ofNat_of_zero_le h0
  obtain ⟨w, hw, hwerr, hwn, -, -, -, -⟩ := WriteAt_ok this p n hok hfit
  exact ⟨w, hw, hwn, hwerr⟩

/-- A witness of claim C6: 526 bytes at offset 500 of a disk of four sectors. -/
theorem C6_returns_full_length_witness :
    (0 : Int) ≤ 500 ∧ (500 : Int) + (sampleBuffer 526).len ≤ (sampleHandle 4).Capacity ∧
      NoFault (sampleHandle 4).dli ∧
      ∃ r : Result DiskConnectHandle,
        (sampleHandle 4).WriteAt (sampleBuffer 526) 500 = some r ∧
        r.n = (sampleBuffer 526).len ∧ r.err = none :=
  ⟨by decide, by decide, fun _ _ => rfl,
    C6_WriteAt_returns_full_length (sampleHandle 4) (sampleBuffer 526) 500
      (by decide) (by decide) (fun _ _ => rfl)⟩

/-- Claim C7: for an offset `off >= capacity` and any buffer `p`, the empty
buffer included, `ReadAt(p, off)` returns `(0, io.EOF)` with the handle as it
was (the device has received no call) and the buffer as it was. -/
theorem C7_ReadAt_at_or_beyond_capacity_is_EOF (this : DiskConnectHandle) (p : Slice) (off : Int)
    (h : this.Capacity ≤ off) :
    this.ReadAt p off = some ⟨this, p, 0, some GoError.EOF⟩ := by
  unfold DiskConnectHandle.ReadAt
  rw [if_pos (by simpa only [ge_iff_le] using h)]

/-- A witness of claim C7: the empty buffer at offset 2048 of a disk of 2048
bytes. -/
theorem C7_at_or_beyond_capacity_is_EOF_witness :
    (sampleHandle 4).Capacity ≤ 2048 ∧
      (sampleHandle 4).ReadAt (Slice.make 0) 2048 =
        some ⟨sampleHandle 4, Slice.make 0, 0, some GoError.EOF⟩ :=
  ⟨by decide, C7_ReadAt_at_or_beyond_capacity_is_EOF (sampleHandle 4) (Slice.make 0) 2048 (by decide)⟩

/-- Claim C8, at an input where the code departs from it (the `int32`
conversion of the clipped length): on a disk of `2^32` bytes whose every read
succeeds, with `k = 2^32` and `l = 2^32 + 1`, `ReadAt` at offset
`capacity - k = 0` with a buffer of `l` bytes returns the count 0 with a nil
error, not `k`. -/
theorem C8_ReadAt_clipped_count_lost_by_int32 :
    (sampleHandle (2 ^ 23)).Capacity = 2 ^ 32 ∧
      ((sampleHandle (2 ^ 23)).ReadAt (Slice.make (2 ^ 32 + 1)) ((sampleHandle (2 ^ 23)).Capacity - 2 ^ 32)).map
        (fun r => (r.n, r.err)) = some (0, none) := by
  decide

/-- Claim C9 fails as stated: on a disk of one sector whose every read
succeeds, `ReadAt` at offset 0 with a buffer of 600 bytes, a read clipped to
the end of the device, returns `(512, nil)`: the error is not `io.EOF`. -/
theorem C9_clipped_read_returns_nil_error :
    (0 : Int) < (sampleHandle 1).Capacity ∧
      (0 : Int) + (Slice.make 600).len > (sampleHandle 1).Capacity ∧
      ((sampleHandle 1).ReadAt (Slice.make 600) 0).map (fun r => (r.n, r.err)) = some (512, none) ∧
      ((sampleHandle 1).ReadAt (Slice.make 600) 0).map (fun r => r.err) ≠ some (some GoError.EOF) := by
  decide

/-- Claim C9 as amended: for an offset `0 <= off < capacity` and a buffer `p`
with `off + len(p) > capacity`, `off + len(p) < 2^63` and
`capacity - off < 2^31`, on a device whose every read succeeds,
`ReadAt(p, off)` returns the short count `capacity - off` with a nil error. -/
theorem C9_ReadAt_clipped_returns_short_count_and_nil (this : DiskConnectHandle) (p : Slice)
    (off : Int) (h0 : 0 ≤ off) (hlt : off < this.Capacity)
    (hclip : off + p.len > this.Capacity) (hsum : off + p.len < 2 ^ 63)
    (hsmall : this.Capacity - off < 2 ^ 31) (hok : NoFault this.dli) :
    ∃ r : Result DiskConnectHandle,
      this.ReadAt p off = some r ∧ r.n = this.Capacity - off ∧ r.err = none := by
  obtain ⟨n, rfl⟩ := Int.eq_ofNat_of_zero_le h0
  have hi1 : int64 (p.len : Int) = p.len := int64_of_range (by omega) (by omega)
  have hi2 : int64 ((n : Int) + p.len) = (n : Int) + p.len :=
    int64_of_range (by omega) (by omega)
  obtain ⟨r, hr, herr, hn, -, -, -, -, -⟩ :=
    ReadAt_clip_ok this p n hok hlt (by rw [hi1, hi2]; exact hclip) hsmall
  exact ⟨r, hr, hn, herr⟩

/-- A witness of amended claim C9: 600 bytes at offset 1900 of a disk of 2048
bytes. -/
theorem C9_clipped_returns_short_count_and_nil_witness :
    (0 : Int) ≤ 1900 ∧ (1900 : Int) < (sampleHandle 4).Capacity ∧
      (1900 : Int) + (Slice.make 600).len > (sampleHandle 4).Capacity ∧
      (1900 : Int) + (Slice.make 600).len < 2 ^ 63 ∧
      (sampleHandle 4).Capacity - 1900 < 2 ^ 31 ∧ NoFault (sampleHandle 4).dli ∧
      ∃ r : Result DiskConnectHandle,
        (sampleHandle 4).ReadAt (Slice.make 600) 1900 = some r ∧
        r.n = (sampleHandle 4).Capacity - 1900 ∧ r.err = none :=
  ⟨by decide, by decide, by decide, by decide, by decide, fun _ _ => rfl,
    C9_ReadAt_clipped_returns_short_count_and_nil (sampleHandle 4) (Slice.make 600) 1900
      (by decide) (by decide) (by decide) (by decide) (by decide) (fun _ _ => rfl)⟩

/-- Claim C10 fails as stated: on a stream over a disk of `2^54 - 1` sectors
whose every call succeeds, moved to the cursor `c = 2^63 - 1024`, a `Read`
with a buffer of 1024 bytes returns `(1024, nil)`, so `c + n = 2^63`, and
leaves the cursor at `-2^63`: the sum of `*this.offset += int64(n)` wraps. -/
theorem C10_cursor_wraps_past_int64 :
    ((NewDiskReaderWriter (sampleHandle (2 ^ 54 - 1))).Seek (2 ^ 63 - 1024) SeekStart).this.offset =
      2 ^ 63 - 1024 ∧
    (((NewDiskReaderWriter (sampleHandle (2 ^ 54 - 1))).Seek (2 ^ 63 - 1024) SeekStart).this.Read
        (Slice.make 1024)).map (fun r => (r.n, r.err, r.this.offset)) =
      some (1024, none, -2 ^ 63) ∧
    ((2 ^ 63 - 1024 : Int) + 1024 ≠ -2 ^ 63) := by
  decide

/-- Claim C10 as amended: for a stream with cursor `c` and a buffer `p`,
`Read(p)` returns exactly when `ReadAt(p, c)` on its adapter does, with the
same pair `(n, err)`, and `Write(p)` exactly when `WriteAt(p, c)` does, with
the same pair; in both cases the cursor afterwards is `c + n`, whatever `err`
is and however short the transfer, provided `c + n` is an `int64`,
`-2^63 <= c + n < 2^63`. -/
theorem C10_Read_Write_delegate_and_advance_cursor (this : DiskReaderWriter) (p : Slice) :
    (this.Read p).map (fun r => (r.n, r.err)) =
        (this.diskHandle.ReadAt p this.offset).map (fun r => (r.n, r.err)) ∧
    (∀ r : Result DiskReaderWriter, this.Read p = some r →
      -2 ^ 63 ≤ this.offset + r.n → this.offset + r.n < 2 ^ 63 →
      r.this.offset = this.offset + r.n) ∧
    (this.Write p).map (fun r => (r.n, r.err)) =
        (this.diskHandle.WriteAt p this.offset).map (fun r => (r.n, r.err)) ∧
    (∀ r : Result DiskReaderWriter, this.Write p = some r →
      -2 ^ 63 ≤ this.offset + r.n → this.offset + r.n < 2 ^ 63 →
      r.this.offset = this.offset + r.n) := by
  refine ⟨?_, ?_, ?_, ?_⟩
  · unfold DiskReaderWriter.Read
    cases this.diskHandle.ReadAt p this.offset with
    | none => rfl
    | some r => rfl
  · intro r hr h1 h2
    unfold DiskReaderWriter.Read at hr
    cases hd : this.diskHandle.ReadAt p this.offset with
    | none => rw [hd] at hr; exact Option.noConfusion hr
    | some d =>
      rw [hd] at hr
      have hr1 := Option.some.inj hr
      rw [← hr1] at h1 h2 ⊢
      show int64 (this.offset + int64 d.n) = this.offset + d.n
      rw [int64_add_int64]
      exact int64_of_range h1 h2
  · unfold DiskReaderWriter.Write
    cases this.diskHandle.WriteAt p this.offset with
    | none => rfl
    | some r => rfl
  · intro r hr h1 h2
    unfold DiskReaderWriter.Write at hr
    cases hd : this.diskHandle.WriteAt p this.offset with
    | none => rw [hd] at hr; exact Option.noConfusion hr
    | some d =>
      rw [hd] at hr
      have hr1 := Option.some.inj hr
      rw [← hr1] at h1 h2 ⊢
      show int64 (this.offset + int64 d.n) = this.offset + d.n
      rw [int64_add_int64]
      exact int64_of_range h1 h2

/-- A witness of amended claim C10: on a stream over a disk of four sectors
whose second call fails, moved to the cursor 500, a `Read` with a buffer of
1200 bytes returns the count 12 of the leading part with the error of the
device and leaves the cursor at 512. -/
theorem C10_Read_Write_delegate_and_advance_cursor_witness :
    ∃ r : Result DiskReaderWriter,
      ((NewDiskReaderWriter (faultyHandle 4 1 ⟨1, "failed"⟩)).Seek 500 SeekStart).this.Read
        (Slice.make 1200) = some r ∧
      r.n = 12 ∧ r.err = some (GoError.Vddk ⟨1, "failed"⟩) ∧
      -2 ^ 63 ≤ ((NewDiskReaderWriter (faultyHandle 4 1 ⟨1, "failed"⟩)).Seek 500
        SeekStart).this.offset + r.n ∧
      ((NewDiskReaderWriter (faultyHandle 4 1 ⟨1, "failed"⟩)).Seek 500 SeekStart).this.offset +
        r.n < 2 ^ 63 ∧
      r.this.offset =
        ((NewDiskReaderWriter (faultyHandle 4 1 ⟨1, "failed"⟩)).Seek 500 SeekStart).this.offset +
          r.n := by
  have hsome : ((((NewDiskReaderWriter (faultyHandle 4 1 ⟨1, "failed"⟩)).Seek 500
      SeekStart).this.Read (Slice.make 1200)).map (fun r => (r.n, r.err))) =
      some (12, some (GoError.Vddk ⟨1, "failed"⟩)) := by decide
  rcases hr : ((NewDiskReaderWriter (faultyHandle 4 1 ⟨1, "failed"⟩)).Seek 500
      SeekStart).this.Read (Slice.make 1200) with _ | r
  · rw [hr] at hsome; exact Option.noConfusion hsome
  · rw [hr] at hsome
    have hp := Option.some.inj hsome
    have hn : r.n = 12 := congrArg Prod.fst hp
    have he : r.err = some (GoError.Vddk ⟨1, "failed"⟩) := congrArg Prod.snd hp
    have hoff : ((NewDiskReaderWriter (faultyHandle 4 1 ⟨1, "failed"⟩)).Seek 500
      SeekStart).this.offset = 500 := by decide
    have h1 : -2 ^ 63 ≤ ((NewDiskReaderWriter (faultyHandle 4 1 ⟨1, "failed"⟩)).Seek 500
        SeekStart).this.offset + r.n := by rw [hoff, hn]; decide
    have h2 : ((NewDiskReaderWriter (faultyHandle 4 1 ⟨1, "failed"⟩)).Seek 500
        SeekStart).this.offset + r.n < 2 ^ 63 := by rw [hoff, hn]; decide
    exact ⟨r, rfl, hn, he, h1, h2,
      (C10_Read_Write_delegate_and_advance_cursor
        ((NewDiskReaderWriter (faultyHandle 4 1 ⟨1, "failed"⟩)).Seek 500 SeekStart).this
        (Slice.make 1200)).2.1 r hr h1 h2⟩

/-! ## The device calls of ReadAt under arbitrary device outcomes -/

theorem Read_of_none (dli : VixDiskLibHandle) (s n : Nat) (buf : Slice)
    (h : dli.outcome dli.calls.length (DevCall.Read s n buf.len) = none) :
    disklib.Read dli s n buf =
      (⟨dli.sector, dli.outcome, dli.calls ++ [DevCall.Read s n buf.len]⟩,
       ⟨buf.len, fun j => if j < n * 512 then dli.sector (s + j / 512) (j % 512) else buf.get j⟩,
       none) := by
  simp [disklib.Read, h]

theorem Read_of_some (dli : VixDiskLibHandle) (s n : Nat) (buf : Slice) (e : VddkError)
    (h : dli.outcome dli.calls.length (DevCall.Read s n buf.len) = some e) :
    disklib.Read dli s n buf =
      (⟨dli.sector, dli.outcome, dli.calls ++ [DevCall.Read s n buf.len]⟩, buf, some e) := by
  simp [disklib.Read, h]

theorem ReadAt_startPart_cases (s : Locals) (o : Nat) (ho : o < 2 ^ 63)
    (hS : s.startSector = ((o / 512 : Nat) : Int)) (hT : s.total = 0) :
    (o % 512 = 0 ∧ DiskConnectHandle.ReadAt.startPart s (o : Int) = some (s, none)) ∨
    (o % 512 ≠ 0 ∧ ∃ e s1,
      s.dli.outcome s.dli.calls.length (DevCall.Read (o / 512) 1 512) = some e ∧
      DiskConnectHandle.ReadAt.startPart s (o : Int) = some (s1, some (0, mapError e)) ∧
      s1.p = s.p ∧ s1.dli.calls = s.dli.calls ++ [DevCall.Read (o / 512) 1 512] ∧
      s1.dli.sector = s.dli.sector ∧ s1.dli.outcome = s.dli.outcome) ∨
    (o % 512 ≠ 0 ∧ s.dli.outcome s.dli.calls.length (DevCall.Read (o / 512) 1 512) = none ∧
      ∃ s1, DiskConnectHandle.ReadAt.startPart s (o : Int) = some (s1, none) ∧
      s1.total = (leadLen o s.p.len : Int) ∧ s1.p.len = s.p.len ∧
      s1.startSector = (((o + 511) / 512 : Nat) : Int) ∧
      (∀ j, s1.p.get j =
        if j < leadLen o s.p.len then s.dli.sector ((o + j) / 512) ((o + j) % 512) else s.p.get j) ∧
      s1.dli.calls = s.dli.calls ++ [DevCall.Read (o / 512) 1 512] ∧
      s1.dli.sector = s.dli.sector ∧ s1.dli.outcome = s.dli.outcome) := by
  unfold DiskConnectHandle.ReadAt.startPart
  simp only [VIXDISKLIB_SECTOR_SIZE, Nat.cast_ofNat, tmod_nat]
  by_cases h0 : o % 512 = 0
  · left
    refine ⟨h0, ?_⟩
    rw [if_neg (by omega)]
  · right
    have hu : uint64 s.startSector = o / 512 := by
      rw [hS, uint64_of_range (by omega) (by omega)]; omega
    rw [if_pos (by omega), hu]
    rcases Option.eq_none_or_eq_some
        (s.dli.outcome s.dli.calls.length (DevCall.Read (o / 512) 1 512)) with hout | ⟨e, hout⟩
    · right
      have hc : (if 512 - ((o % 512 : Nat) : Int) > (s.p.len : Int) then (s.p.len : Int)
          else 512 - ((o % 512 : Nat) : Int)) = ((min (512 - o % 512) s.p.len : Nat) : Int) := by
        split <;> omega
      have hl : leadLen o s.p.len = min (512 - o % 512) s.p.len := by
        simp only [leadLen]; rw [if_neg h0]
      rw [Read_of_none _ _ _ (Slice.make 512) hout]
      simp only [hc]
      rw [if_pos (by omega)]
      refine ⟨h0, hout, _, rfl, ?_, rfl, ?_, ?_, rfl, rfl, rfl⟩
      · simp only [hT, hl]; omega
      · simp only [hS]; omega
      · intro j
        simp only [Slice.store, Slice.slice, copy, Slice.make, hl]
        split_ifs <;> first | rfl | omega | (congr 1 <;> omega)
    · left
      refine ⟨h0, e, ⟨⟨s.dli.sector, s.dli.outcome,
        s.dli.calls ++ [DevCall.Read (o / 512) 1 512]⟩, s.p, s.startSector, s.total, s.srcOff⟩,
        hout, ?_, rfl, rfl, rfl, rfl⟩
      rw [Read_of_some _ _ _ (Slice.make 512) e hout]
      rfl

theorem ReadAt_middlePart_cases (s : Locals) (t S : Nat)
    (hS : s.startSector = (S : Int)) (hT : s.total = (t : Int)) (ht : t ≤ s.p.len)
    (hS2 : S < 2 ^ 63) (hl : s.p.len < 2 ^ 63) :
    ((s.p.len - t) / 512 = 0 ∧ DiskConnectHandle.ReadAt.middlePart s = (s, none)) ∨
    ((s.p.len - t) / 512 ≠ 0 ∧ ∃ e s2,
      s.dli.outcome s.dli.calls.length
        (DevCall.Read S ((s.p.len - t) / 512) (512 * ((s.p.len - t) / 512))) = some e ∧
      DiskConnectHandle.ReadAt.middlePart s = (s2, some ((t : Int), mapError e)) ∧
      s2.p = s.p ∧
      s2.dli.calls = s.dli.calls ++
        [DevCall.Read S ((s.p.len - t) / 512) (512 * ((s.p.len - t) / 512))] ∧
      s2.dli.sector = s.dli.sector ∧ s2.dli.outcome = s.dli.outcome) ∨
    ((s.p.len - t) / 512 ≠ 0 ∧
      s.dli.outcome s.dli.calls.length
        (DevCall.Read S ((s.p.len - t) / 512) (512 * ((s.p.len - t) / 512))) = none ∧
      ∃ s2, DiskConnectHandle.ReadAt.middlePart s = (s2, none) ∧
      s2.total = ((t + 512 * ((s.p.len - t) / 512) : Nat) : Int) ∧ s2.p.len = s.p.len ∧
      s2.startSector = ((S + (s.p.len - t) / 512 : Nat) : Int) ∧
      (∀ j, s2.p.get j =
        if t ≤ j ∧ j < t + 512 * ((s.p.len - t) / 512) then
          s.dli.sector (S + (j - t) / 512) ((j - t) % 512)
        else s.p.get j) ∧
      s2.dli.calls = s.dli.calls ++
        [DevCall.Read S ((s.p.len - t) / 512) (512 * ((s.p.len - t) / 512))] ∧
      s2.dli.sector = s.dli.sector ∧ s2.dli.outcome = s.dli.outcome) := by
  unfold DiskConnectHandle.ReadAt.middlePart
  have hd : Int.tdiv ((s.p.len : Int) - s.total) (512 : Int) = (((s.p.len - t) / 512 : Nat) : Int) := by
    rw [hT, Int.tdiv_eq_ediv (by omega) (by omega)]; omega
  simp only [VIXDISKLIB_SECTOR_SIZE, Nat.cast_ofNat, hd]
  by_cases h0 : (s.p.len - t) / 512 = 0
  · left
    refine ⟨h0, ?_⟩
    rw [if_neg (by omega)]
  · right
    have hu : uint64 s.startSector = S := by
      rw [hS, uint64_of_range (by omega) (by omega)]; omega
    have hn : uint64 (((s.p.len - t) / 512 : Nat) : Int) = (s.p.len - t) / 512 := by
      rw [uint64_of_range (by omega) (by omega)]; omega
    have hbl : (s.p.slice s.total.toNat
        (s.total + (((s.p.len - t) / 512 : Nat) : Int) * 512).toNat).len =
        512 * ((s.p.len - t) / 512) := by
      simp only [Slice.slice, hT]; omega
    rw [if_pos (by omega), hu, hn]
    rcases Option.eq_none_or_eq_some
        (s.dli.outcome s.dli.calls.length
          (DevCall.Read S ((s.p.len - t) / 512) (512 * ((s.p.len - t) / 512)))) with
      hout | ⟨e, hout⟩
    · right
      rw [Read_of_none _ _ _ _ (by rw [hbl]; exact hout), hbl]
      refine ⟨h0, hout, _, rfl, ?_, rfl, ?_, ?_, rfl, rfl, rfl⟩
      · simp only [hT]; push_cast; omega
      · simp only [hS]; push_cast; omega
      · intro j
        simp only [Slice.store, Slice.slice, hT]
        split_ifs <;> first | rfl | omega
    · left
      refine ⟨h0, e, ⟨⟨s.dli.sector, s.dli.outcome, s.dli.calls ++
        [DevCall.Read S ((s.p.len - t) / 512) (512 * ((s.p.len - t) / 512))]⟩, s.p,
        s.startSector, s.total, s.srcOff⟩, hout, ?_, rfl, rfl, rfl, rfl⟩
      rw [Read_of_some _ _ _ _ e (by rw [hbl]; exact hout), hbl, hT]

theorem ReadAt_endPart_cases (s : Locals) (t S : Nat)
    (hS : s.startSector = (S : Int)) (hT : s.total = (t : Int)) (ht : t ≤ s.p.len)
    (hS2 : S < 2 ^ 63) (hr : s.p.len - t < 512) :
    (s.p.len - t = 0 ∧ DiskConnectHandle.ReadAt.endPart s = (s, none)) ∨
    (s.p.len - t ≠ 0 ∧ ∃ e s3,
      s.dli.outcome s.dli.calls.length (DevCall.Read S 1 512) = some e ∧
      DiskConnectHandle.ReadAt.endPart s = (s3, some ((t : Int), mapError e)) ∧
      s3.p = s.p ∧ s3.dli.calls = s.dli.calls ++ [DevCall.Read S 1 512] ∧
      s3.dli.sector = s.dli.sector ∧ s3.dli.outcome = s.dli.outcome) ∨
    (s.p.len - t ≠ 0 ∧ s.dli.outcome s.dli.calls.length (DevCall.Read S 1 512) = none ∧
      ∃ s3, DiskConnectHandle.ReadAt.endPart s = (s3, none) ∧
      s3.total = (t : Int) ∧ s3.p.len = s.p.len ∧
      (∀ j, s3.p.get j =
        if t ≤ j ∧ j < s.p.len then s.dli.sector S (j - t) else s.p.get j) ∧
      s3.dli.calls = s.dli.calls ++ [DevCall.Read S 1 512] ∧
      s3.dli.sector = s.dli.sector ∧ s3.dli.outcome = s.dli.outcome) := by
  unfold DiskConnectHandle.ReadAt.endPart
  simp only [VIXDISKLIB_SECTOR_SIZE, Nat.cast_ofNat]
  by_cases h0 : s.p.len - t = 0
  · left
    refine ⟨h0, ?_⟩
    rw [if_neg (by omega)]
  · right
    have hu : uint64 s.startSector = S := by
      rw [hS, uint64_of_range (by omega) (by omega)]; omega
    rw [if_pos (by omega), hu]
    rcases Option.eq_none_or_eq_some
        (s.dli.outcome s.dli.calls.length (DevCall.Read S 1 512)) with hout | ⟨e, hout⟩
    · right
      rw [Read_of_none _ _ _ (Slice.make 512) hout]
      refine ⟨h0, hout, _, rfl, hT, rfl, ?_, rfl, rfl, rfl⟩
      intro j
      simp only [Slice.store, Slice.slice, copy, Slice.make, hT]
      split_ifs <;> first | rfl | omega | (congr 1 <;> omega)
    · left
      refine ⟨h0, e, ⟨⟨s.dli.sector, s.dli.outcome, s.dli.calls ++ [DevCall.Read S 1 512]⟩, s.p,
        s.startSector, s.total, s.srcOff⟩, hout, ?_, rfl, rfl, rfl, rfl⟩
      rw [Read_of_some _ _ _ (Slice.make 512) e hout, hT]
      rfl

theorem readCount_eq (o len : Nat) : readCount o len = leadLen o len + 512 * midSectors o len := rfl

theorem leadLen_le (o len : Nat) : leadLen o len ≤ len := by
  unfold leadLen; split <;> omega

theorem leadLen_cases (o len : Nat) :
    leadLen o len = 0 ∧ o % 512 = 0 ∨
    leadLen o len = 512 - o % 512 ∧ o % 512 ≠ 0 ∧ 512 - o % 512 ≤ len ∨
    leadLen o len = len ∧ o % 512 ≠ 0 ∧ len < 512 - o % 512 := by
  unfold leadLen; split <;> omega

theorem readCount_le (o len : Nat) : readCount o len ≤ len := by
  have := leadLen_le o len
  rw [readCount_eq]; unfold midSectors; omega

theorem issued_cons_none {out : Nat → DevCall → Option VddkError} {k : Nat} {part : Part}
    {c : DevCall} (h : out k c = none) (rest : List (Part × DevCall)) :
    issued out k ((part, c) :: rest) = c :: issued out (k + 1) rest := by
  simp [issued, h]

theorem issued_cons_some {out : Nat → DevCall → Option VddkError} {k : Nat} {part : Part}
    {c : DevCall} {e : VddkError} (h : out k c = some e) (rest : List (Part × DevCall)) :
    issued out k ((part, c) :: rest) = [c] := by
  simp [issued, h]

theorem firstFailure_cons_none {out : Nat → DevCall → Option VddkError} {k : Nat} {part : Part}
    {c : DevCall} (h : out k c = none) (rest : List (Part × DevCall)) :
    firstFailure out k ((part, c) :: rest) = firstFailure out (k + 1) rest := by
  simp [firstFailure, h]

theorem firstFailure_cons_some {out : Nat → DevCall → Option VddkError} {k : Nat} {part : Part}
    {c : DevCall} {e : VddkError} (h : out k c = some e) (rest : List (Part × DevCall)) :
    firstFailure out k ((part, c) :: rest) = some (part, e) := by
  simp [firstFailure, h]

theorem ReadAt_run_trace (this : DiskConnectHandle) (p q : Slice) (o : Nat)
    (ho : o < 2 ^ 63) (hq : q.len < 2 ^ 63) :
    ∃ r : Result DiskConnectHandle,
      DiskConnectHandle.ReadAt.run this p q (o : Int) = some r ∧
      r.this.dli.calls = this.dli.calls ++
        issued this.dli.outcome this.dli.calls.length (readPlan o q.len) ∧
      r.this.dli.sector = this.dli.sector ∧ r.this.dli.outcome = this.dli.outcome ∧
      r.this.info = this.info ∧ r.p.len = p.len ∧
      (firstFailure this.dli.outcome this.dli.calls.length (readPlan o q.len) = none →
        r.n = (readCount o q.len : Int) ∧ r.err = none) ∧
      (∀ part e,
        firstFailure this.dli.outcome this.dli.calls.length (readPlan o q.len) = some (part, e) →
        r.n = (bytesBefore o q.len part : Int) ∧ r.err = some (mapError e)) ∧
      (∀ j : Nat, (j : Int) < r.n → r.p.get j = byteAt this.dli (o + j)) := by
  have hll := leadLen_le o q.len
  have hlc := leadLen_cases o q.len
  -- the leading part
  have hstart :
      (o % 512 ≠ 0 ∧ ∃ e s1,
        this.dli.outcome this.dli.calls.length (DevCall.Read (o / 512) 1 512) = some e ∧
        DiskConnectHandle.ReadAt.startPart ⟨this.dli, q, ((o / 512 : Nat) : Int), 0, 0⟩ (o : Int) =
          some (s1, some (0, mapError e)) ∧
        s1.p = q ∧ s1.dli.calls = this.dli.calls ++ [DevCall.Read (o / 512) 1 512] ∧
        s1.dli.sector = this.dli.sector ∧ s1.dli.outcome = this.dli.outcome) ∨
      (∃ s1 cA,
        DiskConnectHandle.ReadAt.startPart ⟨this.dli, q, ((o / 512 : Nat) : Int), 0, 0⟩ (o : Int) =
          some (s1, none) ∧
        s1.total = (leadLen o q.len : Int) ∧ s1.p.len = q.len ∧
        s1.startSector = (((o + 511) / 512 : Nat) : Int) ∧
        (∀ j, j < leadLen o q.len → s1.p.get j = byteAt this.dli (o + j)) ∧
        s1.dli.calls = this.dli.calls ++ cA ∧
        s1.dli.sector = this.dli.sector ∧ s1.dli.outcome = this.dli.outcome ∧
        (∀ X, issued this.dli.outcome this.dli.calls.length
            ((if o % 512 = 0 then [] else [(Part.leading, DevCall.Read (o / 512) 1 512)]) ++ X) =
          cA ++ issued this.dli.outcome (this.dli.calls.length + cA.length) X) ∧
        (∀ X, firstFailure this.dli.outcome this.dli.calls.length
            ((if o % 512 = 0 then [] else [(Part.leading, DevCall.Read (o / 512) 1 512)]) ++ X) =
          firstFailure this.dli.outcome (this.dli.calls.length + cA.length) X)) := by
    rcases ReadAt_startPart_cases ⟨this.dli, q, ((o / 512 : Nat) : Int), 0, 0⟩ o ho rfl rfl with
      ⟨h0, h1⟩ | ⟨h0, e, s1, hout1, h1, hp1, hc1, hsec1, hoc1⟩ |
      ⟨h0, hout1, s1, h1, ht1, hl1, hS1, hg1, hc1, hsec1, hoc1⟩
    · right
      refine ⟨_, [], h1, ?_, rfl, ?_, ?_, by simp, rfl, rfl, ?_, ?_⟩
      · simp only []; omega
      · simp only []; omega
      · intro j hj; omega
      · intro X; simp [h0]
      · intro X; simp [h0]
    · left
      exact ⟨h0, e, s1, hout1, h1, hp1, hc1, hsec1, hoc1⟩
    · right
      simp only [] at hout1 ht1 hl1 hg1 hc1 hsec1 hoc1
      refine ⟨s1, [DevCall.Read (o / 512) 1 512], h1, ht1, hl1, hS1, ?_, hc1, hsec1, hoc1, ?_, ?_⟩
      · intro j hj
        rw [hg1 j, if_pos hj]; rfl
      · intro X
        rw [if_neg h0]
        exact issued_cons_none hout1 X
      · intro X
        rw [if_neg h0]
        exact firstFailure_cons_none hout1 X
  have hmsd : midSectors o q.len = (q.len - leadLen o q.len) / 512 := rfl
  have hrc : readCount o q.len = leadLen o q.len + 512 * ((q.len - leadLen o q.len) / 512) := rfl
  have hplan : readPlan o q.len =
      (if o % 512 = 0 then [] else [(Part.leading, DevCall.Read (o / 512) 1 512)]) ++
      ((if midSectors o q.len = 0 then []
        else [(Part.middle,
          DevCall.Read ((o + 511) / 512) (midSectors o q.len) (512 * midSectors o q.len))]) ++
      (if q.len - readCount o q.len = 0 then []
        else [(Part.trailing, DevCall.Read ((o + 511) / 512 + midSectors o q.len) 1 512)])) := by
    simp only [readPlan, List.append_assoc]
  simp only [DiskConnectHandle.ReadAt.run, VIXDISKLIB_SECTOR_SIZE, Nat.cast_ofNat, tdiv_nat,
    ite_Lock_dli]
  rcases hstart with ⟨h0, e, s1, hout1, h1, hp1, hc1, hsec1, hoc1⟩ |
    ⟨s1, cA, h1, ht1, hl1, hS1, hg1, hc1, hsec1, hoc1, hissA, hffA⟩
  · -- the read of the leading part fails
    rw [h1]
    have hiss : issued this.dli.outcome this.dli.calls.length (readPlan o q.len) =
        [DevCall.Read (o / 512) 1 512] := by
      rw [hplan, if_neg h0]; exact issued_cons_some hout1 _
    have hff : firstFailure this.dli.outcome this.dli.calls.length (readPlan o q.len) =
        some (Part.leading, e) := by
      rw [hplan, if_neg h0]; exact firstFailure_cons_some hout1 _
    refine ⟨_, rfl, ?_, hsec1, hoc1, ite_Lock_info _ _, rfl, ?_, ?_, ?_⟩
    · rw [hiss]; exact hc1
    · intro h; rw [hff] at h; cases h
    · intro part e1 h
      rw [hff] at h
      cases h
      exact ⟨rfl, rfl⟩
    · intro j hj
      simp only [] at hj
      omega
  · rw [h1]
    simp only []
    have hk1 : s1.dli.calls.length = this.dli.calls.length + cA.length := by
      rw [hc1, List.length_append]
    -- the middle run
    have hmid :
        (midSectors o q.len ≠ 0 ∧ ∃ e s2,
          this.dli.outcome (this.dli.calls.length + cA.length)
            (DevCall.Read ((o + 511) / 512) (midSectors o q.len) (512 * midSectors o q.len)) =
            some e ∧
          DiskConnectHandle.ReadAt.middlePart s1 =
            (s2, some ((leadLen o q.len : Int), mapError e)) ∧
          s2.p = s1.p ∧
          s2.dli.calls = this.dli.calls ++ cA ++
            [DevCall.Read ((o + 511) / 512) (midSectors o q.len) (512 * midSectors o q.len)] ∧
          s2.dli.sector = this.dli.sector ∧ s2.dli.outcome = this.dli.outcome) ∨
        (∃ s2 cB,
          DiskConnectHandle.ReadAt.middlePart s1 = (s2, none) ∧
          s2.total = (readCount o q.len : Int) ∧ s2.p.len = q.len ∧
          s2.startSector = (((o + 511) / 512 + midSectors o q.len : Nat) : Int) ∧
          (∀ j, j < readCount o q.len → s2.p.get j = byteAt this.dli (o + j)) ∧
          s2.dli.calls = this.dli.calls ++ cA ++ cB ∧
          s2.dli.sector = this.dli.sector ∧ s2.dli.outcome = this.dli.outcome ∧
          (∀ X, issued this.dli.outcome (this.dli.calls.length + cA.length)
              ((if midSectors o q.len = 0 then []
                else [(Part.middle, DevCall.Read ((o + 511) / 512) (midSectors o q.len)
                  (512 * midSectors o q.len))]) ++ X) =
            cB ++ issued this.dli.outcome (this.dli.calls.length + cA.length + cB.length) X) ∧
          (∀ X, firstFailure this.dli.outcome (this.dli.calls.length + cA.length)
              ((if midSectors o q.len = 0 then []
                else [(Part.middle, DevCall.Read ((o + 511) / 512) (midSectors o q.len)
                  (512 * midSectors o q.len))]) ++ X) =
            firstFailure this.dli.outcome (this.dli.calls.length + cA.length + cB.length) X)) := by
      have hms : (s1.p.len - leadLen o q.len) / 512 = midSectors o q.len := by rw [hl1, hmsd]
      rcases ReadAt_middlePart_cases s1 (leadLen o q.len) ((o + 511) / 512) hS1 ht1
          (by omega) (by omega) (by omega) with
        ⟨hm0, h2⟩ | ⟨hm0, e, s2, hout2, h2, hp2, hc2, hsec2, hoc2⟩ |
        ⟨hm0, hout2, s2, h2, ht2, hl2, hS2, hg2, hc2, hsec2, hoc2⟩
      · rw [hms] at hm0
        right
        refine ⟨s1, [], h2, ?_, hl1, ?_, ?_, by simpa using hc1, hsec1, hoc1, ?_, ?_⟩
        · rw [ht1]; omega
        · rw [hS1]; omega
        · intro j hj
          exact hg1 j (by omega)
        · intro X; simp [hm0]
        · intro X; simp [hm0]
      · rw [hms, hk1, hoc1] at hout2
        rw [hms] at hm0 hc2
        left
        exact ⟨hm0, e, s2, hout2, h2, hp2, by rw [hc2, hc1], by rw [hsec2, hsec1],
          by rw [hoc2, hoc1]⟩
      · rw [hms, hk1, hoc1] at hout2
        rw [hms] at hm0 hc2 ht2 hS2 hg2
        right
        refine ⟨s2, [DevCall.Read ((o + 511) / 512) (midSectors o q.len)
          (512 * midSectors o q.len)], h2, ?_, by rw [hl2, hl1], hS2, ?_, by rw [hc2, hc1],
          by rw [hsec2, hsec1], by rw [hoc2, hoc1], ?_, ?_⟩
        · rw [ht2]; omega
        · intro j hj
          rw [hg2 j]
          by_cases hjl : j < leadLen o q.len
          · rw [if_neg (by omega)]
            exact hg1 j hjl
          · rw [if_pos (by omega), hsec1]
            simp only [byteAt]
            congr 1 <;> omega
        · intro X
          rw [if_neg hm0]
          exact issued_cons_none hout2 X
        · intro X
          rw [if_neg hm0]
          exact firstFailure_cons_none hout2 X
    rcases hmid with ⟨hm0, e, s2, hout2, h2, hp2, hc2, hsec2, hoc2⟩ |
      ⟨s2, cB, h2, ht2, hl2, hS2, hg2, hc2, hsec2, hoc2, hissB, hffB⟩
    · -- the read of the middle run fails
      rw [h2]
      have hiss : issued this.dli.outcome this.dli.calls.length (readPlan o q.len) =
          cA ++ [DevCall.Read ((o + 511) / 512) (midSectors o q.len)
            (512 * midSectors o q.len)] := by
        rw [hplan, hissA, if_neg hm0]
        exact congrArg _ (issued_cons_some hout2 _)
      have hff : firstFailure this.dli.outcome this.dli.calls.length (readPlan o q.len) =
          some (Part.middle, e) := by
        rw [hplan, hffA, if_neg hm0]; exact firstFailure_cons_some hout2 _
      refine ⟨_, rfl, ?_, hsec2, hoc2, ite_Lock_info _ _, rfl, ?_, ?_, ?_⟩
      · rw [hiss, ← List.append_assoc]; exact hc2
      · intro h; rw [hff] at h; cases h
      · intro part e1 h
        rw [hff] at h
        cases h
        exact ⟨rfl, rfl⟩
      · intro j hj
        simp only [] at hj
        simp only [Slice.store, hp2, hl1, Nat.sub_zero, Nat.zero_add]
        rw [if_pos (by omega)]
        exact hg1 j (by omega)
    · rw [h2]
      simp only []
      have hk2 : s2.dli.calls.length = this.dli.calls.length + cA.length + cB.length := by
        rw [hc2, List.length_append, List.length_append]
      have hrl := readCount_le o q.len
      rcases ReadAt_endPart_cases s2 (readCount o q.len)
          ((o + 511) / 512 + midSectors o q.len) hS2 ht2 (by omega) (by omega) (by omega) with
        ⟨he0, h3⟩ | ⟨he0, e, s3, hout3, h3, hp3, hc3, hsec3, hoc3⟩ |
        ⟨he0, hout3, s3, h3, ht3, hl3, hg3, hc3, hsec3, hoc3⟩
      · -- no trailing part
        rw [hl2] at he0
        rw [h3]
        have hiss : issued this.dli.outcome this.dli.calls.length (readPlan o q.len) =
            cA ++ cB := by
          rw [hplan, hissA, hissB, if_pos he0]; simp [issued]
        have hff : firstFailure this.dli.outcome this.dli.calls.length (readPlan o q.len) =
            none := by
          rw [hplan, hffA, hffB, if_pos he0]; simp [firstFailure]
        refine ⟨_, rfl, ?_, hsec2, hoc2, ite_Lock_info _ _, rfl, ?_, ?_, ?_⟩
        · rw [hiss, ← List.append_assoc]; exact hc2
        · intro _; exact ⟨ht2, rfl⟩
        · intro part e1 h; rw [hff] at h; cases h
        · intro j hj
          simp only [ht2] at hj
          simp only [Slice.store, hl2, Nat.sub_zero, Nat.zero_add]
          rw [if_pos (by omega)]
          exact hg2 j (by omega)
      · -- the read of the trailing part fails
        rw [hl2] at he0
        rw [hk2, hoc2] at hout3
        rw [h3]
        have hiss : issued this.dli.outcome this.dli.calls.length (readPlan o q.len) =
            cA ++ (cB ++ [DevCall.Read ((o + 511) / 512 + midSectors o q.len) 1 512]) := by
          rw [hplan, hissA, hissB, if_neg he0]
          exact congrArg _ (congrArg _ (issued_cons_some hout3 _))
        have hff : firstFailure this.dli.outcome this.dli.calls.length (readPlan o q.len) =
            some (Part.trailing, e) := by
          rw [hplan, hffA, hffB, if_neg he0]; exact firstFailure_cons_some hout3 _
        refine ⟨_, rfl, ?_, by rw [hsec3, hsec2], by rw [hoc3, hoc2], ite_Lock_info _ _, rfl,
          ?_, ?_, ?_⟩
        · rw [hiss, hc3, hc2]; simp only [List.append_assoc]
        · intro h; rw [hff] at h; cases h
        · intro part e1 h
          rw [hff] at h
          cases h
          exact ⟨rfl, rfl⟩
        · intro j hj
          simp only [] at hj
          simp only [Slice.store, hp3, hl2, Nat.sub_zero, Nat.zero_add]
          rw [if_pos (by omega)]
          exact hg2 j (by omega)
      · -- the read of the trailing part succeeds
        rw [hl2] at he0
        rw [hk2, hoc2] at hout3
        rw [h3]
        have hiss : issued this.dli.outcome this.dli.calls.length (readPlan o q.len) =
            cA ++ (cB ++ [DevCall.Read ((o + 511) / 512 + midSectors o q.len) 1 512]) := by
          rw [hplan, hissA, hissB, if_neg he0]
          exact congrArg _ (congrArg _ (by rw [issued_cons_none hout3]; rfl))
        have hff : firstFailure this.dli.outcome this.dli.calls.length (readPlan o q.len) =
            none := by
          rw [hplan, hffA, hffB, if_neg he0, firstFailure_cons_none hout3]; rfl
        refine ⟨_, rfl, ?_, by rw [hsec3, hsec2], by rw [hoc3, hoc2], ite_Lock_info _ _, rfl,
          ?_, ?_, ?_⟩
        · rw [hiss, hc3, hc2]; simp only [List.append_assoc]
        · intro _; exact ⟨ht3, rfl⟩
        · intro part e1 h; rw [hff] at h; cases h
        · intro j hj
          simp only [ht3] at hj
          simp only [Slice.store, hl3, hl2, Nat.sub_zero, Nat.zero_add]
          rw [if_pos (by omega), hg3 j, if_neg (by omega)]
          exact hg2 j (by omega)


/-! ## Bounds on the byte counts under arbitrary device outcomes -/

theorem ReadAt_run_info (this : DiskConnectHandle) (p q : Slice) (off : Int)
    (r : Result DiskConnectHandle) (h : DiskConnectHandle.ReadAt.run this p q off = some r) :
    r.this.info = this.info := by
  simp only [DiskConnectHandle.ReadAt.run] at h
  split at h
  · cases h
  · cases h; exact ite_Lock_info _ _
  · split at h
    · cases h; exact ite_Lock_info _ _
    · split at h
      · cases h; exact ite_Lock_info _ _
      · cases h; exact ite_Lock_info _ _

theorem ReadAt_info (this : DiskConnectHandle) (p : Slice) (off : Int)
    (r : Result DiskConnectHandle) (h : this.ReadAt p off = some r) :
    r.this.info = this.info := by
  simp only [DiskConnectHandle.ReadAt] at h
  split at h
  · cases h; rfl
  · split at h
    · split at h
      · cases h
      · exact ReadAt_run_info _ _ _ _ _ h
    · exact ReadAt_run_info _ _ _ _ _ h

theorem WriteAt_info (this : DiskConnectHandle) (p : Slice) (off : Int)
    (r : Result DiskConnectHandle) (h : this.WriteAt p off = some r) :
    r.this.info = this.info := by
  simp only [DiskConnectHandle.WriteAt] at h
  split at h
  · cases h; rfl
  · split at h
    · cases h
    · cases h; exact ite_Lock_info _ _
    · split at h
      · cases h; exact ite_Lock_info _ _
      · split at h
        · cases h; exact ite_Lock_info _ _
        · cases h; exact ite_Lock_info _ _

theorem bytesBefore_le (o len : Nat) (part : Part) : bytesBefore o len part ≤ len := by
  cases part
  · simp [bytesBefore]
  · exact leadLen_le o len
  · exact readCount_le o len

theorem ReadAt_run_n_le (this : DiskConnectHandle) (p q : Slice) (o : Nat)
    (ho : o < 2 ^ 63) (hq : q.len < 2 ^ 63) (r : Result DiskConnectHandle)
    (h : DiskConnectHandle.ReadAt.run this p q (o : Int) = some r) :
    0 ≤ r.n ∧ r.n ≤ q.len := by
  obtain ⟨r1, hr1, -, -, -, -, -, hnone, hsome, -⟩ := ReadAt_run_trace this p q o ho hq
  have hrr : r1 = r := Option.some.inj (hr1.symm.trans h)
  subst hrr
  rcases Option.eq_none_or_eq_some
      (firstFailure this.dli.outcome this.dli.calls.length (readPlan o q.len)) with hf | ⟨x, hf⟩
  · have := readCount_le o q.len
    rw [(hnone hf).1]; omega
  · have := bytesBefore_le o q.len x.1
    rw [(hsome x.1 x.2 hf).1]; omega

theorem ReadAt_cursor_bound (this : DiskConnectHandle) (p : Slice) (c : Int)
    (hc0 : 0 ≤ c) (hc1 : c < 2 ^ 63) (hfits : this.Capacity + p.len < 2 ^ 63)
    (r : Result DiskConnectHandle) (h : this.ReadAt p c = some r) :
    0 ≤ r.n ∧ c + r.n < 2 ^ 63 := by
  have hcap := Capacity_lt this
  obtain ⟨o, rfl⟩ := Int.eq_ofNat_of_zero_le hc0
  simp only [DiskConnectHandle.ReadAt] at h
  split at h
  · cases h
    simp only []
    omega
  · rename_i hlt
    split at h
    · split at h
      · cases h
      · rename_i hclip hneg
        have hi : int64 (this.Capacity - (o : Int)) = this.Capacity - (o : Int) :=
          int64_of_range (by omega) (by omega)
        rw [hi] at h hneg
        have hle : (int32 (this.Capacity - (o : Int))).toNat ≤ this.Capacity - (o : Int) := by
          unfold int32 at hneg ⊢
          omega
        have hb := ReadAt_run_n_le this p _ o (by omega)
          (by simp only [Slice.slice]; unfold int32; omega) r h
        simp only [Slice.slice] at hb
        omega
    · have hb := ReadAt_run_n_le this p p o (by omega) (by omega) r h
      omega

theorem WriteAt_startPart_bounds (s : Locals) (off : Int) (hT : s.total = 0)
    (s1 : Locals) (early : Option (Int × GoError))
    (h : DiskConnectHandle.WriteAt.startPart s off = some (s1, early)) :
    s1.p = s.p ∧ 0 ≤ s1.total ∧ s1.total ≤ s.p.len ∧ ∀ n e, early = some (n, e) → n = 0 := by
  simp only [DiskConnectHandle.WriteAt.startPart, VIXDISKLIB_SECTOR_SIZE, Nat.cast_ofNat] at h
  by_cases hm : Int.tmod off 512 ≠ 0
  · rw [if_pos hm] at h
    rcases hR : disklib.Read s.dli (uint64 s.startSector) 1 (Slice.make 512) with
      ⟨dli, tmpBuf, _ | err⟩
    · rw [hR] at h
      simp only [] at h
      by_cases hb : 0 ≤ Int.tmod off 512 ∧
          Int.tmod off 512 ≤ Int.tmod off 512 +
            (if (s.p.len : Int) < 512 - Int.tmod off 512 then (s.p.len : Int)
              else 512 - Int.tmod off 512) ∧
          Int.tmod off 512 +
            (if (s.p.len : Int) < 512 - Int.tmod off 512 then (s.p.len : Int)
              else 512 - Int.tmod off 512) ≤ 512
      · rw [if_pos hb] at h
        generalize hW : disklib.Write dli (uint64 s.startSector) 1 _ = w at h
        rcases w with ⟨dli1, _ | err⟩
        · simp only [Option.some.injEq, Prod.mk.injEq] at h
          obtain ⟨h1, h2⟩ := h
          subst h1 h2
          refine ⟨rfl, ?_, ?_, ?_⟩
          · simp only [hT]; split <;> omega
          · simp only [hT]; split <;> omega
          · intro n e hne; cases hne
        · simp only [Option.some.injEq, Prod.mk.injEq] at h
          obtain ⟨h1, h2⟩ := h
          subst h1 h2
          refine ⟨rfl, by simp only [hT]; omega, by simp only [hT]; omega, ?_⟩
          intro n e hne; cases hne; rfl
      · rw [if_neg hb] at h
        cases h
    · rw [hR] at h
      simp only [Option.some.injEq, Prod.mk.injEq] at h
      obtain ⟨h1, h2⟩ := h
      subst h1 h2
      refine ⟨rfl, by simp only [hT]; omega, by simp only [hT]; omega, ?_⟩
      intro n e hne; cases hne; rfl
  · rw [if_neg hm] at h
    simp only [Option.some.injEq, Prod.mk.injEq] at h
    obtain ⟨h1, h2⟩ := h
    subst h1 h2
    refine ⟨rfl, by omega, by omega, ?_⟩
    intro n e hne; cases hne

theorem WriteAt_middlePart_bounds (s : Locals) (h0 : 0 ≤ s.total) (h1 : s.total ≤ s.p.len)
    (s2 : Locals) (early : Option (Int × GoError))
    (h : DiskConnectHandle.WriteAt.middlePart s = (s2, early)) :
    s2.p = s.p ∧ 0 ≤ s2.total ∧ s2.total ≤ s.p.len ∧
      ∀ n e, early = some (n, e) → 0 ≤ n ∧ n ≤ s.p.len := by
  simp only [DiskConnectHandle.WriteAt.middlePart, VIXDISKLIB_SECTOR_SIZE, Nat.cast_ofNat] at h
  have hd : Int.tdiv ((s.p.len : Int) - s.total) 512 = ((s.p.len : Int) - s.total) / 512 :=
    Int.tdiv_eq_ediv (by omega) (by omega)
  rw [hd] at h
  split at h
  · split at h
    · cases h
      refine ⟨rfl, h0, h1, ?_⟩
      intro n e hne; cases hne; exact ⟨h0, h1⟩
    · cases h
      refine ⟨rfl, ?_, ?_, ?_⟩
      · simp only []; omega
      · simp only []; omega
      · intro n e hne; cases hne
  · cases h
    refine ⟨rfl, h0, h1, ?_⟩
    intro n e hne; cases hne

theorem WriteAt_endPart_bounds (s : Locals) (h0 : 0 ≤ s.total) (h1 : s.total ≤ s.p.len)
    (s3 : Locals) (early : Option (Int × GoError))
    (h : DiskConnectHandle.WriteAt.endPart s = (s3, early)) :
    ∀ n e, early = some (n, e) → 0 ≤ n ∧ n ≤ s.p.len := by
  simp only [DiskConnectHandle.WriteAt.endPart, VIXDISKLIB_SECTOR_SIZE, Nat.cast_ofNat] at h
  split at h
  · split at h
    · cases h
      intro n e hne; cases hne; exact ⟨h0, h1⟩
    · split at h
      · cases h
        intro n e hne; cases hne; exact ⟨h0, h1⟩
      · cases h
        intro n e hne; cases hne
  · cases h
    intro n e hne; cases hne

theorem WriteAt_n_le (this : DiskConnectHandle) (p : Slice) (off : Int)
    (r : Result DiskConnectHandle) (h : this.WriteAt p off = some r) :
    0 ≤ r.n ∧ r.n ≤ p.len := by
  simp only [DiskConnectHandle.WriteAt] at h
  split at h
  · cases h
    simp only []
    omega
  · split at h
    · cases h
    · rename_i s1 n err h1
      cases h
      have := (WriteAt_startPart_bounds _ off rfl s1 _ h1).2.2.2 n err rfl
      simp only [this]
      omega
    · rename_i s1 h1
      obtain ⟨hp1, ha1, hb1, -⟩ := WriteAt_startPart_bounds _ off rfl s1 _ h1
      simp only [] at hp1 hb1
      split at h
      · rename_i s2 n err h2
        cases h
        have := (WriteAt_middlePart_bounds s1 ha1 (by rw [hp1]; exact hb1) s2 _ h2).2.2.2 n err rfl
        rw [hp1] at this
        exact this
      · rename_i s2 h2
        obtain ⟨hp2, ha2, hb2, -⟩ :=
          WriteAt_middlePart_bounds s1 ha1 (by rw [hp1]; exact hb1) s2 _ h2
        split at h
        · rename_i s3 n err h3
          cases h
          have := WriteAt_endPart_bounds s2 ha2 (by rw [hp2]; exact hb2) s3 _ h3 n err rfl
          rw [hp2, hp1] at this
          exact this
        · cases h
          simp only []
          omega

/-! ## Seek, and the cursor along a sequence of calls -/

theorem int64_lt (x : Int) : int64 x < 2 ^ 63 := by
  unfold int64; omega

theorem Seek_start_ok (this : DiskReaderWriter) (delta : Int) (h : 0 ≤ delta) :
    this.Seek delta SeekStart =
      ⟨{ this with mutex := this.mutex + 1, offset := delta }, delta, none⟩ := by
  simp [DiskReaderWriter.Seek, not_lt.mpr h]

theorem Seek_start_neg (this : DiskReaderWriter) (delta : Int) (h : delta < 0) :
    this.Seek delta SeekStart =
      ⟨{ this with mutex := this.mutex + 1 }, 0,
        some (GoError.New "Cannot seek to negative offset")⟩ := by
  simp [DiskReaderWriter.Seek, h]

theorem Seek_current_ok (this : DiskReaderWriter) (delta : Int)
    (h : 0 ≤ int64 (this.offset + delta)) :
    this.Seek delta SeekCurrent =
      ⟨{ this with mutex := this.mutex + 1, offset := int64 (this.offset + delta) },
        int64 (this.offset + delta), none⟩ := by
  have h10 : ¬ (SeekCurrent = SeekStart) := by decide
  simp [DiskReaderWriter.Seek, h10, not_lt.mpr h]

theorem Seek_current_neg (this : DiskReaderWriter) (delta : Int)
    (h : int64 (this.offset + delta) < 0) :
    this.Seek delta SeekCurrent =
      ⟨{ this with mutex := this.mutex + 1 }, 0,
        some (GoError.New "Cannot seek to negative offset")⟩ := by
  have h10 : ¬ (SeekCurrent = SeekStart) := by decide
  simp [DiskReaderWriter.Seek, h10, h]

theorem Seek_end (this : DiskReaderWriter) (delta : Int) :
    this.Seek delta SeekEnd =
      ⟨{ this with mutex := this.mutex + 1 }, this.offset,
        some (GoError.New "Seek from SeekEnd not implemented")⟩ := by
  have h20 : ¬ (SeekEnd = SeekStart) := by decide
  have h21 : ¬ (SeekEnd = SeekCurrent) := by decide
  simp [DiskReaderWriter.Seek, h20, h21]

theorem WriteAt_cursor_bound (this : DiskConnectHandle) (p : Slice) (c : Int)
    (hc0 : 0 ≤ c) (hc1 : c < 2 ^ 63) (hfits : this.Capacity + p.len < 2 ^ 63)
    (r : Result DiskConnectHandle) (h : this.WriteAt p c = some r) :
    0 ≤ r.n ∧ c + r.n < 2 ^ 63 := by
  have hcap := Capacity_lt this
  have hn := WriteAt_n_le this p c r h
  by_cases hg : c > this.Capacity ∨ int64 (c + int64 p.len) > this.Capacity
  · simp only [DiskConnectHandle.WriteAt] at h
    rw [if_pos hg] at h
    cases h
    simp only []
    omega
  · have hi1 : int64 (p.len : Int) = p.len := int64_of_range (by omega) (by omega)
    have hi2 : int64 (c + (p.len : Int)) = c + p.len := int64_of_range (by omega) (by omega)
    rw [hi1, hi2] at hg
    omega

theorem step_cursor_invariant (s : DiskReaderWriter) (op : Op)
    (h0 : 0 ≤ s.offset) (h1 : s.offset < 2 ^ 63) (hfit : op.Fits s.diskHandle.Capacity)
    (t : DiskReaderWriter) (h : s.step op = some t) :
    0 ≤ t.offset ∧ t.offset < 2 ^ 63 ∧ t.diskHandle.info = s.diskHandle.info := by
  cases op with
  | Read p =>
    simp only [DiskReaderWriter.step, DiskReaderWriter.Read] at h
    cases hr : s.diskHandle.ReadAt p s.offset with
    | none => rw [hr] at h; cases h
    | some r =>
      rw [hr] at h
      cases h
      have hb := ReadAt_cursor_bound s.diskHandle p s.offset h0 h1 hfit r hr
      have hi := ReadAt_info s.diskHandle p s.offset r hr
      have e1 : int64 r.n = r.n := int64_of_range (by omega) (by omega)
      have e2 : int64 (s.offset + r.n) = s.offset + r.n := int64_of_range (by omega) (by omega)
      simp only [e1, e2]
      exact ⟨by omega, by omega, hi⟩
  | Write p =>
    simp only [DiskReaderWriter.step, DiskReaderWriter.Write] at h
    cases hr : s.diskHandle.WriteAt p s.offset with
    | none => rw [hr] at h; cases h
    | some r =>
      rw [hr] at h
      cases h
      have hb := WriteAt_cursor_bound s.diskHandle p s.offset h0 h1 hfit r hr
      have hi := WriteAt_info s.diskHandle p s.offset r hr
      have e1 : int64 r.n = r.n := int64_of_range (by omega) (by omega)
      have e2 : int64 (s.offset + r.n) = s.offset + r.n := int64_of_range (by omega) (by omega)
      simp only [e1, e2]
      exact ⟨by omega, by omega, hi⟩
  | Seek offset whence =>
    simp only [DiskReaderWriter.step, Option.some.injEq] at h
    subst h
    have hl := int64_lt (s.offset + offset)
    obtain ⟨hf0, hf1⟩ := hfit
    simp only [DiskReaderWriter.Seek]
    split
    · split
      · exact ⟨h0, h1, rfl⟩
      · exact ⟨by simp only []; omega, hf1, rfl⟩
    · split
      · split
        · exact ⟨h0, h1, rfl⟩
        · exact ⟨by simp only []; omega, hl, rfl⟩
      · split
        · exact ⟨h0, h1, rfl⟩
        · split
          · exact ⟨h0, h1, rfl⟩
          · exact ⟨h0, h1, rfl⟩
  | ReadAt p off =>
    simp only [DiskReaderWriter.step, DiskReaderWriter.ReadAt] at h
    cases hr : s.diskHandle.ReadAt p off with
    | none => rw [hr] at h; cases h
    | some r =>
      rw [hr] at h
      cases h
      exact ⟨h0, h1, ReadAt_info s.diskHandle p off r hr⟩
  | WriteAt p off =>
    simp only [DiskReaderWriter.step, DiskReaderWriter.WriteAt] at h
    cases hr : s.diskHandle.WriteAt p off with
    | none => rw [hr] at h; cases h
    | some r =>
      rw [hr] at h
      cases h
      exact ⟨h0, h1, WriteAt_info s.diskHandle p off r hr⟩

theorem steps_cursor_invariant (ops : List Op) :
    ∀ (s t : DiskReaderWriter), 0 ≤ s.offset → s.offset < 2 ^ 63 →
      (∀ op ∈ ops, op.Fits s.diskHandle.Capacity) → s.steps ops = some t →
      0 ≤ t.offset ∧ t.offset < 2 ^ 63 := by
  induction ops with
  | nil =>
    intro s t h0 h1 _ h
    simp only [DiskReaderWriter.steps, Option.some.injEq] at h
    subst h
    exact ⟨h0, h1⟩
  | cons op ops ih =>
    intro s t h0 h1 hfit h
    simp only [DiskReaderWriter.steps] at h
    cases hs : s.step op with
    | none => rw [hs] at h; cases h
    | some u =>
      rw [hs] at h
      obtain ⟨hu0, hu1, hui⟩ :=
        step_cursor_invariant s op h0 h1 (hfit op (List.mem_cons_self _ _)) u hs
      have hcap : u.diskHandle.Capacity = s.diskHandle.Capacity := Capacity_congr hui
      exact ih u t hu0 hu1
        (fun o ho => by rw [hcap]; exact hfit o (List.mem_cons_of_mem _ ho)) h

theorem Slice.slice_zero_len (p : Slice) : p.slice 0 p.len = p := by
  cases p
  simp [Slice.slice]

theorem ReadAt_eq_run (this : DiskConnectHandle) (p : Slice) (off : Int) (L : Nat)
    (hlt : off < this.Capacity) (hL : clipLen this p off = some L) :
    this.ReadAt p off = DiskConnectHandle.ReadAt.run this p (p.slice 0 L) off := by
  simp only [DiskConnectHandle.ReadAt, clipLen] at hL ⊢
  rw [if_neg (by omega)]
  split
  · rename_i hclip
    rw [if_pos hclip] at hL
    split
    · rename_i hneg
      rw [if_pos hneg] at hL
      exact Option.noConfusion hL
    · rename_i hneg
      rw [if_neg hneg] at hL
      rw [← Option.some.inj hL]
  · rename_i hclip
    rw [if_neg hclip] at hL
    rw [← Option.some.inj hL, Slice.slice_zero_len]

theorem clipLen_lt (this : DiskConnectHandle) (p : Slice) (off : Int) (L : Nat)
    (hlen : p.len < 2 ^ 63) (hL : clipLen this p off = some L) : L < 2 ^ 63 := by
  simp only [clipLen] at hL
  split at hL
  · split at hL
    · exact Option.noConfusion hL
    · have hL1 := Option.some.inj hL
      rw [← hL1]
      unfold int32
      omega
  · cases hL
    exact hlen

/-! ## The claims C11 to C19 -/

/-- Claim C11, at an input where the code departs from it: on a stream with
cursor 0 over a disk of four sectors whose every read succeeds, `Read` with a
buffer of 100 bytes (so `c + len(p) <= capacity`) returns a nil error and
fills all 100 bytes of the buffer with the device bytes 0 to 99, yet it
returns the count 0 and leaves the cursor at 0, not at `c + len(p) = 100`. -/
theorem C11_Read_fills_buffer_and_leaves_cursor :
    ((NewDiskReaderWriter (sampleHandle 4)).Read (Slice.make 100)).map
        (fun (r : Result DiskReaderWriter) => (r.n, r.err, r.this.offset,
          (List.range 100).all (fun j => r.p.get j == byteAt sampleDisk j))) =
      some (0, none, 0, true) ∧
    (NewDiskReaderWriter (sampleHandle 4)).offset + (Slice.make 100).len ≤
      (sampleHandle 4).Capacity := by
  decide

/-- Claim C12 fails as stated: on a stream moved to the cursor `c = 2^63 - 1`
by `Seek(2^63 - 1, io.SeekStart)`, `Seek(1, io.SeekCurrent)` has
`c + delta = 2^63 >= 0`, but the sum that `desiredOffset += offset` forms
wraps to `-2^63`: the call returns 0 and the error "Cannot seek to negative
offset" and leaves the cursor at `c`. -/
theorem C12_Seek_current_past_int64_fails :
    ((NewDiskReaderWriter (sampleHandle 4)).Seek (2 ^ 63 - 1) SeekStart).this.offset =
      2 ^ 63 - 1 ∧
    (0 : Int) ≤ (2 ^ 63 - 1) + 1 ∧
    (((NewDiskReaderWriter (sampleHandle 4)).Seek (2 ^ 63 - 1) SeekStart).this.Seek 1
        SeekCurrent).pos = 0 ∧
    (((NewDiskReaderWriter (sampleHandle 4)).Seek (2 ^ 63 - 1) SeekStart).this.Seek 1
        SeekCurrent).err = some (GoError.New "Cannot seek to negative offset") ∧
    (((NewDiskReaderWriter (sampleHandle 4)).Seek (2 ^ 63 - 1) SeekStart).this.Seek 1
        SeekCurrent).this.offset = 2 ^ 63 - 1 := by
  decide

/-- Claim C12 as amended: on a stream with cursor `c`,
`Seek(delta, io.SeekStart)` with `delta >= 0` sets the cursor to `delta` and
returns `(delta, nil)`; `Seek(delta, io.SeekCurrent)` with
`0 <= c + delta < 2^63` sets the cursor to `c + delta` and returns
`(c + delta, nil)`; and with a cursor that is a non-negative `int64`,
`Seek(0, io.SeekCurrent)` returns `(c, nil)` and leaves cursor and adapter as
they were. -/
theorem C12_Seek_sets_and_returns_cursor (this : DiskReaderWriter) (delta : Int) :
    (0 ≤ delta →
      (this.Seek delta SeekStart).this.offset = delta ∧
      (this.Seek delta SeekStart).pos = delta ∧ (this.Seek delta SeekStart).err = none) ∧
    (0 ≤ this.offset + delta → this.offset + delta < 2 ^ 63 →
      (this.Seek delta SeekCurrent).this.offset = this.offset + delta ∧
      (this.Seek delta SeekCurrent).pos = this.offset + delta ∧
      (this.Seek delta SeekCurrent).err = none) ∧
    (0 ≤ this.offset → this.offset < 2 ^ 63 →
      (this.Seek 0 SeekCurrent).this.offset = this.offset ∧
      (this.Seek 0 SeekCurrent).pos = this.offset ∧ (this.Seek 0 SeekCurrent).err = none ∧
      (this.Seek 0 SeekCurrent).this.diskHandle = this.diskHandle) := by
  refine ⟨?_, ?_, ?_⟩
  · intro h
    rw [Seek_start_ok this delta h]
    exact ⟨rfl, rfl, rfl⟩
  · intro h0 h1
    have hi : int64 (this.offset + delta) = this.offset + delta :=
      int64_of_range (by omega) h1
    rw [Seek_current_ok this delta (by rw [hi]; exact h0), hi]
    exact ⟨rfl, rfl, rfl⟩
  · intro h0 h1
    have hi : int64 (this.offset + 0) = this.offset := by
      rw [Int.add_zero]; exact int64_of_range (by omega) h1
    rw [Seek_current_ok this 0 (by rw [hi]; exact h0), hi]
    exact ⟨rfl, rfl, rfl, rfl⟩

/-- A witness of amended claim C12: on the stream over a disk of four sectors
moved to cursor 5, `Seek(7, io.SeekStart)`, `Seek(7, io.SeekCurrent)` and
`Seek(0, io.SeekCurrent)`. -/
theorem C12_Seek_sets_and_returns_cursor_witness :
    ((NewDiskReaderWriter (sampleHandle 4)).Seek 5 SeekStart).this.offset = 5 ∧
    ((((NewDiskReaderWriter (sampleHandle 4)).Seek 5 SeekStart).this.Seek 7 SeekStart).pos = 7) ∧
    ((((NewDiskReaderWriter (sampleHandle 4)).Seek 5 SeekStart).this.Seek 7 SeekCurrent).pos =
      ((NewDiskReaderWriter (sampleHandle 4)).Seek 5 SeekStart).this.offset + 7) ∧
    ((((NewDiskReaderWriter (sampleHandle 4)).Seek 5 SeekStart).this.Seek 0 SeekCurrent).pos =
      ((NewDiskReaderWriter (sampleHandle 4)).Seek 5 SeekStart).this.offset) :=
  ⟨by decide,
    ((C12_Seek_sets_and_returns_cursor
      ((NewDiskReaderWriter (sampleHandle 4)).Seek 5 SeekStart).this 7).1 (by decide)).2.1,
    ((C12_Seek_sets_and_returns_cursor
      ((NewDiskReaderWriter (sampleHandle 4)).Seek 5 SeekStart).this 7).2.1 (by decide)
        (by decide)).2.1,
    ((C12_Seek_sets_and_returns_cursor
      ((NewDiskReaderWriter (sampleHandle 4)).Seek 5 SeekStart).this 7).2.2
        (by decide) (by decide)).2.1⟩

/-- Claim C13: on a stream with cursor `c`, a `Seek` whose candidate position
is negative, `Seek(delta, io.SeekStart)` with `delta < 0` or
`Seek(delta, io.SeekCurrent)` with `c + delta < 0` (the `int64` sum that
`desiredOffset += offset` forms), returns 0 and a non-nil error and leaves the
cursor equal to `c`. -/
theorem C13_Seek_to_negative_fails (this : DiskReaderWriter) (delta : Int) :
    (delta < 0 →
      (this.Seek delta SeekStart).err ≠ none ∧ (this.Seek delta SeekStart).pos = 0 ∧
      (this.Seek delta SeekStart).this.offset = this.offset) ∧
    (int64 (this.offset + delta) < 0 →
      (this.Seek delta SeekCurrent).err ≠ none ∧ (this.Seek delta SeekCurrent).pos = 0 ∧
      (this.Seek delta SeekCurrent).this.offset = this.offset) := by
  refine ⟨?_, ?_⟩
  · intro h
    rw [Seek_start_neg this delta h]
    exact ⟨by simp, rfl, rfl⟩
  · intro h
    rw [Seek_current_neg this delta h]
    exact ⟨by simp, rfl, rfl⟩

/-- A witness of claim C13, the example of the claim: after a `Write` of 100
bytes from cursor 0 the cursor is 100, `Seek(-1, io.SeekStart)` then fails and
a following `Seek(0, io.SeekCurrent)` returns 100; and `Seek(-1,
io.SeekStart)`, `Seek(-1, io.SeekCurrent)` on the new stream fail. -/
theorem C13_Seek_to_negative_fails_witness :
    ((NewDiskReaderWriter (sampleHandle 4)).steps
        [Op.Write (sampleBuffer 100), Op.Seek (-1) SeekStart]).map
      (fun s => ((s.Seek (-1) SeekStart).err.isSome, s.offset, (s.Seek 0 SeekCurrent).pos,
        (s.Seek 0 SeekCurrent).err)) = some (true, 100, 100, none) ∧
    ((NewDiskReaderWriter (sampleHandle 4)).Seek (-1) SeekStart).err ≠ none ∧
    ((NewDiskReaderWriter (sampleHandle 4)).Seek (-1) SeekCurrent).this.offset =
      (NewDiskReaderWriter (sampleHandle 4)).offset :=
  ⟨by decide,
    ((C13_Seek_to_negative_fails (NewDiskReaderWriter (sampleHandle 4)) (-1)).1 (by decide)).1,
    ((C13_Seek_to_negative_fails (NewDiskReaderWriter (sampleHandle 4)) (-1)).2
      (by decide)).2.2⟩

/-- Claim C14: on every stream and for every `delta`,
`Seek(delta, io.SeekEnd)` returns the cursor and a non-nil error and
leaves the cursor as it was, and that error differs from the error of every
`Seek` to a negative position. -/
theorem C14_Seek_from_end_unsupported (this : DiskReaderWriter) (delta : Int) :
    (this.Seek delta SeekEnd).err = some (GoError.New "Seek from SeekEnd not implemented") ∧
    (this.Seek delta SeekEnd).pos = this.offset ∧
    (this.Seek delta SeekEnd).this.offset = this.offset ∧
    (∀ (that : DiskReaderWriter) (d : Int), d < 0 →
      (this.Seek delta SeekEnd).err ≠ (that.Seek d SeekStart).err) ∧
    (∀ (that : DiskReaderWriter) (d : Int), int64 (that.offset + d) < 0 →
      (this.Seek delta SeekEnd).err ≠ (that.Seek d SeekCurrent).err) := by
  rw [Seek_end this delta]
  refine ⟨rfl, rfl, rfl, ?_, ?_⟩
  · intro that d hd
    rw [Seek_start_neg that d hd]
    show some (GoError.New "Seek from SeekEnd not implemented") ≠
      some (GoError.New "Cannot seek to negative offset")
    decide
  · intro that d hd
    rw [Seek_current_neg that d hd]
    show some (GoError.New "Seek from SeekEnd not implemented") ≠
      some (GoError.New "Cannot seek to negative offset")
    decide

/-- A witness of claim C14: on the new stream over a disk of four sectors the
error of `Seek(3, io.SeekEnd)` differs from the error of
`Seek(-1, io.SeekStart)`. -/
theorem C14_Seek_from_end_unsupported_witness :
    (-1 : Int) < 0 ∧
    ((NewDiskReaderWriter (sampleHandle 4)).Seek 3 SeekEnd).err ≠
      ((NewDiskReaderWriter (sampleHandle 4)).Seek (-1) SeekStart).err :=
  ⟨by decide,
    (C14_Seek_from_end_unsupported (NewDiskReaderWriter (sampleHandle 4)) 3).2.2.2.1
      (NewDiskReaderWriter (sampleHandle 4)) (-1) (by decide)⟩

/-- Claim C15 fails as stated: on a stream over a disk of four sectors whose
every call succeeds, after `Seek(512, io.SeekStart)` a `Read` with a buffer of
`2^63 - 1` bytes is not cut down, because the sum `off + len(p)` of the guard
leaves `int64`, and it leaves the cursor at `-2^63`; a `Write` with such a
buffer is not rejected, for the same reason, and leaves the cursor at
`-2^63 + 511`. -/
theorem C15_cursor_negative_after_oversized_buffer :
    ((NewDiskReaderWriter (sampleHandle 4)).steps
        [Op.Seek 512 SeekStart, Op.Read (Slice.make (2 ^ 63 - 1))]).map
      (fun s => s.offset) = some (-2 ^ 63) ∧
    ((NewDiskReaderWriter (sampleHandle 4)).steps
        [Op.Seek 512 SeekStart, Op.Write (Slice.make (2 ^ 63 - 1))]).map
      (fun s => s.offset) = some (-2 ^ 63 + 511) := by
  decide

/-- Claim C15 as amended: starting from `NewDiskReaderWriter`, after every
finite sequence of `Read`, `Write`, `Seek`, `ReadAt` and `WriteAt` calls that
runs to its end, whatever the device answers, the cursor `c` is a non-negative
`int64`, `0 <= c < 2^63`, provided the arguments are those of `Op.Fits`: every
`Seek` offset is an `int64`, and every buffer handed to `Read` or `Write` has
`capacity + len(p) < 2^63`. -/
theorem C15_cursor_is_non_negative_int64 (diskHandle : DiskConnectHandle) (ops : List Op)
    (t : DiskReaderWriter) (hfit : ∀ op ∈ ops, op.Fits diskHandle.Capacity)
    (h : (NewDiskReaderWriter diskHandle).steps ops = some t) :
    0 ≤ t.offset ∧ t.offset < 2 ^ 63 :=
  steps_cursor_invariant ops (NewDiskReaderWriter diskHandle) t (Int.le_refl 0)
    (by show (0 : Int) < 2 ^ 63; decide) hfit h

/-- A witness of amended claim C15: eight calls on a stream over a disk of four
sectors whose third device call fails. -/
theorem C15_cursor_is_non_negative_int64_witness :
    (∀ op ∈ sampleOps, op.Fits (faultyHandle 4 2 ⟨1, "failed"⟩).Capacity) ∧
    ∃ t, (NewDiskReaderWriter (faultyHandle 4 2 ⟨1, "failed"⟩)).steps sampleOps = some t ∧
      0 ≤ t.offset ∧ t.offset < 2 ^ 63 := by
  have hfit : ∀ op ∈ sampleOps, op.Fits (faultyHandle 4 2 ⟨1, "failed"⟩).Capacity := by
    intro op hop
    simp only [sampleOps, List.mem_cons, List.mem_singleton, List.not_mem_nil, or_false] at hop
    rcases hop with rfl | rfl | rfl | rfl | rfl | rfl | rfl | rfl <;>
      simp only [Op.Fits] <;> decide
  have hsome : ((NewDiskReaderWriter (faultyHandle 4 2 ⟨1, "failed"⟩)).steps sampleOps).isSome =
      true := by decide
  obtain ⟨t, ht⟩ := Option.isSome_iff_exists.mp hsome
  exact ⟨hfit, t, ht, C15_cursor_is_non_negative_int64 _ sampleOps t hfit ht⟩

/-- Claim C16: on every stream, for every buffer `p` and offset `off`,
`DiskReaderWriter.ReadAt(p, off)` returns exactly when
`DiskConnectHandle.ReadAt(p, off)` on its adapter does, with the same buffer,
count, error and adapter afterwards, and `DiskReaderWriter.WriteAt(p, off)`
likewise with `DiskConnectHandle.WriteAt(p, off)`; cursor and mutex of the
stream are as they were. -/
theorem C16_stream_ReadAt_WriteAt_pass_through (this : DiskReaderWriter) (p : Slice) (off : Int) :
    (this.ReadAt p off).map
        (fun r => (r.p, r.n, r.err, r.this.diskHandle, r.this.offset, r.this.mutex)) =
      (this.diskHandle.ReadAt p off).map
        (fun r => (r.p, r.n, r.err, r.this, this.offset, this.mutex)) ∧
    (this.WriteAt p off).map
        (fun r => (r.p, r.n, r.err, r.this.diskHandle, r.this.offset, r.this.mutex)) =
      (this.diskHandle.WriteAt p off).map
        (fun r => (r.p, r.n, r.err, r.this, this.offset, this.mutex)) := by
  constructor
  · unfold DiskReaderWriter.ReadAt
    cases this.diskHandle.ReadAt p off with
    | none => rfl
    | some r => rfl
  · unfold DiskReaderWriter.WriteAt
    cases this.diskHandle.WriteAt p off with
    | none => rfl
    | some r => rfl

/-- Claim C17, at an input where the code departs from it: `WriteAt` of 100
bytes at offset 0 on a disk whose first call (the read of the trailing sector)
succeeds and whose second call (the write of the trailing sector) fails.  With
the code `VIX_E_DISK_OUTOFRANGE` the returned error is not `io.EOF`, and with
another code (1) it is not the device error itself: in both cases it is the
device error wrapped by `errors.Wrap`. -/
theorem C17_WriteAt_trailing_write_error_is_wrapped :
    ((faultyHandle 4 1 ⟨VIX_E_DISK_OUTOFRANGE, "out of range"⟩).WriteAt (sampleBuffer 100) 0).map
        (fun r => (r.n, r.err)) =
      some (0, some (GoError.Wrap ⟨VIX_E_DISK_OUTOFRANGE, "out of range"⟩
        "Write into disk in part 3 failed part3.")) ∧
    ((faultyHandle 4 1 ⟨1, "failed"⟩).WriteAt (sampleBuffer 100) 0).map (fun r => (r.n, r.err)) =
      some (0, some (GoError.Wrap ⟨1, "failed"⟩ "Write into disk in part 3 failed part3.")) ∧
    mapError ⟨VIX_E_DISK_OUTOFRANGE, "out of range"⟩ = GoError.EOF ∧
    mapError ⟨1, "failed"⟩ = GoError.Vddk ⟨1, "failed"⟩ := by
  decide

/-- Claim C18: for an offset `0 <= off < capacity` and a buffer `p` that
`ReadAt` cuts down to `L` bytes, if the first device read that fails belongs to
the sub-operation `part` and fails with the error `e`, then `ReadAt(p, off)`
returns the number of bytes of the sub-operations before `part` (0 for the
leading part, the leading count for the middle run, leading count plus middle
run for the trailing part), these bytes of `p` are the device bytes from
position `off` on, the error is `mapError(e)`, which is not nil, and the device
has received the calls of the plan up to and including the failing one and no
later one. -/
theorem C18_ReadAt_failure_returns_bytes_so_far (this : DiskConnectHandle) (p : Slice)
    (off : Int) (L : Nat) (part : Part) (e : VddkError)
    (h0 : 0 ≤ off) (hlt : off < this.Capacity) (hlen : p.len < 2 ^ 63)
    (hL : clipLen this p off = some L)
    (hfail : firstFailure this.dli.outcome this.dli.calls.length (readPlan off.toNat L) =
      some (part, e)) :
    ∃ r : Result DiskConnectHandle,
      this.ReadAt p off = some r ∧ r.n = bytesBefore off.toNat L part ∧
      r.err = some (mapError e) ∧
      (∀ j : Nat, (j : Int) < r.n → r.p.get j = byteAt this.dli (off.toNat + j)) ∧
      r.this.dli.calls =
        this.dli.calls ++ issued this.dli.outcome this.dli.calls.length (readPlan off.toNat L) := by
  have hcap := Capacity_lt this
  have hLlt := clipLen_lt this p off L hlen hL
  rw [ReadAt_eq_run this p off L hlt hL]
  obtain ⟨o, rfl⟩ := Int.eq_ofNat_of_zero_le h0
  simp only [Int.toNat_ofNat] at hfail ⊢
  have hql : (p.slice 0 L).len = L := by simp [Slice.slice]
  obtain ⟨r, hr, hcalls, -, -, -, -, -, hsome, hget⟩ :=
    ReadAt_run_trace this p (p.slice 0 L) o (by omega) (by rw [hql]; exact hLlt)
  rw [hql] at hcalls hsome
  obtain ⟨hn, herr⟩ := hsome part e hfail
  exact ⟨r, hr, hn, herr, hget, hcalls⟩

/-- A witness of claim C18: 1200 bytes at offset 500 of a disk of four
sectors whose second call, the read of the middle run, fails. -/
theorem C18_ReadAt_failure_returns_bytes_so_far_witness :
    (0 : Int) ≤ 500 ∧ (500 : Int) < (faultyHandle 4 1 ⟨1, "failed"⟩).Capacity ∧
    (Slice.make 1200).len < 2 ^ 63 ∧
    clipLen (faultyHandle 4 1 ⟨1, "failed"⟩) (Slice.make 1200) 500 = some 1200 ∧
    firstFailure (faultyHandle 4 1 ⟨1, "failed"⟩).dli.outcome
        (faultyHandle 4 1 ⟨1, "failed"⟩).dli.calls.length
        (readPlan (500 : Int).toNat 1200) = some (Part.middle, ⟨1, "failed"⟩) ∧
    ∃ r : Result DiskConnectHandle,
      (faultyHandle 4 1 ⟨1, "failed"⟩).ReadAt (Slice.make 1200) 500 = some r ∧
      r.n = bytesBefore (500 : Int).toNat 1200 Part.middle ∧
      r.err = some (mapError ⟨1, "failed"⟩) ∧
      (∀ j : Nat, (j : Int) < r.n →
        r.p.get j = byteAt (faultyHandle 4 1 ⟨1, "failed"⟩).dli ((500 : Int).toNat + j)) ∧
      r.this.dli.calls =
        (faultyHandle 4 1 ⟨1, "failed"⟩).dli.calls ++
          issued (faultyHandle 4 1 ⟨1, "failed"⟩).dli.outcome
            (faultyHandle 4 1 ⟨1, "failed"⟩).dli.calls.length (readPlan (500 : Int).toNat 1200) :=
  ⟨by decide, by decide, by decide, by decide, by decide,
    C18_ReadAt_failure_returns_bytes_so_far (faultyHandle 4 1 ⟨1, "failed"⟩) (Slice.make 1200)
      500 1200 Part.middle ⟨1, "failed"⟩ (by decide) (by decide) (by decide) (by decide)
      (by decide)⟩

/-- Claim C19, at inputs where the code departs from it: with the empty
buffer at offset 3 of a disk of four sectors, `ReadAt` returns `(0, nil)` after
one device read of sector 0, and `WriteAt` returns `(0, nil)` after a device
read and a device write of sector 0: the leading part of zero bytes is not
skipped. -/
theorem C19_empty_request_at_misaligned_offset_issues_calls :
    ((sampleHandle 4).ReadAt (Slice.make 0) 3).map (fun r => (r.n, r.err, r.this.dli.calls)) =
      some (0, none, [DevCall.Read 0 1 512]) ∧
    ((sampleHandle 4).WriteAt (Slice.make 0) 3).map (fun r => (r.n, r.err, r.this.dli.calls)) =
      some (0, none, [DevCall.Read 0 1 512, DevCall.Write 0 1 512]) := by
  decide


/-! ## The device calls of WriteAt under arbitrary device outcomes -/

theorem firstFailure_append_none (out : Nat → DevCall → Option VddkError) :
    ∀ (a b : List (Part × DevCall)) (k : Nat), firstFailure out k a = none →
      firstFailure out k (a ++ b) = firstFailure out (k + a.length) b := by
  intro a
  induction a with
  | nil => intro b k _; rfl
  | cons x a ih =>
    intro b k h
    obtain ⟨part, c⟩ := x
    rcases Option.eq_none_or_eq_some (out k c) with hc | ⟨e, hc⟩
    · rw [firstFailure_cons_none hc] at h
      rw [List.cons_append, firstFailure_cons_none hc, ih b (k + 1) h, List.length_cons]
      congr 1; omega
    · rw [firstFailure_cons_some hc] at h
      exact Option.noConfusion h

theorem firstFailure_append_some (out : Nat → DevCall → Option VddkError) :
    ∀ (a b : List (Part × DevCall)) (k : Nat) (x : Part × VddkError),
      firstFailure out k a = some x → firstFailure out k (a ++ b) = some x := by
  intro a
  induction a with
  | nil => intro b k x h; exact Option.noConfusion h
  | cons y a ih =>
    intro b k x h
    obtain ⟨part, c⟩ := y
    rcases Option.eq_none_or_eq_some (out k c) with hc | ⟨e, hc⟩
    · rw [firstFailure_cons_none hc] at h
      rw [List.cons_append, firstFailure_cons_none hc]
      exact ih b (k + 1) x h
    · rw [firstFailure_cons_some hc] at h
      rw [List.cons_append, firstFailure_cons_some hc]
      exact h

theorem issued_append_none (out : Nat → DevCall → Option VddkError) :
    ∀ (a b : List (Part × DevCall)) (k : Nat), firstFailure out k a = none →
      issued out k (a ++ b) = issued out k a ++ issued out (k + a.length) b := by
  intro a
  induction a with
  | nil => intro b k _; rfl
  | cons x a ih =>
    intro b k h
    obtain ⟨part, c⟩ := x
    rcases Option.eq_none_or_eq_some (out k c) with hc | ⟨e, hc⟩
    · rw [firstFailure_cons_none hc] at h
      rw [List.cons_append, issued_cons_none hc, issued_cons_none hc, ih b (k + 1) h,
        List.length_cons, List.cons_append]
      congr 3; omega
    · rw [firstFailure_cons_some hc] at h
      exact Option.noConfusion h

theorem issued_append_some (out : Nat → DevCall → Option VddkError) :
    ∀ (a b : List (Part × DevCall)) (k : Nat) (x : Part × VddkError),
      firstFailure out k a = some x → issued out k (a ++ b) = issued out k a := by
  intro a
  induction a with
  | nil => intro b k x h; exact Option.noConfusion h
  | cons y a ih =>
    intro b k x h
    obtain ⟨part, c⟩ := y
    rcases Option.eq_none_or_eq_some (out k c) with hc | ⟨e, hc⟩
    · rw [firstFailure_cons_none hc] at h
      rw [List.cons_append, issued_cons_none hc, issued_cons_none hc, ih b (k + 1) x h]
    · rw [List.cons_append, issued_cons_some hc, issued_cons_some hc]

theorem issued_length_of_none (out : Nat → DevCall → Option VddkError) :
    ∀ (a : List (Part × DevCall)) (k : Nat), firstFailure out k a = none →
      (issued out k a).length = a.length := by
  intro a
  induction a with
  | nil => intro k _; rfl
  | cons x a ih =>
    intro k h
    obtain ⟨part, c⟩ := x
    rcases Option.eq_none_or_eq_some (out k c) with hc | ⟨e, hc⟩
    · rw [firstFailure_cons_none hc] at h
      rw [issued_cons_none hc, List.length_cons, List.length_cons, ih (k + 1) h]
    · rw [firstFailure_cons_some hc] at h
      exact Option.noConfusion h

theorem issued_subset (out : Nat → DevCall → Option VddkError) :
    ∀ (a : List (Part × DevCall)) (k : Nat) (c : DevCall), c ∈ issued out k a →
      ∃ part, (part, c) ∈ a := by
  intro a
  induction a with
  | nil => intro k c h; simp [issued] at h
  | cons x a ih =>
    intro k c h
    obtain ⟨part, c0⟩ := x
    rcases Option.eq_none_or_eq_some (out k c0) with hc | ⟨e, hc⟩
    · rw [issued_cons_none hc] at h
      rcases List.mem_cons.mp h with h1 | h1
      · exact ⟨part, by rw [h1]; exact List.mem_cons_self _ _⟩
      · obtain ⟨q, hq⟩ := ih (k + 1) c h1
        exact ⟨q, List.mem_cons_of_mem _ hq⟩
    · rw [issued_cons_some hc] at h
      rw [List.mem_singleton.mp h]
      exact ⟨part, List.mem_cons_self _ _⟩

theorem firstFailure_none_of_all (out : Nat → DevCall → Option VddkError) :
    ∀ (a : List (Part × DevCall)) (k : Nat),
      (∀ part c, (part, c) ∈ a → ∀ n, out n c = none) → firstFailure out k a = none := by
  intro a
  induction a with
  | nil => intro k _; rfl
  | cons x a ih =>
    intro k h
    obtain ⟨part, c⟩ := x
    rw [firstFailure_cons_none (h part c (List.mem_cons_self _ _) k)]
    exact ih (k + 1) (fun q d hd n => h q d (List.mem_cons_of_mem _ hd) n)

theorem Write_mk_none (sec : Nat → Nat → Byte) (out : Nat → DevCall → Option VddkError)
    (cs : List DevCall) (s n : Nat) (buf : Slice)
    (h : out cs.length (DevCall.Write s n buf.len) = none) :
    disklib.Write ⟨sec, out, cs⟩ s n buf =
      (⟨fun t k => if s ≤ t ∧ t < s + n then buf.get ((t - s) * 512 + k) else sec t k, out,
        cs ++ [DevCall.Write s n buf.len]⟩, none) := by
  simp [disklib.Write, h]

theorem Write_mk_some (sec : Nat → Nat → Byte) (out : Nat → DevCall → Option VddkError)
    (cs : List DevCall) (s n : Nat) (buf : Slice) (e : VddkError)
    (h : out cs.length (DevCall.Write s n buf.len) = some e) :
    disklib.Write ⟨sec, out, cs⟩ s n buf =
      (⟨sec, out, cs ++ [DevCall.Write s n buf.len]⟩, some e) := by
  simp [disklib.Write, h]

theorem WriteAt_startPart_trace (s : Locals) (o : Nat) (ho : o < 2 ^ 63)
    (hS : s.startSector = ((o / 512 : Nat) : Int)) (hT : s.total = 0) (hO : s.srcOff = 0) :
    ∃ s1 early, DiskConnectHandle.WriteAt.startPart s (o : Int) = some (s1, early) ∧
      s1.dli.calls = s.dli.calls ++ issued s.dli.outcome s.dli.calls.length (writeLead o) ∧
      s1.dli.outcome = s.dli.outcome ∧ s1.p = s.p ∧
      (firstFailure s.dli.outcome s.dli.calls.length (writeLead o) = none →
        early = none ∧ s1.total = (leadLen o s.p.len : Int) ∧
        s1.srcOff = (leadLen o s.p.len : Int) ∧
        s1.startSector = (((o + 511) / 512 : Nat) : Int)) ∧
      (∀ x, firstFailure s.dli.outcome s.dli.calls.length (writeLead o) = some x →
        ∃ n g, early = some (n, g)) := by
  unfold DiskConnectHandle.WriteAt.startPart writeLead
  simp only [VIXDISKLIB_SECTOR_SIZE, Nat.cast_ofNat, tmod_nat]
  by_cases h0 : o % 512 = 0
  · rw [if_neg (by omega), if_pos h0]
    have hl : leadLen o s.p.len = 0 := by simp only [leadLen]; rw [if_pos h0]
    refine ⟨s, none, rfl, by simp [issued], rfl, rfl, ?_, ?_⟩
    · intro _
      refine ⟨rfl, by rw [hT, hl]; rfl, by rw [hO, hl]; rfl, ?_⟩
      rw [hS]; omega
    · intro x hx; exact Option.noConfusion hx
  · have hu : uint64 s.startSector = o / 512 := by
      rw [hS, uint64_of_range (by omega) (by omega)]; omega
    rw [if_pos (by omega), if_neg h0, hu]
    rcases Option.eq_none_or_eq_some
        (s.dli.outcome s.dli.calls.length (DevCall.Read (o / 512) 1 512)) with hout | ⟨e, hout⟩
    · have hc : (if (s.p.len : Int) < 512 - ((o % 512 : Nat) : Int) then (s.p.len : Int)
          else 512 - ((o % 512 : Nat) : Int)) = ((min (512 - o % 512) s.p.len : Nat) : Int) := by
        split <;> omega
      have hl : leadLen o s.p.len = min (512 - o % 512) s.p.len := by
        simp only [leadLen]; rw [if_neg h0]
      rw [Read_of_none _ _ _ (Slice.make 512) hout]
      simp only [hc]
      rw [if_pos (by omega)]
      rcases Option.eq_none_or_eq_some
          (s.dli.outcome (s.dli.calls ++ [DevCall.Read (o / 512) 1 512]).length
            (DevCall.Write (o / 512) 1 512)) with hw | ⟨e, hw⟩
      · rw [Write_mk_none _ _ _ _ _ _ hw]
        have hw1 : s.dli.outcome (s.dli.calls.length + 1) (DevCall.Write (o / 512) 1 512) = none := by
          rw [← hw, List.length_append]; rfl
        refine ⟨_, none, rfl, ?_, rfl, rfl, ?_, ?_⟩
        · rw [issued_cons_none hout, issued_cons_none hw1]
          simp [issued, Slice.store, Slice.make]
        · intro _
          refine ⟨rfl, ?_, ?_, ?_⟩
          · simp only [hT, hl]; omega
          · simp only [hO, hl]; omega
          · simp only [hS]; omega
        · intro x hx
          rw [firstFailure_cons_none hout, firstFailure_cons_none hw1] at hx
          exact Option.noConfusion hx
      · rw [Write_mk_some _ _ _ _ _ _ e hw]
        have hw1 : s.dli.outcome (s.dli.calls.length + 1) (DevCall.Write (o / 512) 1 512) = some e := by
          rw [← hw, List.length_append]; rfl
        refine ⟨_, _, rfl, ?_, rfl, rfl, ?_, ?_⟩
        · rw [issued_cons_none hout, issued_cons_some hw1]
          simp [Slice.store, Slice.make]
        · intro hx
          rw [firstFailure_cons_none hout, firstFailure_cons_some hw1] at hx
          exact Option.noConfusion hx
        · intro x _; exact ⟨_, _, rfl⟩
    · rw [Read_of_some _ _ _ (Slice.make 512) e hout]
      refine ⟨_, _, rfl, ?_, rfl, rfl, ?_, ?_⟩
      · rw [issued_cons_some hout]; rfl
      · intro hx
        rw [firstFailure_cons_some hout] at hx
        exact Option.noConfusion hx
      · intro x _; exact ⟨_, _, rfl⟩

theorem Write_of_none (dli : VixDiskLibHandle) (s n : Nat) (buf : Slice)
    (h : dli.outcome dli.calls.length (DevCall.Write s n buf.len) = none) :
    disklib.Write dli s n buf =
      (⟨fun t k => if s ≤ t ∧ t < s + n then buf.get ((t - s) * 512 + k) else dli.sector t k,
        dli.outcome, dli.calls ++ [DevCall.Write s n buf.len]⟩, none) := by
  simp [disklib.Write, h]

theorem Write_of_some (dli : VixDiskLibHandle) (s n : Nat) (buf : Slice) (e : VddkError)
    (h : dli.outcome dli.calls.length (DevCall.Write s n buf.len) = some e) :
    disklib.Write dli s n buf =
      (⟨dli.sector, dli.outcome, dli.calls ++ [DevCall.Write s n buf.len]⟩, some e) := by
  simp [disklib.Write, h]

theorem WriteAt_middlePart_trace (s : Locals) (t S : Nat)
    (hS : s.startSector = (S : Int)) (hT : s.total = (t : Int)) (hO : s.srcOff = (t : Int))
    (ht : t ≤ s.p.len) (hS2 : S < 2 ^ 63) (hl : s.p.len < 2 ^ 63) :
    ∃ s2 early, DiskConnectHandle.WriteAt.middlePart s = (s2, early) ∧
      s2.dli.calls = s.dli.calls ++ issued s.dli.outcome s.dli.calls.length
        (if (s.p.len - t) / 512 = 0 then []
          else [(Part.middle,
            DevCall.Write S ((s.p.len - t) / 512) (512 * ((s.p.len - t) / 512)))]) ∧
      s2.dli.outcome = s.dli.outcome ∧ s2.p = s.p ∧
      (firstFailure s.dli.outcome s.dli.calls.length
        (if (s.p.len - t) / 512 = 0 then []
          else [(Part.middle,
            DevCall.Write S ((s.p.len - t) / 512) (512 * ((s.p.len - t) / 512)))]) = none →
        early = none ∧ s2.total = ((t + 512 * ((s.p.len - t) / 512) : Nat) : Int) ∧
        s2.srcOff = ((t + 512 * ((s.p.len - t) / 512) : Nat) : Int) ∧
        s2.startSector = ((S + (s.p.len - t) / 512 : Nat) : Int)) ∧
      (∀ x, firstFailure s.dli.outcome s.dli.calls.length
        (if (s.p.len - t) / 512 = 0 then []
          else [(Part.middle,
            DevCall.Write S ((s.p.len - t) / 512) (512 * ((s.p.len - t) / 512)))]) = some x →
        ∃ n g, early = some (n, g)) := by
  unfold DiskConnectHandle.WriteAt.middlePart
  have hd : Int.tdiv ((s.p.len : Int) - s.total) (512 : Int) = (((s.p.len - t) / 512 : Nat) : Int) := by
    rw [hT, Int.tdiv_eq_ediv (by omega) (by omega)]; omega
  simp only [VIXDISKLIB_SECTOR_SIZE, Nat.cast_ofNat, hd]
  by_cases h0 : (s.p.len - t) / 512 = 0
  · rw [if_neg (by omega), if_pos h0]
    refine ⟨s, none, rfl, by simp [issued], rfl, rfl, ?_, ?_⟩
    · intro _
      refine ⟨rfl, ?_, ?_, ?_⟩
      · rw [hT, h0]; rfl
      · rw [hO, h0]; rfl
      · rw [hS, h0]; rfl
    · intro x hx; exact Option.noConfusion hx
  · have hu : uint64 s.startSector = S := by
      rw [hS, uint64_of_range (by omega) (by omega)]; omega
    have hn : uint64 (((s.p.len - t) / 512 : Nat) : Int) = (s.p.len - t) / 512 := by
      rw [uint64_of_range (by omega) (by omega)]; omega
    have hbl : (s.p.slice s.srcOff.toNat
        (s.srcOff + (((s.p.len - t) / 512 : Nat) : Int) * 512).toNat).len =
        512 * ((s.p.len - t) / 512) := by
      simp only [Slice.slice, hO]; omega
    rw [if_pos (by omega), if_neg h0, hu, hn]
    rcases Option.eq_none_or_eq_some
        (s.dli.outcome s.dli.calls.length
          (DevCall.Write S ((s.p.len - t) / 512) (512 * ((s.p.len - t) / 512)))) with
      hout | ⟨e, hout⟩
    · rw [Write_of_none _ _ _ _ (by rw [hbl]; exact hout), hbl]
      refine ⟨_, none, rfl, ?_, rfl, rfl, ?_, ?_⟩
      · rw [issued_cons_none hout]; rfl
      · intro _
        refine ⟨rfl, ?_, ?_, ?_⟩
        · simp only [hT]; push_cast; omega
        · simp only [hO]; push_cast; omega
        · simp only [hS]; push_cast; omega
      · intro x hx
        rw [firstFailure_cons_none hout] at hx
        exact Option.noConfusion hx
    · rw [Write_of_some _ _ _ _ e (by rw [hbl]; exact hout), hbl]
      refine ⟨_, _, rfl, ?_, rfl, rfl, ?_, ?_⟩
      · rw [issued_cons_some hout]
      · intro hx
        rw [firstFailure_cons_some hout] at hx
        exact Option.noConfusion hx
      · intro x _; exact ⟨_, _, rfl⟩

theorem WriteAt_endPart_trace (s : Locals) (t S : Nat)
    (hS : s.startSector = (S : Int)) (hT : s.total = (t : Int)) (ht : t ≤ s.p.len)
    (hS2 : S < 2 ^ 63) :
    ∃ s3 early, DiskConnectHandle.WriteAt.endPart s = (s3, early) ∧
      s3.dli.calls = s.dli.calls ++ issued s.dli.outcome s.dli.calls.length
        (if s.p.len - t = 0 then []
          else [(Part.trailing, DevCall.Read S 1 512), (Part.trailing, DevCall.Write S 1 512)]) ∧
      s3.dli.outcome = s.dli.outcome ∧
      (firstFailure s.dli.outcome s.dli.calls.length
        (if s.p.len - t = 0 then []
          else [(Part.trailing, DevCall.Read S 1 512), (Part.trailing, DevCall.Write S 1 512)])
          = none → early = none) ∧
      (∀ x, firstFailure s.dli.outcome s.dli.calls.length
        (if s.p.len - t = 0 then []
          else [(Part.trailing, DevCall.Read S 1 512), (Part.trailing, DevCall.Write S 1 512)])
          = some x → ∃ n g, early = some (n, g)) := by
  unfold DiskConnectHandle.WriteAt.endPart
  simp only [VIXDISKLIB_SECTOR_SIZE, Nat.cast_ofNat]
  by_cases h0 : s.p.len - t = 0
  · rw [if_neg (by omega), if_pos h0]
    refine ⟨s, none, rfl, by simp [issued], rfl, fun _ => rfl, ?_⟩
    intro x hx; exact Option.noConfusion hx
  · have hu : uint64 s.startSector = S := by
      rw [hS, uint64_of_range (by omega) (by omega)]; omega
    rw [if_pos (by omega), if_neg h0, hu]
    rcases Option.eq_none_or_eq_some
        (s.dli.outcome s.dli.calls.length (DevCall.Read S 1 512)) with hout | ⟨e, hout⟩
    · rw [Read_of_none _ _ _ (Slice.make 512) hout]
      simp only []
      rcases Option.eq_none_or_eq_some
          (s.dli.outcome (s.dli.calls ++ [DevCall.Read S 1 512]).length
            (DevCall.Write S 1 512)) with hw | ⟨e, hw⟩
      · rw [Write_mk_none _ _ _ _ _ _ hw]
        have hw1 : s.dli.outcome (s.dli.calls.length + 1) (DevCall.Write S 1 512) = none := by
          rw [← hw, List.length_append]; rfl
        refine ⟨_, none, rfl, ?_, rfl, fun _ => rfl, ?_⟩
        · rw [issued_cons_none hout, issued_cons_none hw1]
          simp [issued, Slice.store, Slice.make]
        · intro x hx
          rw [firstFailure_cons_none hout, firstFailure_cons_none hw1] at hx
          exact Option.noConfusion hx
      · rw [Write_mk_some _ _ _ _ _ _ e hw]
        have hw1 : s.dli.outcome (s.dli.calls.length + 1) (DevCall.Write S 1 512) = some e := by
          rw [← hw, List.length_append]; rfl
        refine ⟨_, _, rfl, ?_, rfl, ?_, ?_⟩
        · rw [issued_cons_none hout, issued_cons_some hw1]
          simp [Slice.store, Slice.make]
        · intro hx
          rw [firstFailure_cons_none hout, firstFailure_cons_some hw1] at hx
          exact Option.noConfusion hx
        · intro x _; exact ⟨_, _, rfl⟩
    · rw [Read_of_some _ _ _ (Slice.make 512) e hout]
      refine ⟨_, _, rfl, ?_, rfl, ?_, ?_⟩
      · rw [issued_cons_some hout]; rfl
      · intro hx
        rw [firstFailure_cons_some hout] at hx
        exact Option.noConfusion hx
      · intro x _; exact ⟨_, _, rfl⟩

theorem ite_Lock_mutex (b : Bool) (this : DiskConnectHandle) :
    (if b = true then this else this.Lock).mutex =
      if b = true then this.mutex else this.mutex + 1 := by
  cases b <;> rfl

theorem WriteAt_trace (this : DiskConnectHandle) (p : Slice) (o : Nat)
    (hfit : (o : Int) + p.len ≤ this.Capacity) :
    ∃ r : Result DiskConnectHandle,
      this.WriteAt p (o : Int) = some r ∧
      r.this.dli.calls = this.dli.calls ++
        issued this.dli.outcome this.dli.calls.length (writePlan o p.len) ∧
      r.this.dli.outcome = this.dli.outcome ∧ r.this.info = this.info ∧
      r.this.mutex = (if aligned p.len o = true then this.mutex else this.mutex + 1) ∧
      (firstFailure this.dli.outcome this.dli.calls.length (writePlan o p.len) = none →
        r.n = (p.len : Int) ∧ r.err = none) ∧
      (∀ x, firstFailure this.dli.outcome this.dli.calls.length (writePlan o p.len) = some x →
        ∃ g, r.err = some g) := by
  have hcap := Capacity_lt this
  have hi1 : int64 (p.len : Int) = p.len := int64_of_range (by omega) (by omega)
  have hi2 : int64 ((o : Int) + p.len) = (o : Int) + p.len := int64_of_range (by omega) (by omega)
  have hll := leadLen_le o p.len
  have hrc := readCount_le o p.len
  have hrce := readCount_eq o p.len
  unfold DiskConnectHandle.WriteAt
  simp only [hi1, hi2]
  rw [if_neg (by omega)]
  simp only [VIXDISKLIB_SECTOR_SIZE, Nat.cast_ofNat, tdiv_nat, ite_Lock_dli]
  obtain ⟨s1, e1, h1, hc1, ho1, hp1, hn1, hf1⟩ :=
    WriteAt_startPart_trace ⟨this.dli, p, ((o / 512 : Nat) : Int), 0, 0⟩ o (by omega) rfl rfl rfl
  simp only [] at hc1 ho1 hp1 hn1 hf1
  rw [h1]
  unfold writePlan
  rcases Option.eq_none_or_eq_some
      (firstFailure this.dli.outcome this.dli.calls.length (writeLead o)) with hF1 | ⟨x1, hF1⟩
  · obtain ⟨he1, ht1, hO1, hS1⟩ := hn1 hF1
    subst he1
    simp only []
    have hk1 : s1.dli.calls.length = this.dli.calls.length + (writeLead o).length := by
      rw [hc1, List.length_append, issued_length_of_none _ _ _ hF1]
    obtain ⟨s2, e2, h2, hc2, ho2, hp2, hn2, hf2⟩ :=
      WriteAt_middlePart_trace s1 (leadLen o p.len) ((o + 511) / 512) hS1 ht1 hO1
        (by rw [hp1]; exact hll) (by omega) (by rw [hp1]; omega)
    rw [hp1, ho1, hk1] at hc2 hn2 hf2
    rw [h2]
    rw [firstFailure_append_none _ _ _ _ hF1, issued_append_none _ _ _ _ hF1]
    have hmid : writeMid o p.len =
        (if (p.len - leadLen o p.len) / 512 = 0 then []
          else [(Part.middle, DevCall.Write ((o + 511) / 512) ((p.len - leadLen o p.len) / 512)
            (512 * ((p.len - leadLen o p.len) / 512)))]) := rfl
    rw [← hmid] at hc2 hn2 hf2
    rcases Option.eq_none_or_eq_some
        (firstFailure this.dli.outcome (this.dli.calls.length + (writeLead o).length)
          (writeMid o p.len)) with hF2 | ⟨x2, hF2⟩
    · obtain ⟨he2, ht2, _, hS2⟩ := hn2 hF2
      subst he2
      simp only []
      have hk2 : s2.dli.calls.length =
          this.dli.calls.length + (writeLead o).length + (writeMid o p.len).length := by
        rw [hc2, List.length_append, issued_length_of_none _ _ _ hF2, hk1]
      have hrc2 : leadLen o p.len + 512 * ((p.len - leadLen o p.len) / 512) = readCount o p.len := by
        rw [hrce]; rfl
      rw [hrc2] at ht2
      obtain ⟨s3, e3, h3, hc3, ho3, hn3, hf3⟩ :=
        WriteAt_endPart_trace s2 (readCount o p.len)
          ((o + 511) / 512 + (p.len - leadLen o p.len) / 512) hS2 ht2
          (by rw [hp2, hp1]; exact hrc) (by omega)
      rw [hp2, hp1, ho2, ho1, hk2] at hc3 hn3 hf3
      have htr : writeTrail o p.len =
          (if p.len - readCount o p.len = 0 then []
            else [(Part.trailing,
                DevCall.Read ((o + 511) / 512 + (p.len - leadLen o p.len) / 512) 1 512),
              (Part.trailing,
                DevCall.Write ((o + 511) / 512 + (p.len - leadLen o p.len) / 512) 1 512)]) := rfl
      rw [← htr] at hc3 hn3 hf3
      rw [h3]
      rw [firstFailure_append_none _ _ _ _ hF2, issued_append_none _ _ _ _ hF2]
      rcases e3 with _ | ⟨n3, g3⟩
      · refine ⟨_, rfl, ?_, ?_, ite_Lock_info _ _, ite_Lock_mutex _ _, ?_, ?_⟩
        · show s3.dli.calls = _
          rw [hc3, hc2, hc1, List.append_assoc, List.append_assoc]
        · show s3.dli.outcome = _
          rw [ho3, ho2, ho1]
        · intro _; exact ⟨rfl, rfl⟩
        · intro x hx
          obtain ⟨n, g, hng⟩ := hf3 x hx
          exact Option.noConfusion hng
      · refine ⟨_, rfl, ?_, ?_, ite_Lock_info _ _, ite_Lock_mutex _ _, ?_, ?_⟩
        · show s3.dli.calls = _
          rw [hc3, hc2, hc1, List.append_assoc, List.append_assoc]
        · show s3.dli.outcome = _
          rw [ho3, ho2, ho1]
        · intro hx
          exact Option.noConfusion (hn3 hx)
        · intro x _; exact ⟨_, rfl⟩
    · obtain ⟨n2, g2, he2⟩ := hf2 x2 hF2
      subst he2
      simp only []
      rw [firstFailure_append_some _ _ _ _ _ hF2, issued_append_some _ _ _ _ _ hF2]
      refine ⟨_, rfl, ?_, ?_, ite_Lock_info _ _, ite_Lock_mutex _ _, ?_, ?_⟩
      · show s2.dli.calls = _
        rw [hc2, hc1, List.append_assoc]
      · show s2.dli.outcome = _
        rw [ho2, ho1]
      · intro hx; exact Option.noConfusion hx
      · intro x _; exact ⟨_, rfl⟩
  · obtain ⟨n1, g1, he1⟩ := hf1 x1 hF1
    subst he1
    simp only []
    rw [firstFailure_append_some _ _ _ _ _ hF1, issued_append_some _ _ _ _ _ hF1]
    refine ⟨_, rfl, hc1, ho1, ite_Lock_info _ _, ite_Lock_mutex _ _, ?_, ?_⟩
    · intro hx; exact Option.noConfusion hx
    · intro x _; exact ⟨_, rfl⟩

theorem ReadAt_run_mutex (this : DiskConnectHandle) (p q : Slice) (off : Int)
    (r : Result DiskConnectHandle) (h : DiskConnectHandle.ReadAt.run this p q off = some r) :
    r.this.mutex = if aligned q.len off = true then this.mutex else this.mutex + 1 := by
  simp only [DiskConnectHandle.ReadAt.run] at h
  split at h
  · cases h
  · cases h; exact ite_Lock_mutex _ _
  · split at h
    · cases h; exact ite_Lock_mutex _ _
    · split at h
      · cases h; exact ite_Lock_mutex _ _
      · cases h; exact ite_Lock_mutex _ _

theorem aligned_nat (len o : Nat) :
    aligned (len : Int) (o : Int) = true ↔ o % 512 = 0 ∧ len % 512 = 0 := by
  simp only [aligned, VIXDISKLIB_SECTOR_SIZE, Nat.cast_ofNat, tmod_nat, Bool.and_eq_true,
    decide_eq_true_eq]
  omega

theorem issued_initial (out : Nat → DevCall → Option VddkError) :
    ∀ (a : List (Part × DevCall)) (k : Nat),
      ∃ rest, a.map Prod.snd = issued out k a ++ rest := by
  intro a
  induction a with
  | nil => intro k; exact ⟨[], rfl⟩
  | cons x a ih =>
    intro k
    obtain ⟨part, c⟩ := x
    rcases Option.eq_none_or_eq_some (out k c) with hc | ⟨e, hc⟩
    · obtain ⟨rest, hrest⟩ := ih (k + 1)
      refine ⟨rest, ?_⟩
      rw [issued_cons_none hc, List.map_cons, hrest, List.cons_append]
    · refine ⟨a.map Prod.snd, ?_⟩
      rw [issued_cons_some hc, List.map_cons, List.singleton_append]

theorem consecutiveFrom_of_append :
    ∀ (l1 l2 : List DevCall) (s : Nat), consecutiveFrom s (l1 ++ l2) = true →
      consecutiveFrom s l1 = true := by
  intro l1
  induction l1 with
  | nil => intro l2 s _; rfl
  | cons c l1 ih =>
    intro l2 s h
    simp only [List.cons_append, consecutiveFrom, Bool.and_eq_true, decide_eq_true_eq] at h ⊢
    exact ⟨h.1, ih l2 _ h.2⟩

theorem readPlan_length_le (o len : Nat) : (readPlan o len).length ≤ 3 := by
  unfold readPlan
  split_ifs <;> simp

theorem readPlan_parts (o len : Nat) :
    List.Sublist ((readPlan o len).map Prod.fst) [Part.leading, Part.middle, Part.trailing] := by
  unfold readPlan
  split_ifs <;> simp

theorem readPlan_isRead (o len : Nat) :
    ∀ c ∈ (readPlan o len).map Prod.snd, isRead c = true := by
  unfold readPlan
  split_ifs <;> simp [isRead]

theorem readPlan_consecutive (o len : Nat) :
    consecutiveFrom (o / 512) ((readPlan o len).map Prod.snd) = true := by
  unfold readPlan
  split_ifs <;>
    simp only [List.append_nil, List.nil_append, List.map_cons, List.map_nil, List.cons_append,
      List.singleton_append, consecutiveFrom, firstSector, sectorCount, Bool.and_eq_true,
      decide_eq_true_eq, and_true, Bool.and_true, true_and] <;>
    (try constructor) <;> omega

theorem issued_singleton (out : Nat → DevCall → Option VddkError) (k : Nat) (part : Part)
    (c : DevCall) : issued out k [(part, c)] = [c] := by
  rcases Option.eq_none_or_eq_some (out k c) with hc | ⟨e, hc⟩
  · rw [issued_cons_none hc]; rfl
  · rw [issued_cons_some hc]

theorem writePlan_aligned (o len : Nat) (ho : o % 512 = 0) (hl : len % 512 = 0) (hpos : 0 < len) :
    writePlan o len = [(Part.middle, DevCall.Write (o / 512) (len / 512) len)] := by
  have hlead : leadLen o len = 0 := by simp only [leadLen]; rw [if_pos ho]
  have hmid : midSectors o len = len / 512 := by simp only [midSectors, hlead]; rfl
  have hrc : readCount o len = len := by rw [readCount_eq, hlead, hmid]; omega
  unfold writePlan writeLead writeMid writeTrail
  rw [if_pos ho, hmid, hrc, if_neg (by omega), if_pos (by omega)]
  have h1 : (o + 511) / 512 = o / 512 := by omega
  have h2 : 512 * (len / 512) = len := by omega
  rw [h1, h2]; rfl

theorem Capacity_le_sectors (this : DiskConnectHandle) (h : 0 ≤ this.Capacity) :
    this.Capacity ≤ (this.info.Capacity : Int) * 512 := by
  unfold DiskConnectHandle.Capacity int64 at *
  simp only [VIXDISKLIB_SECTOR_SIZE, Nat.cast_ofNat] at *
  omega

theorem clipLen_le (this : DiskConnectHandle) (p : Slice) (o L : Nat)
    (hlt : (o : Int) < this.Capacity) (hsum : (o : Int) + p.len < 2 ^ 63)
    (hL : clipLen this p o = some L) : (o : Int) + L ≤ this.Capacity := by
  have hcap := Capacity_lt this
  have hi1 : int64 (p.len : Int) = p.len := int64_of_range (by omega) (by omega)
  have hi2 : int64 ((o : Int) + p.len) = (o : Int) + p.len := int64_of_range (by omega) (by omega)
  have hi3 : int64 (this.Capacity - (o : Int)) = this.Capacity - (o : Int) :=
    int64_of_range (by omega) (by omega)
  simp only [clipLen, hi1, hi2, hi3] at hL
  by_cases hc : (o : Int) + p.len > this.Capacity
  · rw [if_pos hc] at hL
    by_cases hn : int32 (this.Capacity - (o : Int)) < 0
    · rw [if_pos hn] at hL
      exact Option.noConfusion hL
    · rw [if_neg hn] at hL
      have hL1 := Option.some.inj hL
      rw [← hL1]
      unfold int32 at hn ⊢
      omega
  · rw [if_neg hc] at hL
    have hL1 := Option.some.inj hL
    rw [← hL1]
    omega

theorem readPlan_inRange (o L c S : Nat) (hlt : o < c) (hfit : o + L ≤ c) (hmod : c % 512 = 0)
    (hS : c ≤ S * 512) :
    ∀ part call, (part, call) ∈ readPlan o L → inRange S call = true := by
  intro part call h
  have hm : midSectors o L = (L - leadLen o L) / 512 := rfl
  have hrc := readCount_eq o L
  have hlc := leadLen_cases o L
  unfold readPlan at h
  generalize midSectors o L = m at *
  generalize readCount o L = rc at *
  generalize leadLen o L = ll at *
  simp only [List.mem_append] at h
  rcases h with (h | h) | h
  · split_ifs at h
    · simp at h
    · simp only [List.mem_singleton, Prod.mk.injEq] at h
      rw [h.2]
      simp only [inRange, firstSector, sectorCount, decide_eq_true_eq]
      omega
  · split_ifs at h
    · simp at h
    · simp only [List.mem_singleton, Prod.mk.injEq] at h
      rw [h.2]
      simp only [inRange, firstSector, sectorCount, decide_eq_true_eq]
      omega
  · split_ifs at h
    · simp at h
    · simp only [List.mem_singleton, Prod.mk.injEq] at h
      rw [h.2]
      simp only [inRange, firstSector, sectorCount, decide_eq_true_eq]
      omega

theorem writePlan_inRange (o L c S : Nat) (hfit : o + L ≤ c) (hmod : c % 512 = 0)
    (hS : c ≤ S * 512) :
    ∀ part call, (part, call) ∈ writePlan o L → inRange S call = true := by
  intro part call h
  have hm : midSectors o L = (L - leadLen o L) / 512 := rfl
  have hrc := readCount_eq o L
  have hlc := leadLen_cases o L
  unfold writePlan writeLead writeMid writeTrail at h
  generalize midSectors o L = m at *
  generalize readCount o L = rc at *
  generalize leadLen o L = ll at *
  simp only [List.mem_append] at h
  rcases h with h | h | h
  · split_ifs at h
    · simp at h
    · simp only [List.mem_cons, List.mem_singleton, Prod.mk.injEq, List.not_mem_nil,
        or_false] at h
      rcases h with h | h <;> rw [h.2] <;>
        simp only [inRange, firstSector, sectorCount, decide_eq_true_eq] <;> omega
  · split_ifs at h
    · simp at h
    · simp only [List.mem_singleton, Prod.mk.injEq] at h
      rw [h.2]
      simp only [inRange, firstSector, sectorCount, decide_eq_true_eq]
      omega
  · split_ifs at h
    · simp at h
    · simp only [List.mem_cons, List.mem_singleton, Prod.mk.injEq, List.not_mem_nil,
        or_false] at h
      rcases h with h | h <;> rw [h.2] <;>
        simp only [inRange, firstSector, sectorCount, decide_eq_true_eq] <;> omega

theorem FailsOnlyOutOfRange_firstFailure (S : Nat) (out : Nat → DevCall → Option VddkError)
    (hdev : ∀ k c, inRange S c = true → out k c = none) (plan : List (Part × DevCall))
    (hplan : ∀ part call, (part, call) ∈ plan → inRange S call = true) (k : Nat) :
    firstFailure out k plan = none :=
  firstFailure_none_of_all out plan k (fun part c hc n => hdev n c (hplan part c hc))

/-! ## The claims C21 to C24 -/

/-- Claim C21 fails as stated: on a disk of four sectors (2048 bytes), a
`ReadAt` at offset 2051, which is not a multiple of 512, returns
`(0, io.EOF)` and a `WriteAt` of 100 bytes, which is not a multiple of 512, at
offset 2048 returns `(0, io.ErrShortWrite)`, both with the mutex of the handle
never taken: the capacity check returns before the alignment test.  The same
100 bytes read at offset 3 take it once. -/
theorem C21_request_turned_away_takes_no_mutex :
    (2051 : Int) % 512 ≠ 0 ∧
    ((sampleHandle 4).ReadAt (Slice.make 100) 2051).map (fun r => (r.n, r.err, r.this.mutex)) =
      some (0, some GoError.EOF, (sampleHandle 4).mutex) ∧
    (sampleBuffer 100).len % 512 ≠ 0 ∧
    ((sampleHandle 4).WriteAt (sampleBuffer 100) 2048).map (fun r => (r.n, r.err, r.this.mutex)) =
      some (0, some GoError.ErrShortWrite, (sampleHandle 4).mutex) ∧
    ((sampleHandle 4).ReadAt (Slice.make 100) 3).map (fun r => r.this.mutex) =
      some ((sampleHandle 4).mutex + 1) := by
  decide

/-- Claim C21 as amended: for an offset `off >= 0` and a buffer `p`, whatever
the device answers, a `ReadAt` with `off < capacity` that cuts the buffer down
to `L` bytes returns having taken the mutex of the handle once when
`off % 512 != 0` or `L % 512 != 0` and not at all when both are 0; a `WriteAt`
with `off + len(p) <= capacity` returns having taken it once when
`off % 512 != 0` or `len(p) % 512 != 0` and not at all when both are 0; a
`ReadAt` with `off >= capacity` and a `WriteAt` that the capacity check turns
away return without taking it, aligned or not. -/
theorem C21_mutex_taken_iff_misaligned (this : DiskConnectHandle) (p : Slice) (off : Int)
    (h0 : 0 ≤ off) (hlen : p.len < 2 ^ 63) :
    (∀ L : Nat, off < this.Capacity → clipLen this p off = some L →
      ∃ r : Result DiskConnectHandle, this.ReadAt p off = some r ∧
        r.this.mutex = this.mutex + (if off % 512 ≠ 0 ∨ L % 512 ≠ 0 then 1 else 0)) ∧
    (off + p.len ≤ this.Capacity →
      ∃ r : Result DiskConnectHandle, this.WriteAt p off = some r ∧
        r.this.mutex = this.mutex + (if off % 512 ≠ 0 ∨ p.len % 512 ≠ 0 then 1 else 0)) ∧
    (off ≥ this.Capacity →
      ∃ r : Result DiskConnectHandle, this.ReadAt p off = some r ∧ r.this.mutex = this.mutex) ∧
    (off > this.Capacity ∨ int64 (off + int64 p.len) > this.Capacity →
      ∃ r : Result DiskConnectHandle, this.WriteAt p off = some r ∧ r.this.mutex = this.mutex) := by
  have hcap := Capacity_lt this
  obtain ⟨o, rfl⟩ := Int.eq_ofNat_of_zero_le h0
  refine ⟨?_, ?_, ?_, ?_⟩
  · intro L hlt hL
    have hLlt := clipLen_lt this p o L hlen hL
    rw [ReadAt_eq_run this p o L hlt hL]
    have hql : (p.slice 0 L).len = L := by simp [Slice.slice]
    obtain ⟨r, hr, -⟩ :=
      ReadAt_run_trace this p (p.slice 0 L) o (by omega) (by rw [hql]; exact hLlt)
    refine ⟨r, hr, ?_⟩
    rw [ReadAt_run_mutex this p _ _ r hr, hql]
    have ha := aligned_nat L o
    by_cases hb : aligned (L : Int) (o : Int) = true
    · rw [if_pos hb, if_neg (by have := ha.mp hb; omega)]; rfl
    · rw [if_neg hb, if_pos (by
        by_contra hc
        exact hb (ha.mpr (by omega)))]
  · intro hfit
    obtain ⟨r, hr, -, -, -, hm, -⟩ := WriteAt_trace this p o hfit
    refine ⟨r, hr, ?_⟩
    rw [hm]
    have ha := aligned_nat p.len o
    by_cases hb : aligned (p.len : Int) (o : Int) = true
    · rw [if_pos hb, if_neg (by have := ha.mp hb; omega)]; rfl
    · rw [if_neg hb, if_pos (by
        by_contra hc
        exact hb (ha.mpr (by omega)))]
  · intro hge
    refine ⟨⟨this, p, 0, some GoError.EOF⟩, ?_, rfl⟩
    simp only [DiskConnectHandle.ReadAt]
    rw [if_pos hge]
  · intro hrej
    refine ⟨⟨this, p, 0, some GoError.ErrShortWrite⟩, ?_, rfl⟩
    simp only [DiskConnectHandle.WriteAt]
    rw [if_pos hrej]

/-- A witness of amended claim C21: 100 bytes at offset 3 of a disk of four
sectors whose first call fails take the mutex once, for `ReadAt` and for
`WriteAt`. -/
theorem C21_mutex_taken_iff_misaligned_witness :
    (0 : Int) ≤ 3 ∧ (sampleBuffer 100).len < 2 ^ 63 ∧
    (3 : Int) < (faultyHandle 4 0 ⟨1, "failed"⟩).Capacity ∧
    clipLen (faultyHandle 4 0 ⟨1, "failed"⟩) (sampleBuffer 100) 3 = some 100 ∧
    (3 : Int) + (sampleBuffer 100).len ≤ (faultyHandle 4 0 ⟨1, "failed"⟩).Capacity ∧
    (∃ r : Result DiskConnectHandle,
      (faultyHandle 4 0 ⟨1, "failed"⟩).ReadAt (sampleBuffer 100) 3 = some r ∧
      r.this.mutex = (faultyHandle 4 0 ⟨1, "failed"⟩).mutex +
        (if (3 : Int) % 512 ≠ 0 ∨ 100 % 512 ≠ 0 then 1 else 0)) ∧
    (∃ r : Result DiskConnectHandle,
      (faultyHandle 4 0 ⟨1, "failed"⟩).WriteAt (sampleBuffer 100) 3 = some r ∧
      r.this.mutex = (faultyHandle 4 0 ⟨1, "failed"⟩).mutex +
        (if (3 : Int) % 512 ≠ 0 ∨ (sampleBuffer 100).len % 512 ≠ 0 then 1 else 0)) :=
  ⟨by decide, by decide, by decide, by decide, by decide,
    (C21_mutex_taken_iff_misaligned (faultyHandle 4 0 ⟨1, "failed"⟩) (sampleBuffer 100) 3
      (by decide) (by decide)).1 100 (by decide) (by decide),
    (C21_mutex_taken_iff_misaligned (faultyHandle 4 0 ⟨1, "failed"⟩) (sampleBuffer 100) 3
      (by decide) (by decide)).2.1 (by decide)⟩

/-- Claim C22 fails as stated: on a disk of four sectors (2048 bytes) whose
every call succeeds, a `WriteAt` of 1024 bytes at offset 1536 and one of 512
bytes at offset 2048 are aligned in offset and length with `len(p) > 0`, yet
they are turned away with `io.ErrShortWrite` and the device receives no write;
512 bytes at offset 1536 are one device write. -/
theorem C22_aligned_write_beyond_capacity_issues_no_write :
    aligned (sampleBuffer 1024).len 1536 = true ∧ aligned (sampleBuffer 512).len 2048 = true ∧
    ((sampleHandle 4).WriteAt (sampleBuffer 1024) 1536).map
        (fun r => (r.n, r.err, r.this.dli.calls)) =
      some (0, some GoError.ErrShortWrite, []) ∧
    ((sampleHandle 4).WriteAt (sampleBuffer 512) 2048).map
        (fun r => (r.n, r.err, r.this.dli.calls)) =
      some (0, some GoError.ErrShortWrite, []) ∧
    ((sampleHandle 4).WriteAt (sampleBuffer 512) 1536).map
        (fun r => (r.n, r.err, r.this.dli.calls)) =
      some (512, none, [DevCall.Write 3 1 512]) := by
  decide

/-- Claim C22 as amended: for an offset `0 <= off < capacity` and a buffer `p`
that `ReadAt` cuts down to `L` bytes, whatever the device answers, the calls
that the device receives during `ReadAt(p, off)` are the first calls of
`readPlan off L`, whose sub-operations are in the order leading, middle,
trailing: at most three calls, all of them reads, whose sector ranges are
consecutive and ascending from sector `off / 512`.  For a `WriteAt` with
`off >= 0`, `off % 512 = 0`, `len(p) % 512 = 0`, `len(p) > 0` and
`off + len(p) <= capacity`, the device receives exactly one call, the write of
`len(p) / 512` sectors at sector `off / 512` from a buffer of `len(p)` bytes,
and no read. -/
theorem C22_device_calls_of_ReadAt_and_aligned_WriteAt (this : DiskConnectHandle) (p : Slice)
    (off : Int) (h0 : 0 ≤ off) (hlen : p.len < 2 ^ 63) :
    (∀ L : Nat, off < this.Capacity → clipLen this p off = some L →
      ∃ (r : Result DiskConnectHandle) (calls : List DevCall),
        this.ReadAt p off = some r ∧ r.this.dli.calls = this.dli.calls ++ calls ∧
        (∃ rest, (readPlan off.toNat L).map Prod.snd = calls ++ rest) ∧
        List.Sublist ((readPlan off.toNat L).map Prod.fst)
          [Part.leading, Part.middle, Part.trailing] ∧
        calls.length ≤ 3 ∧ (∀ c ∈ calls, isRead c = true) ∧
        consecutiveFrom (off.toNat / 512) calls = true) ∧
    (off % 512 = 0 → p.len % 512 = 0 → 0 < p.len → off + p.len ≤ this.Capacity →
      ∃ r : Result DiskConnectHandle, this.WriteAt p off = some r ∧
        r.this.dli.calls =
          this.dli.calls ++ [DevCall.Write (off.toNat / 512) (p.len / 512) p.len]) := by
  have hcap := Capacity_lt this
  obtain ⟨o, rfl⟩ := Int.eq_ofNat_of_zero_le h0
  simp only [Int.toNat_ofNat]
  refine ⟨?_, ?_⟩
  · intro L hlt hL
    have hLlt := clipLen_lt this p o L hlen hL
    rw [ReadAt_eq_run this p o L hlt hL]
    have hql : (p.slice 0 L).len = L := by simp [Slice.slice]
    obtain ⟨r, hr, hcalls, -⟩ :=
      ReadAt_run_trace this p (p.slice 0 L) o (by omega) (by rw [hql]; exact hLlt)
    rw [hql] at hcalls
    obtain ⟨rest, hrest⟩ := issued_initial this.dli.outcome (readPlan o L) this.dli.calls.length
    refine ⟨r, _, hr, hcalls, ⟨rest, hrest⟩, readPlan_parts o L, ?_, ?_, ?_⟩
    · have h1 := congrArg List.length hrest
      have h2 := readPlan_length_le o L
      rw [List.length_map, List.length_append] at h1
      omega
    · intro c hc
      exact readPlan_isRead o L c (by rw [hrest]; exact List.mem_append_left _ hc)
    · exact consecutiveFrom_of_append _ rest _ (by rw [← hrest]; exact readPlan_consecutive o L)
  · intro ha hl hpos hfit
    obtain ⟨r, hr, hcalls, -⟩ := WriteAt_trace this p o hfit
    refine ⟨r, hr, ?_⟩
    rw [hcalls, writePlan_aligned o p.len (by omega) hl hpos, issued_singleton]

/-- A witness of amended claim C22: on a disk of eight sectors whose second
call fails, a `ReadAt` of 1200 bytes at offset 500, and on one whose first call
fails, a `WriteAt` of 1024 bytes at offset 1024. -/
theorem C22_device_calls_of_ReadAt_and_aligned_WriteAt_witness :
    (0 : Int) ≤ 500 ∧ (0 : Int) ≤ 1024 ∧ (Slice.make 1200).len < 2 ^ 63 ∧
    (sampleBuffer 1024).len < 2 ^ 63 ∧
    (500 : Int) < (faultyHandle 8 1 ⟨1, "failed"⟩).Capacity ∧
    clipLen (faultyHandle 8 1 ⟨1, "failed"⟩) (Slice.make 1200) 500 = some 1200 ∧
    (1024 : Int) % 512 = 0 ∧ (sampleBuffer 1024).len % 512 = 0 ∧ 0 < (sampleBuffer 1024).len ∧
    (1024 : Int) + (sampleBuffer 1024).len ≤ (faultyHandle 8 0 ⟨1, "failed"⟩).Capacity ∧
    (∃ (r : Result DiskConnectHandle) (calls : List DevCall),
      (faultyHandle 8 1 ⟨1, "failed"⟩).ReadAt (Slice.make 1200) 500 = some r ∧
      r.this.dli.calls = (faultyHandle 8 1 ⟨1, "failed"⟩).dli.calls ++ calls ∧
      (∃ rest, (readPlan (500 : Int).toNat 1200).map Prod.snd = calls ++ rest) ∧
      List.Sublist ((readPlan (500 : Int).toNat 1200).map Prod.fst)
        [Part.leading, Part.middle, Part.trailing] ∧
      calls.length ≤ 3 ∧ (∀ c ∈ calls, isRead c = true) ∧
      consecutiveFrom ((500 : Int).toNat / 512) calls = true) ∧
    ∃ r : Result DiskConnectHandle,
      (faultyHandle 8 0 ⟨1, "failed"⟩).WriteAt (sampleBuffer 1024) 1024 = some r ∧
      r.this.dli.calls = (faultyHandle 8 0 ⟨1, "failed"⟩).dli.calls ++
        [DevCall.Write ((1024 : Int).toNat / 512) ((sampleBuffer 1024).len / 512)
          (sampleBuffer 1024).len] :=
  ⟨by decide, by decide, by decide, by decide, by decide, by decide, by decide, by decide,
    by decide, by decide,
    (C22_device_calls_of_ReadAt_and_aligned_WriteAt (faultyHandle 8 1 ⟨1, "failed"⟩)
      (Slice.make 1200) 500 (by decide) (by decide)).1 1200 (by decide) (by decide),
    (C22_device_calls_of_ReadAt_and_aligned_WriteAt (faultyHandle 8 0 ⟨1, "failed"⟩)
      (sampleBuffer 1024) 1024 (by decide) (by decide)).2 (by decide) (by decide) (by decide)
      (by decide)⟩

/-- Claim C23, at inputs where the code departs from it: on a disk of
`2^22 + 1` sectors a `ReadAt` at offset 512 with a buffer of `2^31 + 1` bytes
has `capacity - off = 2^31`, `int32(capacity - off)` is `-2^31`, a negative
slice bound, and `p[0:readLen]` panics; on a disk of `2^23 + 2` sectors a
`ReadAt` at offset 512 with a buffer of `2^32 + 1024` bytes has
`capacity - off = 2^32 + 512`, the conversion cuts it to 512, and the call
reads one sector and returns `(512, nil)`. -/
theorem C23_clip_through_int32_wraps_and_panics :
    (512 : Int) < (sampleHandle (2 ^ 22 + 1)).Capacity ∧
    (sampleHandle (2 ^ 22 + 1)).Capacity - 512 = 2 ^ 31 ∧
    int32 (int64 ((sampleHandle (2 ^ 22 + 1)).Capacity - 512)) = -2 ^ 31 ∧
    clipLen (sampleHandle (2 ^ 22 + 1)) (Slice.make (2 ^ 31 + 1)) 512 = none ∧
    ((sampleHandle (2 ^ 22 + 1)).ReadAt (Slice.make (2 ^ 31 + 1)) 512).isNone = true ∧
    (512 : Int) < (sampleHandle (2 ^ 23 + 2)).Capacity ∧
    (sampleHandle (2 ^ 23 + 2)).Capacity - 512 = 2 ^ 32 + 512 ∧
    clipLen (sampleHandle (2 ^ 23 + 2)) (Slice.make (2 ^ 32 + 1024)) 512 = some 512 ∧
    ((sampleHandle (2 ^ 23 + 2)).ReadAt (Slice.make (2 ^ 32 + 1024)) 512).map
        (fun r => (r.n, r.err, r.this.dli.calls)) =
      some (512, none, [DevCall.Read 1 1 512]) := by
  decide

/-- Claim C24 fails as stated: on a disk of four sectors that fails exactly
the calls whose sector range leaves the disk, a `ReadAt` at offset 512 with a
buffer of `2^63 - 512` bytes is not cut down, because the sum `off + len(p)` of
the guard leaves `int64`; its middle run is a device read of `2^54 - 1` sectors
from sector 1, beyond the four sectors of the disk, the device fails it, and
the call returns `(0, io.EOF)`. -/
theorem C24_oversized_buffer_reads_beyond_capacity :
    (0 : Int) ≤ 512 ∧ (512 : Int) < (boundedHandle 4).Capacity ∧
    ((boundedHandle 4).ReadAt (Slice.make (2 ^ 63 - 512)) 512).map
        (fun r => (r.n, r.err, r.this.dli.calls)) =
      some (0, some GoError.EOF, [DevCall.Read 1 (2 ^ 54 - 1) (2 ^ 63 - 512)]) ∧
    inRange (boundedHandle 4).info.Capacity (DevCall.Read 1 (2 ^ 54 - 1) (2 ^ 63 - 512)) = false := by
  decide

/-- Claim C24 as amended: for an offset `off >= 0` and a buffer `p`, whatever
the device answers, every call that the device receives during a `ReadAt` with
`off < capacity` and `off + len(p) < 2^63` (the buffer cut down to `L` bytes),
and during a `WriteAt` with `off + len(p) <= capacity`, addresses a sector
range `[s, s + count)` with `s + count <= capacitySectors`; and when the device
fails only calls whose range leaves the disk, the `ReadAt` returns a nil error
and the `WriteAt` returns `(len(p), nil)`. -/
theorem C24_device_calls_stay_within_capacity (this : DiskConnectHandle) (p : Slice)
    (off : Int) (h0 : 0 ≤ off) :
    (∀ L : Nat, off < this.Capacity → off + p.len < 2 ^ 63 → clipLen this p off = some L →
      ∃ (r : Result DiskConnectHandle) (calls : List DevCall),
        this.ReadAt p off = some r ∧ r.this.dli.calls = this.dli.calls ++ calls ∧
        (∀ c ∈ calls, inRange this.info.Capacity c = true) ∧
        (FailsOnlyOutOfRange this.info.Capacity this.dli → r.err = none)) ∧
    (off + p.len ≤ this.Capacity →
      ∃ (r : Result DiskConnectHandle) (calls : List DevCall),
        this.WriteAt p off = some r ∧ r.this.dli.calls = this.dli.calls ++ calls ∧
        (∀ c ∈ calls, inRange this.info.Capacity c = true) ∧
        (FailsOnlyOutOfRange this.info.Capacity this.dli → r.n = p.len ∧ r.err = none)) := by
  have hcap := Capacity_lt this
  have hmod := Capacity_mod this
  obtain ⟨o, rfl⟩ := Int.eq_ofNat_of_zero_le h0
  refine ⟨?_, ?_⟩
  · intro L hlt hsum hL
    have hle := Capacity_le_sectors this (by omega)
    obtain ⟨c, hc⟩ : ∃ c : Nat, this.Capacity = (c : Int) :=
      ⟨this.Capacity.toNat, by omega⟩
    rw [hc] at hlt hle hmod
    have hLle := clipLen_le this p o L (by rw [hc]; exact hlt) hsum hL
    rw [hc] at hLle
    have hLlt : L < 2 ^ 63 := by omega
    rw [ReadAt_eq_run this p o L (by rw [hc]; exact hlt) hL]
    have hql : (p.slice 0 L).len = L := by simp [Slice.slice]
    obtain ⟨r, hr, hcalls, -, -, -, -, hnone, -⟩ :=
      ReadAt_run_trace this p (p.slice 0 L) o (by omega) (by rw [hql]; exact hLlt)
    rw [hql] at hcalls hnone
    have hplan := readPlan_inRange o L c this.info.Capacity (by omega) (by omega) (by omega)
      (by omega)
    refine ⟨r, _, hr, hcalls, ?_, ?_⟩
    · intro call hcall
      obtain ⟨part, hpart⟩ := issued_subset _ _ _ _ hcall
      exact hplan part call hpart
    · intro hdev
      exact (hnone (FailsOnlyOutOfRange_firstFailure _ _ hdev _ hplan _)).2
  · intro hfit
    have hle := Capacity_le_sectors this (by omega)
    obtain ⟨c, hc⟩ : ∃ c : Nat, this.Capacity = (c : Int) :=
      ⟨this.Capacity.toNat, by omega⟩
    obtain ⟨r, hr, hcalls, -, -, -, hnone, -⟩ := WriteAt_trace this p o hfit
    rw [hc] at hfit hle hmod
    have hplan := writePlan_inRange o p.len c this.info.Capacity (by omega) (by omega) (by omega)
    refine ⟨r, _, hr, hcalls, ?_, ?_⟩
    · intro call hcall
      obtain ⟨part, hpart⟩ := issued_subset _ _ _ _ hcall
      exact hplan part call hpart
    · intro hdev
      exact hnone (FailsOnlyOutOfRange_firstFailure _ _ hdev _ hplan _)

/-- A witness of amended claim C24: 1200 bytes at offset 500 of a disk of four
sectors that fails exactly the calls whose sector range leaves the disk. -/
theorem C24_device_calls_stay_within_capacity_witness :
    (0 : Int) ≤ 500 ∧ (500 : Int) < (boundedHandle 4).Capacity ∧
    (500 : Int) + (sampleBuffer 1200).len < 2 ^ 63 ∧
    clipLen (boundedHandle 4) (sampleBuffer 1200) 500 = some 1200 ∧
    (500 : Int) + (sampleBuffer 1200).len ≤ (boundedHandle 4).Capacity ∧
    FailsOnlyOutOfRange (boundedHandle 4).info.Capacity (boundedHandle 4).dli ∧
    (∃ (r : Result DiskConnectHandle) (calls : List DevCall),
      (boundedHandle 4).ReadAt (sampleBuffer 1200) 500 = some r ∧
      r.this.dli.calls = (boundedHandle 4).dli.calls ++ calls ∧
      (∀ c ∈ calls, inRange (boundedHandle 4).info.Capacity c = true) ∧ r.err = none) ∧
    ∃ (r : Result DiskConnectHandle) (calls : List DevCall),
      (boundedHandle 4).WriteAt (sampleBuffer 1200) 500 = some r ∧
      r.this.dli.calls = (boundedHandle 4).dli.calls ++ calls ∧
      (∀ c ∈ calls, inRange (boundedHandle 4).info.Capacity c = true) ∧
      r.n = (sampleBuffer 1200).len ∧ r.err = none := by
  have hdev : FailsOnlyOutOfRange (boundedHandle 4).info.Capacity (boundedHandle 4).dli := by
    intro k c hc
    have hc4 : inRange 4 c = true := hc
    show (if inRange 4 c = true then none else some _) = none
    rw [if_pos hc4]
  have h := C24_device_calls_stay_within_capacity (boundedHandle 4) (sampleBuffer 1200) 500
    (by decide)
  obtain ⟨r1, calls1, hr1, hc1, hin1, he1⟩ := h.1 1200 (by decide) (by decide) (by decide)
  obtain ⟨r2, calls2, hr2, hc2, hin2, he2⟩ := h.2 (by decide)
  exact ⟨by decide, by decide, by decide, by decide, by decide, hdev,
    ⟨r1, calls1, hr1, hc1, hin1, he1 hdev⟩,
    ⟨r2, calls2, hr2, hc2, hin2, (he2 hdev).1, (he2 hdev).2⟩⟩

end VirtualDisks
